import Mathlib

/-!
# A shallow embedding of `github.com/thcyron/sudoku`

The Go package keeps a `Grid` of `[9][9]Node`; every `Node` holds a
`map[int]bool` of candidate digits and a `Fixed` flag.  The functions below
follow `sudoku.go` one by one.  Mutation through the receiver pointer is made
explicit: every function returns the grid it leaves behind together with the
values the Go function returns.  Run-time panics of the Go code are values of
`Fault`.
-/

namespace Sudoku

/-! ## Faults -/

/-- The ways a call can fail to return: the two `panic`s of `Node.Val`, the
run-time index check of `g.Nodes[x][y]`, and the exhaustion of the iteration
budget that the embedding gives to the unbounded `for` loops. -/
inductive Fault where
  | indexOutOfRange
  | multipleValues
  | noValues
  | outOfFuel
deriving DecidableEq, Repr

/-! ## Node -/

/-- A `Node` of the Go code.  `Vals` lists the keys that the `map[int]bool`
maps to `true`.  The map of every node is created by `NewNode` with the keys
`1..9` and no key is ever deleted, so a lookup, `Len`, `Val`, `Fix`, `Remove`
and `Copy` depend only on that set of keys. -/
structure Node where
  Vals : List Int
  Fixed : Bool
deriving DecidableEq, Repr

/-- `NewNode()`: all of `1..9` possible, not fixed. -/
def NewNode : Node :=
  { Vals := [1, 2, 3, 4, 5, 6, 7, 8, 9], Fixed := false }

/-- The map lookup `n.Vals[val]`. -/
def Node.has (n : Node) (val : Int) : Bool :=
  decide (val ∈ n.Vals)

/-- `Node.Len`: the number of keys mapped to `true`. -/
def Node.Len (n : Node) : Nat :=
  n.Vals.length

/-- `Node.Val`: panics when more than one value is left, returns the value
that is left, panics when none is left. -/
def Node.Val (n : Node) : Except Fault Int :=
  if n.Len > 1 then .error .multipleValues
  else
    match n.Vals with
    | k :: _ => .ok k
    | [] => .error .noValues

/-- `Node.Fix`: every key is set to `false`, then `val` to `true`. -/
def Node.Fix (_n : Node) (val : Int) : Node :=
  { Vals := [val], Fixed := true }

/-- `Node.Remove`: the node after the call and the returned flag. -/
def Node.Remove (n : Node) (val : Int) : Node × Bool :=
  if n.Fixed then (n, false)
  else if n.has val then ({ n with Vals := n.Vals.filter (fun k => k ≠ val) }, true)
  else (n, false)

/-- `Node.Copy`: a fresh node with the same flag and the same entries. -/
def Node.Copy (n : Node) : Node :=
  { Vals := n.Vals, Fixed := n.Fixed }

/-! ## Grid -/

/-- The largest value of the Go `int`, which has 64 bits on the 64-bit
platforms. -/
def maxInt : Int := 9223372036854775807

/-- The smallest value of the Go `int`. -/
def minInt : Int := -9223372036854775808

/-- The `int` that Go arithmetic gives where the integers give `n`: the value
wraps around at the bounds of `int`. -/
def wrapInt (n : Int) : Int :=
  (n + 9223372036854775808) % 18446744073709551616 - 9223372036854775808

/-- A `Grid` of the Go code: `Nodes[x][y]` is the node of column `x`, row `y`.
The two length fields carry the array type `[9][9]Node`.  `FixedNodes` is the
Go `int` counter; the only arithmetic on it is the `++` of `FixNode`. -/
structure Grid where
  Nodes : List (List Node)
  FixedNodes : Int
  cols_len : Nodes.length = 9
  rows_len : ∀ c ∈ Nodes, c.length = 9

instance : DecidableEq Grid := fun a b =>
  decidable_of_iff (a.Nodes = b.Nodes ∧ a.FixedNodes = b.FixedNodes) (by
    cases a; cases b; simp)

/-- `NewGrid()`: 81 fresh nodes, counter 0. -/
def NewGrid : Grid :=
  { Nodes := List.replicate 9 (List.replicate 9 NewNode)
    FixedNodes := 0
    cols_len := List.length_replicate _ _
    rows_len := by
      intro c hc
      rw [List.eq_of_mem_replicate hc]
      exact List.length_replicate _ _ }

/-- A `*Node` pointing into `g.Nodes`: the column `x` and the row `y` of the
node `g.Nodes[x][y]`. -/
abbrev Cell := Fin 9 × Fin 9

/-- `g.NodeAt(x, y)`: the pointer `&g.Nodes[x][y]`, with the index check of Go
arrays.  The indices are the Go `int`s from 0 on; a negative index fails the
same check as one above 8. -/
def Grid.NodeAt (_g : Grid) (x y : Nat) : Except Fault Cell :=
  if hx : x < 9 then
    if hy : y < 9 then .ok (⟨x, hx⟩, ⟨y, hy⟩)
    else .error .indexOutOfRange
  else .error .indexOutOfRange

/-- A read through a node pointer.  Both indices are below 9 and the lengths
are 9, so the defaults are never reached. -/
def Grid.get (g : Grid) (p : Cell) : Node :=
  (g.Nodes.getD p.1.val []).getD p.2.val NewNode

/-- A write through a node pointer: the grid with the node at `p` replaced by
`n`. -/
def Grid.setNode (g : Grid) (p : Cell) (n : Node) : Grid :=
  { Nodes := g.Nodes.set p.1.val ((g.Nodes.getD p.1.val []).set p.2.val n)
    FixedNodes := g.FixedNodes
    cols_len := by
      rw [List.length_set]
      exact g.cols_len
    rows_len := by
      intro c hc
      by_cases hx : p.1.val < g.Nodes.length
      · rcases List.mem_or_eq_of_mem_set hc with hc | hc
        · exact g.rows_len c hc
        · subst hc
          rw [List.length_set, List.getD_eq_getElem _ _ hx]
          exact g.rows_len _ (List.getElem_mem _)
      · rw [List.set_eq_of_length_le (Nat.le_of_not_lt hx)] at hc
        exact g.rows_len c hc }

/-- `Grid.Copy`: a new grid with the same counter and a copy of every node. -/
def Grid.Copy (g : Grid) : Grid :=
  { Nodes := g.Nodes.map (fun c => c.map Node.Copy)
    FixedNodes := g.FixedNodes
    cols_len := by
      rw [List.length_map]
      exact g.cols_len
    rows_len := by
      intro c hc
      rcases List.mem_map.1 hc with ⟨c0, hc0, rfl⟩
      rw [List.length_map]
      exact g.rows_len c0 hc0 }

/-- `Grid.Complete`. -/
def Grid.Complete (g : Grid) : Bool :=
  g.FixedNodes == 9 * 9

/-- The assignment `g.Nodes = ng.Nodes` at the end of `Solve`: the node array
is replaced, the counter of `g` stays. -/
def Grid.withNodesOf (g ng : Grid) : Grid :=
  { Nodes := ng.Nodes
    FixedNodes := g.FixedNodes
    cols_len := ng.cols_len
    rows_len := ng.rows_len }

/-- The statement `g.FixedNodes++`, in the arithmetic of `int`. -/
def Grid.incFixedNodes (g : Grid) : Grid :=
  { Nodes := g.Nodes
    FixedNodes := wrapInt (g.FixedNodes + 1)
    cols_len := g.cols_len
    rows_len := g.rows_len }

/-! ## Groups of cells -/

/-- The cells in the order of the loops `for x { for y { ... } }` of `FixNext`
and `Solve`; both loop variables stay below 9. -/
def colMajor : List Cell :=
  (List.finRange 9).flatMap (fun x => (List.finRange 9).map (fun y => (x, y)))

/-- The cells in the order of the loops `for y { for x { ... } }` of `String`. -/
def rowMajor : List Cell :=
  (List.finRange 9).flatMap (fun y => (List.finRange 9).map (fun x => (x, y)))

/-- The number of candidates left in the whole grid; it bounds the number of
passes of the propagation loop of `FixNode`. -/
def Grid.size (g : Grid) : Nat :=
  (colMajor.map (fun c => (g.get c).Len)).sum

/-- The calls `g.NodeAt(x, y)` for the listed `(x, y)`, collected in a slice. -/
def Grid.nodesFor (g : Grid) : List (Nat × Nat) → Except Fault (List Cell)
  | [] => .ok []
  | (x, y) :: cs =>
    match g.NodeAt x y with
    | .error e => .error e
    | .ok p =>
      match g.nodesFor cs with
      | .error e => .error e
      | .ok ps => .ok (p :: ps)

/-- `NodesForCol(x)`: the loop `for y := 0; y < 9; y++`. -/
def Grid.NodesForCol (g : Grid) (x : Nat) : Except Fault (List Cell) :=
  g.nodesFor ((List.range 9).map (fun y => (x, y)))

/-- `NodesForRow(y)`: the loop `for x := 0; x < 9; x++`. -/
def Grid.NodesForRow (g : Grid) (y : Nat) : Except Fault (List Cell) :=
  g.nodesFor ((List.range 9).map (fun x => (x, y)))

/-- `NodesForBox(x, y)`: rows `yy` outside, columns `xx` inside, from the corner
`(3 * (x / 3), 3 * (y / 3))`. -/
def Grid.NodesForBox (g : Grid) (x y : Nat) : Except Fault (List Cell) :=
  g.nodesFor ((List.range 3).flatMap (fun dy => (List.range 3).map (fun dx =>
    (3 * (x / 3) + dx, 3 * (y / 3) + dy))))

/-! ## Propagation -/

/-- The inner loop `for j := 0; j < 9; j++` of `reduceNodes` for the node `i`
with value `v`, from the listed `j` on.  Returns the grid, `reduced` and
`invalid`. -/
def Grid.reduceInner (ns : List Cell) (i : Nat) (v : Int) :
    List Nat → Grid → Bool → Except Fault (Grid × Bool × Bool)
  | [], g, reduced => .ok (g, reduced, false)
  | j :: js, g, reduced =>
    if j = i then Grid.reduceInner ns i v js g reduced
    else
      match ns[j]? with
      | none => .error .indexOutOfRange
      | some nn =>
        if ((g.get nn).Remove v).2 then
          if ((g.get nn).Remove v).1.Len = 0 then
            .ok (g.setNode nn ((g.get nn).Remove v).1, true, true)
          else Grid.reduceInner ns i v js (g.setNode nn ((g.get nn).Remove v).1) true
        else Grid.reduceInner ns i v js g reduced

/-- The outer loop `for i := 0; i < 9; i++` of `reduceNodes`, from the listed
`i` on. -/
def Grid.reduceOuter (ns : List Cell) :
    List Nat → Grid → Bool → Except Fault (Grid × Bool × Bool)
  | [], g, reduced => .ok (g, reduced, false)
  | i :: is, g, reduced =>
    match ns[i]? with
    | none => .error .indexOutOfRange
    | some n =>
      if (g.get n).Len ≠ 1 then Grid.reduceOuter ns is g reduced
      else
        match (g.get n).Val with
        | .error e => .error e
        | .ok v =>
          match Grid.reduceInner ns i v (List.range 9) g reduced with
          | .error e => .error e
          | .ok (g1, reduced1, invalid) =>
            if invalid then .ok (g1, true, true)
            else Grid.reduceOuter ns is g1 reduced1

/-- `g.reduceNodes(ns)`: the grid it leaves, `reduced` and `invalid`. -/
def Grid.reduceNodes (g : Grid) (ns : List Cell) : Except Fault (Grid × Bool × Bool) :=
  Grid.reduceOuter ns (List.range 9) g false

/-- `ReduceCol(x)`. -/
def Grid.ReduceCol (g : Grid) (x : Nat) : Except Fault (Grid × Bool × Bool) :=
  match g.NodesForCol x with
  | .error e => .error e
  | .ok ns => g.reduceNodes ns

/-- `ReduceRow(y)`. -/
def Grid.ReduceRow (g : Grid) (y : Nat) : Except Fault (Grid × Bool × Bool) :=
  match g.NodesForRow y with
  | .error e => .error e
  | .ok ns => g.reduceNodes ns

/-- `ReduceBox(x, y)`. -/
def Grid.ReduceBox (g : Grid) (x y : Nat) : Except Fault (Grid × Bool × Bool) :=
  match g.NodesForBox x y with
  | .error e => .error e
  | .ok ns => g.reduceNodes ns

/-- One of the 27 calls made by a pass of `Reduce`. -/
inductive Group where
  | col (x : Nat)
  | row (y : Nat)
  | box (x y : Nat)
deriving DecidableEq, Repr

/-- The call `ReduceCol`, `ReduceRow` or `ReduceBox` of a group. -/
def Grid.reduceGroup (g : Grid) : Group → Except Fault (Grid × Bool × Bool)
  | .col x => g.ReduceCol x
  | .row y => g.ReduceRow y
  | .box x y => g.ReduceBox x y

/-- The calls of one pass of `Reduce` in the order of its three loops: the
columns `x = 0..8`, the rows `y = 0..8`, the boxes `x = 0, 3, 6` outside and
`y = 0, 3, 6` inside. -/
def allGroups : List Group :=
  (List.range 9).map Group.col ++ (List.range 9).map Group.row ++
    (List.range 3).flatMap (fun bx => (List.range 3).map (fun b => Group.box (3 * bx) (3 * b)))

/-- The body shared by the three loops of `Reduce`: an invalid group returns
`(true, true)` at once, a reduced group sets `reduced`. -/
def Grid.reduceGroups : List Group → Grid → Bool → Except Fault (Grid × Bool × Bool)
  | [], g, reduced => .ok (g, reduced, false)
  | gr :: grs, g, reduced =>
    match g.reduceGroup gr with
    | .error e => .error e
    | .ok (g1, red, inval) =>
      if inval then .ok (g1, true, true)
      else Grid.reduceGroups grs g1 (if red then true else reduced)

/-- `Grid.Reduce`: the grid after the pass, `reduced` and `invalid`. -/
def Grid.Reduce (g : Grid) : Except Fault (Grid × Bool × Bool) :=
  Grid.reduceGroups allGroups g false

/-- The loop `for { red, inval := g.Reduce(); ... }` of `FixNode`: the grid it
leaves and whether it ended on `inval`. -/
def Grid.reduceLoop : Nat → Grid → Except Fault (Grid × Bool)
  | 0, _ => .error .outOfFuel
  | fuel + 1, g =>
    match g.Reduce with
    | .error e => .error e
    | .ok (g1, red, inval) =>
      if inval then .ok (g1, true)
      else if !red then .ok (g1, false)
      else Grid.reduceLoop fuel g1

/-- `g.FixNode(n, val)`: the grid it leaves and the returned flag.  A pass of
`Reduce` that reports a reduction removes a candidate, so the loop makes at
most `size + 1` passes. -/
def Grid.FixNode (g : Grid) (n : Cell) (val : Int) : Except Fault (Grid × Bool) :=
  if !(g.get n).has val then .ok (g, false)
  else
    match Grid.reduceLoop ((g.setNode n ((g.get n).Fix val)).size + 1)
        (g.setNode n ((g.get n).Fix val)) with
    | .error e => .error e
    | .ok (g1, inval) =>
      if inval then .ok (g1, false)
      else .ok (g1.incFixedNodes, true)

/-- `g.Fix(x, y, val)`. -/
def Grid.Fix (g : Grid) (x y : Nat) (val : Int) : Except Fault (Grid × Bool) :=
  match g.NodeAt x y with
  | .error e => .error e
  | .ok n => g.FixNode n val

/-- The two loops of `FixNext` over the listed cells: the grid it leaves,
`fixed` and `inval`. -/
def Grid.fixNextFrom : List Cell → Grid → Except Fault (Grid × Bool × Bool)
  | [], g => .ok (g, false, false)
  | n :: cs, g =>
    if (g.get n).Fixed || (g.get n).Len ≠ 1 then Grid.fixNextFrom cs g
    else
      match (g.get n).Val with
      | .error e => .error e
      | .ok v =>
        match g.FixNode n v with
        | .error e => .error e
        | .ok (g1, ok) => .ok (g1, true, !ok)

/-- `Grid.FixNext`. -/
def Grid.FixNext (g : Grid) : Except Fault (Grid × Bool × Bool) :=
  Grid.fixNextFrom colMajor g

/-! ## Reading and printing -/

/-- The errors returned by `Set`: `"sudoku: invalid length"`,
`"sudoku: invalid grid"` and `"sudoku: invalid char %c"`. -/
inductive SetError where
  | invalidLength
  | invalidGrid
  | invalidChar (c : Nat)
deriving DecidableEq, Repr

/-- The loop `for i := 0; i < 9*9; i++` of `Set` over the bytes from index `i`
on: the grid it leaves and the returned `(bool, error)`. -/
def Grid.setFrom : List Nat → Nat → Grid → Except Fault (Grid × Bool × Option SetError)
  | [], _, g => .ok (g, true, none)
  | c :: cs, i, g =>
    if c = 48 ∨ c = 32 ∨ c = 95 then Grid.setFrom cs (i + 1) g
    else if 49 ≤ c ∧ c ≤ 57 then
      match g.Fix (i % 9) (i / 9) (((c - 49 : Nat) : Int) + 1) with
      | .error e => .error e
      | .ok (g1, ok) =>
        if !ok then .ok (g1, false, some .invalidGrid)
        else Grid.setFrom cs (i + 1) g1
    else .ok (g, false, some (.invalidChar c))

/-- `Grid.Set(s)` for the string with the bytes `s`. -/
def Grid.Set (g : Grid) (s : List Nat) : Except Fault (Grid × Bool × Option SetError) :=
  if s.length ≠ 9 * 9 then .ok (g, false, some .invalidLength)
  else Grid.setFrom s 0 g

/-- The bytes of `fmt.Sprintf("%d", v)`. -/
def sprintd (v : Int) : List Nat :=
  (toString v).toList.map Char.toNat

/-- The loops of `String` over the listed cells. -/
def Grid.stringFrom (g : Grid) : List Cell → Except Fault (List Nat)
  | [] => .ok []
  | n :: cs =>
    if (g.get n).Fixed then
      match (g.get n).Val with
      | .error e => .error e
      | .ok v =>
        match g.stringFrom cs with
        | .error e => .error e
        | .ok s => .ok (sprintd v ++ s)
    else
      match g.stringFrom cs with
      | .error e => .error e
      | .ok s => .ok (95 :: s)

/-- `Grid.String`: the bytes of the returned string. -/
def Grid.String (g : Grid) : Except Fault (List Nat) :=
  g.stringFrom rowMajor

/-! ## Search -/

/-- The loop labelled `search` of `Solve` over the listed cells: the values of
`x`, `y` and `n` when the loop is left.  `n` is `nil` (`none`) until the body
has run once; when no node is unfixed the loop ends with `x = y = 9` and `n`
still pointing to the last node visited. -/
def Grid.searchFrom (g : Grid) : List Cell → Option Cell → Nat × Nat × Option Cell
  | [], n => (9, 9, n)
  | n :: cs, _ =>
    if (g.get n).Fixed then g.searchFrom cs (some n) else (n.1.val, n.2.val, some n)

/-- The loop `for { fixed, inval := ng.FixNext(); ... }` of `Solve`: the grid
it leaves and whether it ended on `inval`. -/
def Grid.fixNextLoop : Nat → Grid → Except Fault (Grid × Bool)
  | 0, _ => .error .outOfFuel
  | fuel + 1, g =>
    match g.FixNext with
    | .error e => .error e
    | .ok (g1, fixed, inval) =>
      if inval then .ok (g1, true)
      else if !fixed then .ok (g1, false)
      else Grid.fixNextLoop fuel g1

/-- The loop labelled `vals` of `Solve` over the listed digits `i`, with
`solve` standing for the recursive call `ng.Solve()`.  Every round of the
`FixNext` loop fixes one more of the 81 cells, so 82 rounds are enough. -/
def Grid.solveVals (solve : Grid → Except Fault (Grid × Bool)) (g : Grid) (x y : Nat)
    (n : Cell) : List Int → Except Fault (Grid × Bool)
  | [] => .ok (g, false)
  | i :: is =>
    if !(g.get n).has i then Grid.solveVals solve g x y n is
    else
      match g.Copy.Fix x y i with
      | .error e => .error e
      | .ok (ng1, ok) =>
        if !ok then Grid.solveVals solve g x y n is
        else
          match Grid.fixNextLoop 82 ng1 with
          | .error e => .error e
          | .ok (ng2, inval) =>
            if inval then Grid.solveVals solve g x y n is
            else if ng2.Complete then .ok (g.withNodesOf ng2, true)
            else
              match solve ng2 with
              | .error e => .error e
              | .ok (ng3, r) =>
                if r then .ok (g.withNodesOf ng3, true)
                else Grid.solveVals solve g x y n is

/-- `Solve` with a bound on the depth of the nested calls. -/
def Grid.solveDepth : Nat → Grid → Except Fault (Grid × Bool)
  | 0, _ => .error .outOfFuel
  | fuel + 1, g =>
    match g.searchFrom colMajor none with
    | (_, _, none) => .ok (g, false)
    | (x, y, some n) =>
      Grid.solveVals (Grid.solveDepth fuel) g x y n [1, 2, 3, 4, 5, 6, 7, 8, 9]

/-- `Grid.Solve`: the grid it leaves and the returned flag.  Every nested call
receives a grid with more fixed cells, so the depth stays below 82. -/
def Grid.Solve (g : Grid) : Except Fault (Grid × Bool) :=
  Grid.solveDepth 82 g

/-- The bytes of a string literal of ASCII characters. -/
def bytes (s : String) : List Nat :=
  s.toList.map Char.toNat

/-! ## Notions used by the proofs -/

/-- The grid `g1` results from `g` by removing candidates of nodes that are
not fixed: flags, counter and fixed nodes are the same. -/
structure Shrinks (g g1 : Grid) : Prop where
  fixedNodes : g1.FixedNodes = g.FixedNodes
  fixed : ∀ p, (g1.get p).Fixed = (g.get p).Fixed
  sub : ∀ p, ∀ v ∈ (g1.get p).Vals, v ∈ (g.get p).Vals
  keep : ∀ p, (g.get p).Fixed = true → g1.get p = g.get p
  len : ∀ p, (g1.get p).Len ≤ (g.get p).Len

/-- The assignment `A` is still possible in `g`: the digit of every cell is
among the candidates of its node. -/
def Compat (A : Cell → Int) (g : Grid) : Prop :=
  ∀ p, A p ∈ (g.get p).Vals

/-- Nothing is left to remove among the nodes `ns`: the value of a node with
one candidate is a candidate of no other node that is not fixed. -/
def Settled (g : Grid) (ns : List Cell) : Prop :=
  ∀ (i j : Nat) (p q : Cell) (v : Int), i ≠ j → ns[i]? = some p → ns[j]? = some q →
    (g.get p).Vals = [v] →
    ((g.get q).Fixed = true ∨ v ∉ (g.get q).Vals)

/-- The nodes of column `x` in the order of `NodesForCol`. -/
def colUnit (x : Fin 9) : List Cell :=
  (List.finRange 9).map (fun y => (x, y))

/-- The nodes of row `y` in the order of `NodesForRow`. -/
def rowUnit (y : Fin 9) : List Cell :=
  (List.finRange 9).map (fun x => (x, y))

/-- The nodes of the box with corner `(3 * bx, 3 * b)` in the order of
`NodesForBox`. -/
def boxUnit (bx b : Fin 3) : List Cell :=
  (List.finRange 3).flatMap (fun dy => (List.finRange 3).map (fun dx =>
    ((⟨3 * bx.val + dx.val, by omega⟩ : Fin 9), (⟨3 * b.val + dy.val, by omega⟩ : Fin 9))))

/-- The 27 slices of nodes that a pass of `Reduce` hands to `reduceNodes`, in
the order of the pass. -/
def units : List (List Cell) :=
  (List.finRange 9).map colUnit ++ (List.finRange 9).map rowUnit ++
    (List.finRange 3).flatMap (fun bx => (List.finRange 3).map (fun b => boxUnit bx b))

/-- The loop of `Reduce` over slices of nodes. -/
def Grid.reduceUnits : List (List Cell) → Grid → Bool → Except Fault (Grid × Bool × Bool)
  | [], g, reduced => .ok (g, reduced, false)
  | ns :: rest, g, reduced =>
    match g.reduceNodes ns with
    | .error e => .error e
    | .ok (g1, red, inval) =>
      if inval then .ok (g1, true, true)
      else Grid.reduceUnits rest g1 (if red then true else reduced)

/-- Two different cells in one column, one row or one box. -/
def Peer (p q : Cell) : Prop :=
  p ≠ q ∧ (p.1 = q.1 ∨ p.2 = q.2 ∨ (p.1.val / 3 = q.1.val / 3 ∧ p.2.val / 3 = q.2.val / 3))

instance (p q : Cell) : Decidable (Peer p q) := by
  unfold Peer
  exact inferInstance

/-- Propagation has nothing left to do: the value of a node with one
candidate is a candidate of none of its peers that are not fixed. -/
def Fixpoint (g : Grid) : Prop :=
  ∀ p q, Peer p q → ∀ v, (g.get p).Vals = [v] → (g.get q).Fixed = true ∨ v ∉ (g.get q).Vals

/-- No two cells of a column, a row or a box carry the same digit. -/
def NoClash (A : Cell → Int) : Prop :=
  ∀ p q, Peer p q → A p ≠ A q

/-- The number of nodes with `Fixed = true`. -/
def Grid.fixedCount (g : Grid) : Nat :=
  colMajor.countP (fun p => (g.get p).Fixed)

/-- What holds of a grid between the calls of `Set` and `Solve`: candidates are
digits, a fixed node has one candidate, the counter counts the fixed nodes,
propagation has run to its end, and fixed peers carry different digits. -/
structure Inv (g : Grid) : Prop where
  digits : ∀ p, ∀ v ∈ (g.get p).Vals, 1 ≤ v ∧ v ≤ 9
  single : ∀ p, (g.get p).Fixed = true → ∃ v, (g.get p).Vals = [v]
  count : g.FixedNodes = g.fixedCount
  fixpoint : Fixpoint g
  distinct : ∀ p q, Peer p q → (g.get p).Fixed = true → (g.get q).Fixed = true →
    (g.get p).Vals ≠ (g.get q).Vals

/-- The effect of a call `FixNode(n, val)` that returns `true`: from `g` to
`g1`. -/
structure FixedAt (g g1 : Grid) (n : Cell) (val : Int) : Prop where
  mem : val ∈ (g.get n).Vals
  node : g1.get n = { Vals := [val], Fixed := true }
  counter : g1.FixedNodes = wrapInt (g.FixedNodes + 1)
  fixed : ∀ p, p ≠ n → (g1.get p).Fixed = (g.get p).Fixed
  sub : ∀ p, p ≠ n → ∀ v ∈ (g1.get p).Vals, v ∈ (g.get p).Vals
  keep : ∀ p, p ≠ n → (g.get p).Fixed = true → g1.get p = g.get p
  fixpoint : Fixpoint g1

/-- From `g` to `g1` the fixed nodes stay as they are and no node gains a
candidate. -/
structure Extends (g g1 : Grid) : Prop where
  keep : ∀ p, (g.get p).Fixed = true → g1.get p = g.get p
  sub : ∀ p, ∀ v ∈ (g1.get p).Vals, v ∈ (g.get p).Vals

/-- Every node is fixed to one digit of `1..9` and peers carry different
digits. -/
structure Solved (g : Grid) : Prop where
  fixed : ∀ p, (g.get p).Fixed = true
  single : ∀ p, ∃ v, (g.get p).Vals = [v] ∧ 1 ≤ v ∧ v ≤ 9
  distinct : ∀ p q, Peer p q → (g.get p).Vals ≠ (g.get q).Vals

/-! ## Strings -/

/-- The byte that `String` writes for the node at `p` when a fixed node has one
digit: the digit, or `'_'` for a node that is not fixed. -/
def Grid.byteAt (g : Grid) (p : Cell) : Nat :=
  if (g.get p).Fixed then 48 + ((g.get p).Vals.headD 0).toNat else 95

/-- The bytes that `Set` reads as an unset cell: `'0'`, `' '` and `'_'`. -/
def isBlank (c : Nat) : Prop :=
  c = 48 ∨ c = 32 ∨ c = 95

/-- The bytes that `Set` reads as a preset digit: `'1'` to `'9'`. -/
def isDigit (c : Nat) : Prop :=
  49 ≤ c ∧ c ≤ 57

instance (c : Nat) : Decidable (isBlank c) := by
  unfold isBlank
  exact inferInstance

instance (c : Nat) : Decidable (isDigit c) := by
  unfold isDigit
  exact inferInstance

/-- The digit `int(byte(c)-'1')+1` of a byte. -/
def digitOf (c : Nat) : Int :=
  ((c - 49 : Nat) : Int) + 1

/-- The cell of the byte at index `i` of a string: column `i % 9`, row
`i / 9`. -/
def cellAt (i : Nat) : Cell :=
  (⟨i % 9, Nat.mod_lt i (by decide)⟩, ⟨i / 9 % 9, Nat.mod_lt _ (by decide)⟩)

/-- The string that `String` returns after `Set` has read `s`: every byte for
an unset cell becomes `'_'`. -/
def blanked (s : List Nat) : List Nat :=
  s.map (fun c => if isBlank c then 95 else c)

/-- Row `r` of the grid that an 81-byte string encodes in row-major order. -/
def rowOf (s : List Nat) (r : Nat) : List Nat :=
  (List.range 9).map (fun c => s.getD (9 * r + c) 0)

/-- Column `c` of the grid that an 81-byte string encodes. -/
def colOf (s : List Nat) (c : Nat) : List Nat :=
  (List.range 9).map (fun r => s.getD (9 * r + c) 0)

/-- Box `b` of the grid that an 81-byte string encodes: the boxes are numbered
row by row, the cells of a box as well. -/
def boxOf (s : List Nat) (b : Nat) : List Nat :=
  (List.range 9).map (fun k => s.getD (9 * (3 * (b / 3) + k / 3) + (3 * (b % 3) + k % 3)) 0)

/-- The string encodes a complete valid Sudoku grid: it has 81 bytes and every
row, every column and every box contains each of the digits `'1'..'9'` exactly
once. -/
def ValidSudoku (s : List Nat) : Prop :=
  s.length = 81 ∧ ∀ k < 9, ∀ d < 9,
    (rowOf s k).count (49 + d) = 1 ∧ (colOf s k).count (49 + d) = 1 ∧
      (boxOf s k).count (49 + d) = 1

instance (s : List Nat) : Decidable (ValidSudoku s) := by
  unfold ValidSudoku
  exact inferInstance

/-- The string `t` carries the preset digits of `s` at their places. -/
def Agrees (t s : List Nat) : Prop :=
  ∀ i < 81, isDigit (s.getD i 0) → t.getD i 0 = s.getD i 0

instance (t s : List Nat) : Decidable (Agrees t s) := by
  unfold Agrees
  exact inferInstance

/-- The assignment of digits to cells that an 81-byte string of digits
encodes in row-major order. -/
def assignOf (t : List Nat) : Cell → Int :=
  fun p => (t.getD (9 * p.2.val + p.1.val) 0 : Int) - 48

/-! ## Concrete inputs -/

/-- The puzzle of `TestSolve`. -/
def testPuzzle : List Nat :=
  bytes "_______6_28______4__7__58__5__34__2_4__5_1__8_1__76__3__51__2__3______81_9_______"

/-- The solution that `TestSolve` expects. -/
def testSolution : List Nat :=
  bytes "153498762289763514647215839578349126436521978912876453865134297324957681791682345"

/-- A string with the digit 1 twice in the first row. -/
def repeatedDigit : List Nat :=
  bytes "11_______________________________________________________________________________"

/-- A string with the digit 1 twice in the first row and then a byte that
`Set` does not accept. -/
def repeatedDigitThenLetter : List Nat :=
  bytes "11x______________________________________________________________________________"

/-- A string whose only byte that is not `'_'` is a letter. -/
def oneLetter : List Nat :=
  bytes "x________________________________________________________________________________"

/-- Whether a result of `Set` is the invalid grid error on a grid with one
node counted and the node of column 0, row 0 fixed. -/
def leftOneFixed (r : Except Fault (Grid × Bool × Option SetError)) : Bool :=
  match r with
  | .ok (g, false, some .invalidGrid) => g.FixedNodes == 1 && (g.get (0, 0)).Fixed
  | _ => false

/-- Whether a result of `Set` is the invalid grid error. -/
def isInvalidGrid (r : Except Fault (Grid × Bool × Option SetError)) : Bool :=
  match r with
  | .ok (_, false, some .invalidGrid) => true
  | _ => false

/-! ## Sequences of calls -/

/-- A call of one of the methods of `Grid` that change the grid. -/
inductive Call where
  | Set (s : List Nat)
  | Fix (x y : Nat) (val : Int)
  | FixNext
  | Reduce
  | Solve
deriving Repr

/-- The grid that a call leaves behind when it returns. -/
def Grid.call (g : Grid) : Call → Except Fault Grid
  | .Set s =>
    match g.Set s with
    | .error e => .error e
    | .ok (g1, _, _) => .ok g1
  | .Fix x y val =>
    match g.Fix x y val with
    | .error e => .error e
    | .ok (g1, _) => .ok g1
  | .FixNext =>
    match g.FixNext with
    | .error e => .error e
    | .ok (g1, _, _) => .ok g1
  | .Reduce =>
    match g.Reduce with
    | .error e => .error e
    | .ok (g1, _, _) => .ok g1
  | .Solve =>
    match g.Solve with
    | .error e => .error e
    | .ok (g1, _) => .ok g1

/-- The grid after a sequence of calls on one grid, each of which returns. -/
def Grid.calls (g : Grid) : List Call → Except Fault Grid
  | [] => .ok g
  | c :: cs =>
    match g.call c with
    | .error e => .error e
    | .ok g1 => g1.calls cs

/-- Every candidate is one of the digits `1..9` and a node with `Fixed = true`
has exactly one candidate. -/
structure WellFormed (g : Grid) : Prop where
  digits : ∀ p, ∀ v ∈ (g.get p).Vals, 1 ≤ v ∧ v ≤ 9
  single : ∀ p, (g.get p).Fixed = true → ∃ v, (g.get p).Vals = [v]

/-- No node has an empty set of candidates. -/
def NoEmpty (g : Grid) : Prop :=
  ∀ p, (g.get p).Vals ≠ []

instance (g : Grid) : Decidable (NoEmpty g) := by
  unfold NoEmpty
  exact inferInstance

/-- A complete valid assignment of digits to the cells: the digits of every
column, every row and every box are a permutation of `1..9`. -/
def ValidAssignment (A : Cell → Int) : Prop :=
  ∀ u ∈ units, (u.map A).Perm [1, 2, 3, 4, 5, 6, 7, 8, 9]

instance (A : Cell → Int) : Decidable (ValidAssignment A) := by
  unfold ValidAssignment
  exact inferInstance

/-! ## The body of `Solve` -/

/-- The body of `Solve` with `solve` standing for the nested call
`ng.Solve()`. -/
def Grid.solveBody (solve : Grid → Except Fault (Grid × Bool)) (g : Grid) :
    Except Fault (Grid × Bool) :=
  match g.searchFrom colMajor none with
  | (_, _, none) => .ok (g, false)
  | (x, y, some n) => Grid.solveVals solve g x y n [1, 2, 3, 4, 5, 6, 7, 8, 9]

/-- What a call of `Solve` on `g` does whatever the grid: it either stops on
the index check or returns; it leaves the counter alone; it leaves the grid
alone when it returns `false`; when it returns `true` the fixed nodes are
kept, no node gained a candidate and well-formed grids stay well-formed. -/
def SolveFrame (g : Grid) (res : Except Fault (Grid × Bool)) : Prop :=
  res = .error .indexOutOfRange ∨
    ∃ g1 r, res = .ok (g1, r) ∧ g1.FixedNodes = g.FixedNodes ∧ (r = false → g1 = g) ∧
      (r = true → Extends g g1 ∧ (WellFormed g → WellFormed g1))

/-! ## The order of the solutions -/

/-- The digit of a node with one candidate. -/
def Grid.digitAt (g : Grid) (p : Cell) : Int :=
  (g.get p).Vals.headD 0

/-- The bytes of an 81-byte string, which lists the cells row by row, read
column by column: column `x = 0..8` outside, row `y = 0..8` inside. -/
def colMajorOf (t : List Nat) : List Nat :=
  colMajor.map (fun p => t.getD (9 * p.2.val + p.1.val) 0)

/-- The list `a` is `b` or comes before `b` in the lexicographic order. -/
def LexLe (a b : List Nat) : Prop :=
  a = b ∨ List.Lex (fun x y => x < y) a b

instance (a b : List Nat) : Decidable (LexLe a b) := by
  unfold LexLe
  exact inferInstance

/-! ## More concrete inputs -/

/-- A puzzle that `Set` accepts and that has no solution: the rows 0 and 1
and the columns 0 and 1 carry a 1 outside the top left box and the ninth cell
of that box is preset to 2, so the box has no place for a 1. -/
def noPlaceForOne : List Nat :=
  bytes "___1___________1____2______1___________________________1_________________________"

/-- Whether a result of `Set` is `(true, nil)`. -/
def isAccepted (r : Except Fault (Grid × Bool × Option SetError)) : Bool :=
  match r with
  | .ok (_, true, none) => true
  | _ => false

/-- A string that `Set` rejects with the invalid grid error while reading the
`1` of the second row: propagation leaves the node of column 1, row 0 without
candidates. -/
def emptiesOneNode : List Nat :=
  bytes "__34567891_______________________________________________________________________"

/-- Whether a result of `Set` is the invalid grid error on a grid whose node of
column 1, row 0 has no candidate and on which `Fix(8, 8, 1)` then returns
`true` with that node still without candidates. -/
def fixKeepsEmptyNode (r : Except Fault (Grid × Bool × Option SetError)) : Bool :=
  match r with
  | .ok (g, false, some .invalidGrid) =>
    match g.Fix 8 8 1 with
    | .ok (g1, true) => (g.get (1, 0)).Vals.isEmpty && (g1.get (1, 0)).Vals.isEmpty
    | _ => false
  | _ => false

/-- A new grid whose counter has been set to the largest `int`:
`g := NewGrid(); g.FixedNodes = math.MaxInt`. -/
def counterAtMax : Grid :=
  { NewGrid with FixedNodes := maxInt }

/-- The assignment `S` is `A`, or at the first cell in the order of `colMajor`
where the two differ `S` has the smaller digit. -/
def LeastFirst (S A : Cell → Int) : Prop :=
  (∀ p, S p = A p) ∨
    ∃ pre n post, colMajor = pre ++ n :: post ∧ (∀ p ∈ pre, S p = A p) ∧ S n < A n

/-! # Theorems -/

/-! ## Nodes -/

theorem node_copy_eq (n : Node) : n.Copy = n := rfl

theorem node_has_iff (n : Node) (v : Int) : n.has v = true ↔ v ∈ n.Vals := by
  simp [Node.has]

theorem node_len_eq_one_iff (n : Node) : n.Len = 1 ↔ ∃ v, n.Vals = [v] := by
  simp [Node.Len, List.length_eq_one]

theorem node_val_of_vals (n : Node) (v : Int) (h : n.Vals = [v]) : n.Val = .ok v := by
  simp [Node.Val, Node.Len, h]

theorem node_val_of_len (n : Node) (h : n.Len = 1) : ∃ v, n.Vals = [v] ∧ n.Val = .ok v := by
  obtain ⟨v, hv⟩ := (node_len_eq_one_iff n).1 h
  exact ⟨v, hv, node_val_of_vals n v hv⟩

theorem node_remove_false (n : Node) (v : Int) (h : (n.Remove v).2 = false) :
    (n.Fixed = true ∨ v ∉ n.Vals) ∧ (n.Remove v).1 = n := by
  unfold Node.Remove at h ⊢
  by_cases hf : n.Fixed = true
  · simp [hf]
  · by_cases hv : n.has v = true
    · simp [hf, hv] at h
    · simp only [hf, hv] at h ⊢
      simp only [node_has_iff] at hv
      simp [hv]

theorem node_remove_false_of (n : Node) (v : Int) (h : n.Fixed = true ∨ v ∉ n.Vals) :
    (n.Remove v).2 = false := by
  unfold Node.Remove
  by_cases hf : n.Fixed = true
  · simp [hf]
  · have hv : v ∉ n.Vals := by
      rcases h with h | h
      · exact absurd h hf
      · exact h
    have : n.has v = false := by
      simpa [Node.has] using hv
    simp [hf, this]

theorem node_remove_true (n : Node) (v : Int) (h : (n.Remove v).2 = true) :
    n.Fixed = false ∧ v ∈ n.Vals ∧
      (n.Remove v).1 = { Vals := n.Vals.filter (fun k => k ≠ v), Fixed := n.Fixed } := by
  unfold Node.Remove at h ⊢
  by_cases hf : n.Fixed = true
  · simp [hf] at h
  · by_cases hv : n.has v = true
    · simp only [hf, hv]
      simp only [node_has_iff] at hv
      simp [hv]
    · simp [hf, hv] at h

theorem node_remove_fixed (n : Node) (v : Int) : (n.Remove v).1.Fixed = n.Fixed := by
  unfold Node.Remove
  split
  · rfl
  · split <;> rfl

theorem node_remove_sub (n : Node) (v : Int) : ∀ k ∈ (n.Remove v).1.Vals, k ∈ n.Vals := by
  intro k hk
  unfold Node.Remove at hk
  split at hk
  · exact hk
  · split at hk
    · exact (List.mem_filter.1 hk).1
    · exact hk

theorem node_remove_keeps (n : Node) (v k : Int) (hk : k ∈ n.Vals) (hne : k ≠ v) :
    k ∈ (n.Remove v).1.Vals := by
  unfold Node.Remove
  split
  · exact hk
  · split
    · exact List.mem_filter.2 ⟨hk, by simpa using hne⟩
    · exact hk

theorem node_remove_len_le (n : Node) (v : Int) : (n.Remove v).1.Len ≤ n.Len := by
  unfold Node.Remove Node.Len
  split
  · exact le_rfl
  · split
    · exact List.length_filter_le _ _
    · exact le_rfl

theorem node_remove_len_lt (n : Node) (v : Int) (h : (n.Remove v).2 = true) :
    (n.Remove v).1.Len < n.Len := by
  obtain ⟨_, hv, he⟩ := node_remove_true n v h
  rw [he]
  unfold Node.Len
  simp only
  apply List.length_filter_lt_length_iff_exists.2
  exact ⟨v, hv, by simp⟩

theorem node_remove_fixed_eq (n : Node) (v : Int) (h : n.Fixed = true) : (n.Remove v).1 = n := by
  simp [Node.Remove, h]

/-! ## Reading and writing nodes -/

theorem grid_col_len (g : Grid) (x : Nat) (hx : x < 9) : (g.Nodes.getD x []).length = 9 := by
  have hx' : x < g.Nodes.length := by rw [g.cols_len]; exact hx
  rw [List.getD_eq_getElem _ _ hx']
  exact g.rows_len _ (List.getElem_mem _)

theorem getD_set_set {α : Type} (l : List (List α)) (x y x' y' : Nat) (n d : α)
    (hx : x < l.length) (hy : y < (l.getD x []).length) :
    ((l.set x ((l.getD x []).set y n)).getD x' []).getD y' d =
      if x' = x ∧ y' = y then n else (l.getD x' []).getD y' d := by
  by_cases h1 : x' = x
  · subst h1
    have e1 : (l.set x' ((l.getD x' []).set y n)).getD x' [] = (l.getD x' []).set y n := by
      rw [List.getD_eq_getElem _ _ (by rw [List.length_set]; exact hx)]
      exact List.getElem_set_self _
    rw [e1]
    by_cases h2 : y' = y
    · subst h2
      rw [List.getD_eq_getElem _ _ (by rw [List.length_set]; exact hy)]
      simp
    · have : ((l.getD x' []).set y n).getD y' d = (l.getD x' []).getD y' d := by
        simp only [List.getD_eq_getElem?_getD]
        rw [List.getElem?_set_ne (Ne.symm h2)]
      rw [this, if_neg (fun h => h2 h.2)]
  · have : (l.set x ((l.getD x []).set y n)).getD x' [] = l.getD x' [] := by
      simp only [List.getD_eq_getElem?_getD]
      rw [List.getElem?_set_ne (Ne.symm h1)]
    rw [this, if_neg (fun h => h1 h.1)]

theorem get_setNode_self (g : Grid) (p : Cell) (n : Node) : (g.setNode p n).get p = n := by
  have hx : p.1.val < g.Nodes.length := by rw [g.cols_len]; exact p.1.isLt
  have hy : p.2.val < (g.Nodes.getD p.1.val []).length := by
    rw [grid_col_len g _ p.1.isLt]; exact p.2.isLt
  simp only [Grid.get, Grid.setNode]
  rw [getD_set_set _ _ _ _ _ _ _ hx hy]
  simp

theorem get_setNode_other (g : Grid) (p q : Cell) (n : Node) (h : q ≠ p) :
    (g.setNode p n).get q = g.get q := by
  have hx : p.1.val < g.Nodes.length := by rw [g.cols_len]; exact p.1.isLt
  have hy : p.2.val < (g.Nodes.getD p.1.val []).length := by
    rw [grid_col_len g _ p.1.isLt]; exact p.2.isLt
  simp only [Grid.get, Grid.setNode]
  rw [getD_set_set _ _ _ _ _ _ _ hx hy]
  have : ¬ (q.1.val = p.1.val ∧ q.2.val = p.2.val) := by
    rintro ⟨h1, h2⟩
    exact h (Prod.ext (Fin.ext h1) (Fin.ext h2))
  simp [this]

theorem get_setNode (g : Grid) (p q : Cell) (n : Node) :
    (g.setNode p n).get q = if q = p then n else g.get q := by
  split
  · next h => rw [h, get_setNode_self]
  · next h => exact get_setNode_other g p q n h

theorem fixedNodes_setNode (g : Grid) (p : Cell) (n : Node) :
    (g.setNode p n).FixedNodes = g.FixedNodes := rfl

theorem get_incFixedNodes (g : Grid) (p : Cell) : g.incFixedNodes.get p = g.get p := rfl

theorem fixedNodes_incFixedNodes (g : Grid) :
    g.incFixedNodes.FixedNodes = wrapInt (g.FixedNodes + 1) := rfl

/-- Inside the bounds of `int` the arithmetic of `int` is that of the
integers. -/
theorem wrapInt_eq (n : Int) (h0 : minInt ≤ n) (h1 : n ≤ maxInt) : wrapInt n = n := by
  unfold minInt at h0
  unfold maxInt at h1
  unfold wrapInt
  omega

theorem wrapInt_succ_small (k : Nat) (h : k ≤ 81) : wrapInt ((k : Int) + 1) = (k : Int) + 1 := by
  apply wrapInt_eq
  · unfold minInt
    omega
  · unfold maxInt
    omega

theorem get_withNodesOf (g ng : Grid) (p : Cell) : (g.withNodesOf ng).get p = ng.get p := rfl

theorem fixedNodes_withNodesOf (g ng : Grid) :
    (g.withNodesOf ng).FixedNodes = g.FixedNodes := rfl

theorem grid_copy_eq (g : Grid) : g.Copy = g := by
  have h : (fun c : List Node => c.map Node.Copy) = id := by
    funext c
    have : Node.Copy = id := by funext n; rfl
    rw [this]; simp
  cases g with
  | mk Nodes FixedNodes cols_len rows_len =>
    simp only [Grid.Copy, Grid.mk.injEq, and_true]
    rw [h]; simp

theorem get_NewGrid (p : Cell) : NewGrid.get p = NewNode := by
  revert p
  decide

/-! ## The order of the cells -/

theorem mem_colMajor (p : Cell) : p ∈ colMajor := by
  simp only [colMajor, List.mem_flatMap, List.mem_map, List.mem_finRange, true_and]
  exact ⟨p.1, p.2, rfl⟩

theorem mem_rowMajor (p : Cell) : p ∈ rowMajor := by
  simp only [rowMajor, List.mem_flatMap, List.mem_map, List.mem_finRange, true_and]
  exact ⟨p.2, p.1, rfl⟩

theorem nodup_colMajor : colMajor.Nodup := by decide

theorem length_colMajor : colMajor.length = 81 := by decide

/-! ## Removing candidates -/

theorem shrinks_refl (g : Grid) : Shrinks g g :=
  ⟨rfl, fun _ => rfl, fun _ _ h => h, fun _ _ => rfl, fun _ => le_rfl⟩

theorem shrinks_trans {g g1 g2 : Grid} (h1 : Shrinks g g1) (h2 : Shrinks g1 g2) :
    Shrinks g g2 where
  fixedNodes := h2.fixedNodes.trans h1.fixedNodes
  fixed p := (h2.fixed p).trans (h1.fixed p)
  sub p v hv := h1.sub p v (h2.sub p v hv)
  keep p hp := by
    rw [h2.keep p (by rw [h1.fixed p]; exact hp), h1.keep p hp]
  len p := (h2.len p).trans (h1.len p)

theorem shrinks_remove (g : Grid) (q : Cell) (v : Int) :
    Shrinks g (g.setNode q ((g.get q).Remove v).1) where
  fixedNodes := rfl
  fixed p := by
    rw [get_setNode]
    split
    · next h => rw [h, node_remove_fixed]
    · rfl
  sub p k hk := by
    rw [get_setNode] at hk
    split at hk
    · next h => rw [h]; exact node_remove_sub _ _ k hk
    · exact hk
  keep p hp := by
    rw [get_setNode]
    split
    · next h => rw [h] at hp ⊢; exact node_remove_fixed_eq _ _ hp
    · rfl
  len p := by
    rw [get_setNode]
    split
    · next h => rw [h]; exact node_remove_len_le _ _
    · exact le_rfl

theorem sum_map_le {α : Type} (l : List α) (f f1 : α → Nat) (h : ∀ a ∈ l, f1 a ≤ f a) :
    (l.map f1).sum ≤ (l.map f).sum := by
  induction l with
  | nil => simp
  | cons a l ih =>
    simp only [List.map_cons, List.sum_cons]
    have h1 := h a (List.mem_cons_self _ _)
    have h2 := ih (fun b hb => h b (List.mem_cons_of_mem _ hb))
    omega

theorem sum_map_lt {α : Type} (l : List α) (f f1 : α → Nat) (h : ∀ a ∈ l, f1 a ≤ f a)
    (q : α) (hq : q ∈ l) (hlt : f1 q < f q) : (l.map f1).sum < (l.map f).sum := by
  induction l with
  | nil => simp at hq
  | cons a l ih =>
    simp only [List.map_cons, List.sum_cons]
    have h1 := h a (List.mem_cons_self _ _)
    have h2 := sum_map_le l f f1 (fun b hb => h b (List.mem_cons_of_mem _ hb))
    rcases List.mem_cons.1 hq with rfl | hq
    · omega
    · have := ih (fun b hb => h b (List.mem_cons_of_mem _ hb)) hq
      omega

theorem shrinks_size_le {g g1 : Grid} (h : Shrinks g g1) : g1.size ≤ g.size :=
  sum_map_le _ _ _ (fun p _ => h.len p)

theorem shrinks_size_lt {g g1 : Grid} (h : Shrinks g g1) (q : Cell)
    (hq : (g1.get q).Len < (g.get q).Len) : g1.size < g.size :=
  sum_map_lt _ _ _ (fun p _ => h.len p) q (mem_colMajor q) hq

theorem size_remove_lt (g : Grid) (q : Cell) (v : Int) (h : ((g.get q).Remove v).2 = true) :
    (g.setNode q ((g.get q).Remove v).1).size < g.size := by
  apply shrinks_size_lt (shrinks_remove g q v) q
  rw [get_setNode_self]
  exact node_remove_len_lt _ _ h

/-! ## `reduceNodes` -/

theorem reduceInner_spec (ns : List Cell) (i : Nat) (v : Int) (js : List Nat) :
    ∀ (g : Grid) (red : Bool), (∀ j ∈ js, j < ns.length) →
    ∃ g1 red1 inval, Grid.reduceInner ns i v js g red = .ok (g1, red1, inval) ∧ Shrinks g g1 ∧
      (red1 = false → g1 = g ∧ red = false ∧ inval = false ∧
        ∀ j ∈ js, j ≠ i → ∀ q, ns[j]? = some q → ((g.get q).Remove v).2 = false) ∧
      (red = true → red1 = true) ∧ (inval = true → red1 = true) ∧
      (red1 = true → red = true ∨ g1.size < g.size) := by
  induction js with
  | nil =>
    intro g red _
    refine ⟨g, red, false, rfl, shrinks_refl g, ?_, fun h => h, by simp, fun h => Or.inl h⟩
    intro h
    exact ⟨rfl, h, rfl, by simp⟩
  | cons j js ih =>
    intro g red hjs
    have hjs1 : ∀ j ∈ js, j < ns.length := fun k hk => hjs k (List.mem_cons_of_mem _ hk)
    by_cases hji : j = i
    · obtain ⟨g1, red1, inval, he, hs, h1, h2, h3, h4⟩ := ih g red hjs1
      refine ⟨g1, red1, inval, ?_, hs, ?_, h2, h3, h4⟩
      · simp only [Grid.reduceInner, hji, if_true]
        rw [← hji] at he ⊢
        simpa [hji] using he
      · intro hr
        obtain ⟨a, b, c, d⟩ := h1 hr
        refine ⟨a, b, c, ?_⟩
        intro k hk hki q hq
        rcases List.mem_cons.1 hk with rfl | hk
        · exact absurd hji hki
        · exact d k hk hki q hq
    · have hj : j < ns.length := hjs j (List.mem_cons_self _ _)
      have hnn : ns[j]? = some ns[j] := List.getElem?_eq_getElem hj
      by_cases hrem : ((g.get ns[j]).Remove v).2 = true
      · by_cases hlen : ((g.get ns[j]).Remove v).1.Len = 0
        · refine ⟨g.setNode ns[j] ((g.get ns[j]).Remove v).1, true, true, ?_,
            shrinks_remove g _ v, by simp, fun _ => rfl, fun _ => rfl,
            fun _ => Or.inr (size_remove_lt g _ v hrem)⟩
          simp only [Grid.reduceInner, hji, if_false, hnn, hrem, if_true, hlen]
        · obtain ⟨g1, red1, inval, he, hs, h1, h2, h3, h4⟩ :=
            ih (g.setNode ns[j] ((g.get ns[j]).Remove v).1) true hjs1
          have hr1 : red1 = true := h2 rfl
          refine ⟨g1, red1, inval, ?_, shrinks_trans (shrinks_remove g _ v) hs, ?_, fun _ => hr1,
            fun _ => hr1, ?_⟩
          · simp only [Grid.reduceInner, hji, if_false, hnn, hrem, if_true, hlen]
            exact he
          · intro h; rw [hr1] at h; exact absurd h (by simp)
          · intro _
            right
            exact lt_of_le_of_lt (shrinks_size_le hs) (size_remove_lt g _ v hrem)
      · have hrem1 : ((g.get ns[j]).Remove v).2 = false := by simpa using hrem
        obtain ⟨g1, red1, inval, he, hs, h1, h2, h3, h4⟩ := ih g red hjs1
        refine ⟨g1, red1, inval, ?_, hs, ?_, h2, h3, h4⟩
        · simp only [Grid.reduceInner, hji, if_false, hnn, hrem1]
          simpa using he
        · intro hr
          obtain ⟨a, b, c, d⟩ := h1 hr
          refine ⟨a, b, c, ?_⟩
          intro k hk hki q hq
          rcases List.mem_cons.1 hk with rfl | hk
          · rw [hnn] at hq
            cases hq
            exact hrem1
          · exact d k hk hki q hq

theorem compat_remove {A : Cell → Int} {g : Grid} (h : Compat A g) (q : Cell) (v : Int)
    (hne : A q ≠ v) : Compat A (g.setNode q ((g.get q).Remove v).1) := by
  intro p
  rw [get_setNode]
  split
  · next hp => rw [hp]; exact node_remove_keeps _ _ _ (h q) hne
  · exact h p

theorem reduceInner_compat (A : Cell → Int) (ns : List Cell) (i : Nat) (v : Int)
    (js : List Nat) :
    ∀ (g : Grid) (red : Bool) (g1 : Grid) (red1 inval : Bool), Compat A g →
      (∀ j ∈ js, j ≠ i → ∀ q, ns[j]? = some q → A q ≠ v) →
      Grid.reduceInner ns i v js g red = .ok (g1, red1, inval) →
      inval = false ∧ Compat A g1 := by
  induction js with
  | nil =>
    intro g red g1 red1 inval hA _ he
    simp only [Grid.reduceInner, Except.ok.injEq, Prod.mk.injEq] at he
    obtain ⟨rfl, _, rfl⟩ := he
    exact ⟨rfl, hA⟩
  | cons j js ih =>
    intro g red g1 red1 inval hA hne he
    have hne1 : ∀ k ∈ js, k ≠ i → ∀ q, ns[k]? = some q → A q ≠ v :=
      fun k hk => hne k (List.mem_cons_of_mem _ hk)
    simp only [Grid.reduceInner] at he
    split at he
    · exact ih g red g1 red1 inval hA hne1 he
    · next hji =>
      split at he
      · exact absurd he (by simp)
      · next nn hnn =>
        have hAnn : A nn ≠ v := hne j (List.mem_cons_self _ _) hji nn hnn
        split at he
        · split at he
          · next hlen =>
            exfalso
            have := node_remove_keeps (g.get nn) v (A nn) (hA nn) hAnn
            unfold Node.Len at hlen
            rw [List.length_eq_zero] at hlen
            rw [hlen] at this
            simp at this
          · exact ih _ _ g1 red1 inval (compat_remove hA nn v hAnn) hne1 he
        · exact ih g red g1 red1 inval hA hne1 he

theorem reduceOuter_spec (ns : List Cell) (hlen : ns.length = 9) (is : List Nat) :
    ∀ (g : Grid) (red : Bool), (∀ i ∈ is, i < 9) →
    ∃ g1 red1 inval, Grid.reduceOuter ns is g red = .ok (g1, red1, inval) ∧ Shrinks g g1 ∧
      (red1 = false → g1 = g ∧ red = false ∧ inval = false ∧
        ∀ i ∈ is, ∀ p v, ns[i]? = some p → (g.get p).Vals = [v] →
          ∀ j, j < 9 → j ≠ i → ∀ q, ns[j]? = some q → ((g.get q).Remove v).2 = false) ∧
      (red = true → red1 = true) ∧ (inval = true → red1 = true) ∧
      (red1 = true → red = true ∨ g1.size < g.size) := by
  induction is with
  | nil =>
    intro g red _
    refine ⟨g, red, false, rfl, shrinks_refl g, ?_, fun h => h, by simp, fun h => Or.inl h⟩
    intro h
    exact ⟨rfl, h, rfl, by simp⟩
  | cons i is ih =>
    intro g red his
    have his1 : ∀ k ∈ is, k < 9 := fun k hk => his k (List.mem_cons_of_mem _ hk)
    have hi : i < ns.length := by rw [hlen]; exact his i (List.mem_cons_self _ _)
    have hn : ns[i]? = some ns[i] := List.getElem?_eq_getElem hi
    by_cases hl : (g.get ns[i]).Len = 1
    · obtain ⟨v, hv, hval⟩ := node_val_of_len _ hl
      obtain ⟨g1, red1, inval, he, hs, h1, h2, h3, h4⟩ :=
        reduceInner_spec ns i v (List.range 9) g red (by
          intro j hj; rw [hlen]; exact List.mem_range.1 hj)
      by_cases hinv : inval = true
      · refine ⟨g1, true, true, ?_, hs, by simp, fun _ => rfl, fun _ => rfl, ?_⟩
        · simp only [Grid.reduceOuter, hn, hl, ne_eq, not_true_eq_false, if_false, hval, he,
            hinv, if_true]
        · intro _
          have hr1 := h3 hinv
          rcases h4 hr1 with h | h
          · exact Or.inl h
          · exact Or.inr h
      · obtain ⟨g2, red2, inval2, he2, hs2, k1, k2, k3, k4⟩ := ih g1 red1 his1
        refine ⟨g2, red2, inval2, ?_, shrinks_trans hs hs2, ?_, fun h => k2 (h2 h), k3, ?_⟩
        · simp only [Grid.reduceOuter, hn, hl, ne_eq, not_true_eq_false, if_false, hval, he,
            hinv]
          exact he2
        · intro hr
          obtain ⟨a, b, c, d⟩ := k1 hr
          obtain ⟨a1, b1, _, d1⟩ := h1 b
          subst a1
          refine ⟨a, b1, c, ?_⟩
          intro k hk p w hp hw j hj hjk q hq
          rcases List.mem_cons.1 hk with rfl | hk
          · rw [hn] at hp
            cases hp
            rw [hv] at hw
            cases hw
            exact d1 j (List.mem_range.2 hj) hjk q hq
          · exact d k hk p w hp hw j hj hjk q hq
        · intro hr
          rcases k4 hr with h | h
          · rcases h4 h with h | h
            · exact Or.inl h
            · exact Or.inr (lt_of_le_of_lt (shrinks_size_le hs2) h)
          · exact Or.inr (lt_of_lt_of_le h (shrinks_size_le hs))
    · obtain ⟨g1, red1, inval, he, hs, h1, h2, h3, h4⟩ := ih g red his1
      refine ⟨g1, red1, inval, ?_, hs, ?_, h2, h3, h4⟩
      · simp only [Grid.reduceOuter, hn, ne_eq, hl, not_false_eq_true, if_true]
        exact he
      · intro hr
        obtain ⟨a, b, c, d⟩ := h1 hr
        refine ⟨a, b, c, ?_⟩
        intro k hk p w hp hw j hj hjk q hq
        rcases List.mem_cons.1 hk with rfl | hk
        · rw [hn] at hp
          cases hp
          exfalso
          apply hl
          simp [Node.Len, hw]
        · exact d k hk p w hp hw j hj hjk q hq

theorem reduceOuter_compat (A : Cell → Int) (ns : List Cell)
    (hinj : ∀ (i j : Nat) (p q : Cell), i ≠ j → ns[i]? = some p → ns[j]? = some q → A p ≠ A q) (is : List Nat) :
    ∀ (g : Grid) (red : Bool) (g1 : Grid) (red1 inval : Bool), Compat A g →
      Grid.reduceOuter ns is g red = .ok (g1, red1, inval) →
      inval = false ∧ Compat A g1 := by
  induction is with
  | nil =>
    intro g red g1 red1 inval hA he
    simp only [Grid.reduceOuter, Except.ok.injEq, Prod.mk.injEq] at he
    obtain ⟨rfl, _, rfl⟩ := he
    exact ⟨rfl, hA⟩
  | cons i is ih =>
    intro g red g1 red1 inval hA he
    simp only [Grid.reduceOuter] at he
    split at he
    · exact absurd he (by simp)
    · next n hn =>
      split at he
      · exact ih g red g1 red1 inval hA he
      · next hl =>
        have hl1 : (g.get n).Len = 1 := by simpa using hl
        obtain ⟨v, hv, hval⟩ := node_val_of_len _ hl1
        rw [hval] at he
        simp only at he
        split at he
        · exact absurd he (by simp)
        · next g2 red2 inval2 he2 =>
          have hAn : A n = v := by
            have := hA n
            rw [hv] at this
            simpa using this
          obtain ⟨hi2, hA2⟩ := reduceInner_compat A ns i v (List.range 9) g red g2 red2 inval2
            hA (by
              intro j _ hji q hq
              rw [← hAn]
              exact hinj j i q n hji hq hn) he2
          subst hi2
          simp only [Bool.false_eq_true, if_false] at he
          exact ih g2 red2 g1 red1 inval hA2 he

theorem reduceNodes_spec (g : Grid) (ns : List Cell) (hlen : ns.length = 9) :
    ∃ g1 red inval, g.reduceNodes ns = .ok (g1, red, inval) ∧ Shrinks g g1 ∧
      (red = false → g1 = g ∧ inval = false ∧ Settled g ns) ∧
      (inval = true → red = true) ∧ (red = true → g1.size < g.size) := by
  obtain ⟨g1, red1, inval, he, hs, h1, _, h3, h4⟩ :=
    reduceOuter_spec ns hlen (List.range 9) g false (fun i hi => List.mem_range.1 hi)
  refine ⟨g1, red1, inval, he, hs, ?_, h3, ?_⟩
  · intro hr
    obtain ⟨a, _, c, d⟩ := h1 hr
    refine ⟨a, c, ?_⟩
    intro i j p q v hij hp hq hv
    have hi : i < 9 := by
      rw [← hlen]
      exact (List.getElem?_eq_some_iff.1 hp).1
    have hj : j < 9 := by
      rw [← hlen]
      exact (List.getElem?_eq_some_iff.1 hq).1
    exact (node_remove_false _ _
      (d i (List.mem_range.2 hi) p v hp hv j hj (Ne.symm hij) q hq)).1
  · intro hr
    rcases h4 hr with h | h
    · exact absurd h (by simp)
    · exact h

theorem reduceNodes_compat (A : Cell → Int) (g : Grid) (ns : List Cell)
    (hinj : ∀ (i j : Nat) (p q : Cell), i ≠ j → ns[i]? = some p → ns[j]? = some q → A p ≠ A q)
    (hA : Compat A g) (g1 : Grid) (red inval : Bool)
    (he : g.reduceNodes ns = .ok (g1, red, inval)) : inval = false ∧ Compat A g1 :=
  reduceOuter_compat A ns hinj (List.range 9) g false g1 red inval hA he

/-! ## The 27 groups -/

theorem units_length : ∀ u ∈ units, u.length = 9 := by decide!

theorem colUnit_mem : ∀ x : Fin 9, colUnit x ∈ units := by decide!

theorem rowUnit_mem : ∀ y : Fin 9, rowUnit y ∈ units := by decide!

theorem boxUnit_mem : ∀ bx b : Fin 3, boxUnit bx b ∈ units := by decide!

theorem colUnit_get : ∀ x y : Fin 9, (colUnit x)[y.val]? = some (x, y) := by decide!

theorem rowUnit_get : ∀ y x : Fin 9, (rowUnit y)[x.val]? = some (x, y) := by decide!

theorem boxUnit_get : ∀ p : Cell,
    (boxUnit ⟨p.1.val / 3, by omega⟩ ⟨p.2.val / 3, by omega⟩)[3 * (p.2.val % 3) + p.1.val % 3]? =
      some p := by decide!

theorem unit_of_peer (p q : Cell) (h : Peer p q) :
    ∃ u ∈ units, ∃ i j : Nat, i ≠ j ∧ u[i]? = some p ∧ u[j]? = some q := by
  obtain ⟨hne, h⟩ := h
  have key : ∀ (u : List Cell) (i j : Nat), u ∈ units → u[i]? = some p → u[j]? = some q →
      ∃ u ∈ units, ∃ i j : Nat, i ≠ j ∧ u[i]? = some p ∧ u[j]? = some q := by
    intro u i j hu hi hj
    refine ⟨u, hu, i, j, ?_, hi, hj⟩
    intro hij
    rw [hij, hj] at hi
    exact hne (Option.some.inj hi).symm
  rcases h with h | h | h
  · refine key (colUnit p.1) p.2.val q.2.val (colUnit_mem _) (colUnit_get _ _) ?_
    rw [h]; exact colUnit_get _ _
  · refine key (rowUnit p.2) p.1.val q.1.val (rowUnit_mem _) (rowUnit_get _ _) ?_
    rw [h]; exact rowUnit_get _ _
  · refine key (boxUnit ⟨p.1.val / 3, by omega⟩ ⟨p.2.val / 3, by omega⟩)
      (3 * (p.2.val % 3) + p.1.val % 3) (3 * (q.2.val % 3) + q.1.val % 3)
      (boxUnit_mem _ _) (boxUnit_get p) ?_
    have := boxUnit_get q
    simp only [h.1, h.2]
    exact this

theorem units_nodup : ∀ u ∈ units, u.Nodup := by decide!

theorem colUnit_fst : ∀ x : Fin 9, ∀ p ∈ colUnit x, p.1 = x := by decide!

theorem rowUnit_snd : ∀ y : Fin 9, ∀ p ∈ rowUnit y, p.2 = y := by decide!

theorem boxUnit_div : ∀ bx b : Fin 3, ∀ p ∈ boxUnit bx b,
    p.1.val / 3 = bx.val ∧ p.2.val / 3 = b.val := by decide!

theorem units_cases : ∀ u ∈ units, (∃ x, u = colUnit x) ∨ (∃ y, u = rowUnit y) ∨
    (∃ bx b, u = boxUnit bx b) := by decide!

theorem peer_of_unit (u : List Cell) (hu : u ∈ units) (i j : Nat) (p q : Cell) (hij : i ≠ j)
    (hp : u[i]? = some p) (hq : u[j]? = some q) : Peer p q := by
  obtain ⟨hi, hpi⟩ := List.getElem?_eq_some_iff.1 hp
  obtain ⟨hj, hqj⟩ := List.getElem?_eq_some_iff.1 hq
  have hpm : p ∈ u := hpi ▸ List.getElem_mem hi
  have hqm : q ∈ u := hqj ▸ List.getElem_mem hj
  refine ⟨?_, ?_⟩
  · intro hpq
    apply hij
    have h1 : u[i] = u[j] := by rw [hpi, hqj, hpq]
    exact (List.Nodup.getElem_inj_iff (units_nodup u hu)).1 h1
  · rcases units_cases u hu with ⟨x, rfl⟩ | ⟨y, rfl⟩ | ⟨bx, b, rfl⟩
    · left
      rw [colUnit_fst x p hpm, colUnit_fst x q hqm]
    · right; left
      rw [rowUnit_snd y p hpm, rowUnit_snd y q hqm]
    · right; right
      obtain ⟨a1, a2⟩ := boxUnit_div bx b p hpm
      obtain ⟨b1, b2⟩ := boxUnit_div bx b q hqm
      exact ⟨a1.trans b1.symm, a2.trans b2.symm⟩

/-! ## One pass of `Reduce` -/

theorem nodesForCol_eq (g : Grid) : ∀ x : Fin 9, g.NodesForCol x.val = .ok (colUnit x) := by
  intro x
  fin_cases x <;> rfl

theorem nodesForRow_eq (g : Grid) : ∀ y : Fin 9, g.NodesForRow y.val = .ok (rowUnit y) := by
  intro y
  fin_cases y <;> rfl

theorem nodesForBox_eq (g : Grid) : ∀ bx b : Fin 3,
    g.NodesForBox (3 * bx.val) (3 * b.val) = .ok (boxUnit bx b) := by
  intro bx b
  fin_cases bx <;> fin_cases b <;> rfl

theorem reduceGroups_eq (grs : List Group) (us : List (List Cell))
    (h : List.Forall₂ (fun gr u => ∀ g : Grid, g.reduceGroup gr = g.reduceNodes u) grs us) :
    ∀ (g : Grid) (red : Bool), Grid.reduceGroups grs g red = Grid.reduceUnits us g red := by
  induction h with
  | nil => intro g red; rfl
  | cons hgu _ ih =>
    intro g red
    simp only [Grid.reduceGroups, Grid.reduceUnits, hgu g]
    cases g.reduceNodes _ with
    | error e => rfl
    | ok r =>
      obtain ⟨g1, r, i⟩ := r
      simp only
      split
      · rfl
      · exact ih _ _

theorem forall₂_map {α β γ : Type} (R : β → γ → Prop) (f : α → β) (k : α → γ) (l : List α)
    (h : ∀ a ∈ l, R (f a) (k a)) : List.Forall₂ R (l.map f) (l.map k) := by
  induction l with
  | nil => exact List.Forall₂.nil
  | cons a l ih =>
    exact List.Forall₂.cons (h a (List.mem_cons_self _ _))
      (ih (fun b hb => h b (List.mem_cons_of_mem _ hb)))

theorem allGroups_eq : allGroups =
    (List.finRange 9).map (fun x => Group.col x.val) ++
      (List.finRange 9).map (fun y => Group.row y.val) ++
      ((List.finRange 3).flatMap (fun bx => (List.finRange 3).map (fun b => (bx, b)))).map
        (fun c => Group.box (3 * c.1.val) (3 * c.2.val)) := by decide!

theorem units_eq : units =
    (List.finRange 9).map colUnit ++ (List.finRange 9).map rowUnit ++
      ((List.finRange 3).flatMap (fun bx => (List.finRange 3).map (fun b => (bx, b)))).map
        (fun c => boxUnit c.1 c.2) := by decide!

theorem reduce_eq_units (g : Grid) : g.Reduce = Grid.reduceUnits units g false := by
  unfold Grid.Reduce
  apply reduceGroups_eq
  rw [allGroups_eq, units_eq]
  refine List.rel_append (List.rel_append ?_ ?_) ?_
  · apply forall₂_map
    intro x _ g
    simp only [Grid.reduceGroup, Grid.ReduceCol, nodesForCol_eq]
  · apply forall₂_map
    intro y _ g
    simp only [Grid.reduceGroup, Grid.ReduceRow, nodesForRow_eq]
  · apply forall₂_map
    intro c _ g
    simp only [Grid.reduceGroup, Grid.ReduceBox, nodesForBox_eq]

theorem reduceUnits_spec (us : List (List Cell)) :
    ∀ (g : Grid) (red : Bool), (∀ u ∈ us, u.length = 9) →
    ∃ g1 red1 inval, Grid.reduceUnits us g red = .ok (g1, red1, inval) ∧ Shrinks g g1 ∧
      (red1 = false → g1 = g ∧ red = false ∧ inval = false ∧ ∀ u ∈ us, Settled g u) ∧
      (red = true → red1 = true) ∧ (inval = true → red1 = true) ∧
      (red1 = true → red = true ∨ g1.size < g.size) := by
  induction us with
  | nil =>
    intro g red _
    refine ⟨g, red, false, rfl, shrinks_refl g, ?_, fun h => h, by simp, fun h => Or.inl h⟩
    intro h
    exact ⟨rfl, h, rfl, by simp⟩
  | cons u us ih =>
    intro g red hlen
    obtain ⟨g1, r, inval, he, hs, h1, h3, h4⟩ :=
      reduceNodes_spec g u (hlen u (List.mem_cons_self _ _))
    by_cases hinv : inval = true
    · refine ⟨g1, true, true, ?_, hs, by simp, fun _ => rfl, fun _ => rfl, ?_⟩
      · simp only [Grid.reduceUnits, he, hinv, if_true]
      · intro _
        exact Or.inr (h4 (h3 hinv))
    · obtain ⟨g2, red2, inval2, he2, hs2, k1, k2, k3, k4⟩ :=
        ih g1 (if r = true then true else red) (fun w hw => hlen w (List.mem_cons_of_mem _ hw))
      refine ⟨g2, red2, inval2, ?_, shrinks_trans hs hs2, ?_, ?_, k3, ?_⟩
      · simp only [Grid.reduceUnits, he, hinv]
        exact he2
      · intro hr
        obtain ⟨a, b, c, d⟩ := k1 hr
        have hrf : r = false := by
          by_cases hrt : r = true
          · simp [hrt] at b
          · simpa using hrt
        have hred : red = false := by simpa [hrf] using b
        obtain ⟨a1, _, c1⟩ := h1 hrf
        subst a1
        refine ⟨a, hred, c, ?_⟩
        intro w hw
        rcases List.mem_cons.1 hw with rfl | hw
        · exact c1
        · exact d w hw
      · intro hred
        apply k2
        simp [hred]
      · intro hr
        rcases k4 hr with h | h
        · by_cases hrt : r = true
          · exact Or.inr (lt_of_le_of_lt (shrinks_size_le hs2) (h4 hrt))
          · left
            simpa [hrt] using h
        · exact Or.inr (lt_of_lt_of_le h (shrinks_size_le hs))

theorem reduceUnits_compat (A : Cell → Int) (us : List (List Cell))
    (hinj : ∀ u ∈ us, ∀ (i j : Nat) (p q : Cell), i ≠ j → u[i]? = some p → u[j]? = some q →
      A p ≠ A q) :
    ∀ (g : Grid) (red : Bool) (g1 : Grid) (red1 inval : Bool), Compat A g →
      Grid.reduceUnits us g red = .ok (g1, red1, inval) → inval = false ∧ Compat A g1 := by
  induction us with
  | nil =>
    intro g red g1 red1 inval hA he
    simp only [Grid.reduceUnits, Except.ok.injEq, Prod.mk.injEq] at he
    obtain ⟨rfl, _, rfl⟩ := he
    exact ⟨rfl, hA⟩
  | cons u us ih =>
    intro g red g1 red1 inval hA he
    simp only [Grid.reduceUnits] at he
    split at he
    · exact absurd he (by simp)
    · next g2 r2 i2 he2 =>
      obtain ⟨hi2, hA2⟩ := reduceNodes_compat A g u (hinj u (List.mem_cons_self _ _)) hA
        g2 r2 i2 he2
      subst hi2
      simp only [Bool.false_eq_true, if_false] at he
      exact ih (fun w hw => hinj w (List.mem_cons_of_mem _ hw)) g2 _ g1 red1 inval hA2 he

theorem fixpoint_of_settled (g : Grid) (h : ∀ u ∈ units, Settled g u) : Fixpoint g := by
  intro p q hpq v hv
  obtain ⟨u, hu, i, j, hij, hp, hq⟩ := unit_of_peer p q hpq
  exact h u hu i j p q v hij hp hq hv

/-- One pass of `Reduce` returns; it only removes candidates of nodes that are
not fixed; a pass that reports no reduction changed nothing and found nothing
to remove; a pass that reports a reduction removed a candidate. -/
theorem reduce_spec (g : Grid) :
    ∃ g1 red inval, g.Reduce = .ok (g1, red, inval) ∧ Shrinks g g1 ∧
      (red = false → g1 = g ∧ inval = false ∧ Fixpoint g) ∧
      (inval = true → red = true) ∧ (red = true → g1.size < g.size) := by
  obtain ⟨g1, red, inval, he, hs, h1, _, h3, h4⟩ := reduceUnits_spec units g false units_length
  refine ⟨g1, red, inval, by rw [reduce_eq_units]; exact he, hs, ?_, h3, ?_⟩
  · intro hr
    obtain ⟨a, _, c, d⟩ := h1 hr
    exact ⟨a, c, fixpoint_of_settled g d⟩
  · intro hr
    rcases h4 hr with h | h
    · exact absurd h (by simp)
    · exact h

theorem reduce_compat (A : Cell → Int) (hA : NoClash A) (g g1 : Grid) (red inval : Bool)
    (hc : Compat A g) (he : g.Reduce = .ok (g1, red, inval)) : inval = false ∧ Compat A g1 := by
  rw [reduce_eq_units] at he
  refine reduceUnits_compat A units ?_ g false g1 red inval hc he
  intro u hu i j p q hij hp hq
  exact hA p q (peer_of_unit u hu i j p q hij hp hq)

/-! ## The propagation loop of `FixNode` -/

theorem reduceLoop_spec (fuel : Nat) :
    ∀ g : Grid, g.size < fuel →
    ∃ g1 inval, Grid.reduceLoop fuel g = .ok (g1, inval) ∧ Shrinks g g1 ∧
      (inval = false → Fixpoint g1) := by
  induction fuel with
  | zero => intro g h; exact absurd h (Nat.not_lt_zero _)
  | succ fuel ih =>
    intro g hfuel
    obtain ⟨g1, red, inval, he, hs, h1, h3, h4⟩ := reduce_spec g
    by_cases hinv : inval = true
    · refine ⟨g1, true, ?_, hs, by simp⟩
      simp only [Grid.reduceLoop, he, hinv, if_true]
    · by_cases hr : red = true
      · have hlt := h4 hr
        obtain ⟨g2, inval2, he2, hs2, k⟩ := ih g1 (by omega)
        refine ⟨g2, inval2, ?_, shrinks_trans hs hs2, k⟩
        simp only [Grid.reduceLoop, he, hinv, hr]
        exact he2
      · have hr' : red = false := by simpa using hr
        obtain ⟨a, _, c⟩ := h1 hr'
        refine ⟨g1, false, ?_, hs, fun _ => a ▸ c⟩
        simp only [Grid.reduceLoop, he, hinv, hr']
        rfl

theorem reduceLoop_compat (A : Cell → Int) (hA : NoClash A) (fuel : Nat) :
    ∀ (g g1 : Grid) (inval : Bool), Compat A g → Grid.reduceLoop fuel g = .ok (g1, inval) →
      inval = false ∧ Compat A g1 := by
  induction fuel with
  | zero =>
    intro g g1 inval _ he
    simp [Grid.reduceLoop] at he
  | succ fuel ih =>
    intro g g1 inval hc he
    simp only [Grid.reduceLoop] at he
    split at he
    · exact absurd he (by simp)
    · next g2 r2 i2 he2 =>
      obtain ⟨hi2, hc2⟩ := reduce_compat A hA g g2 r2 i2 hc he2
      subst hi2
      simp only [Bool.false_eq_true, if_false] at he
      split at he
      · simp only [Except.ok.injEq, Prod.mk.injEq] at he
        obtain ⟨rfl, rfl⟩ := he
        exact ⟨rfl, hc2⟩
      · exact ih g2 g1 inval hc2 he

/-! ## `FixNode` -/

theorem peer_symm {p q : Cell} (h : Peer p q) : Peer q p := by
  obtain ⟨hne, h⟩ := h
  refine ⟨Ne.symm hne, ?_⟩
  rcases h with h | h | h
  · exact Or.inl h.symm
  · exact Or.inr (Or.inl h.symm)
  · exact Or.inr (Or.inr ⟨h.1.symm, h.2.symm⟩)

/-- `FixNode` returns. When it returns `true` the node is fixed to `val`, the
counter went up by one, the other nodes only lost candidates and propagation
has run to its end. When it returns `false` the counter is unchanged, and the
grid as well when `val` was not a candidate. -/
theorem fixNode_spec (g : Grid) (n : Cell) (val : Int) :
    ∃ g1 ok, g.FixNode n val = .ok (g1, ok) ∧ (ok = true → FixedAt g g1 n val) ∧
      (ok = false → g1.FixedNodes = g.FixedNodes) ∧
      ((g.get n).has val = false → g1 = g ∧ ok = false) := by
  by_cases hv : (g.get n).has val = true
  · obtain ⟨g2, inval, he, hs, hfix⟩ :=
      reduceLoop_spec ((g.setNode n ((g.get n).Fix val)).size + 1)
        (g.setNode n ((g.get n).Fix val)) (Nat.lt_succ_self _)
    by_cases hinv : inval = true
    · refine ⟨g2, false, ?_, by simp, fun _ => hs.fixedNodes, by simp [hv]⟩
      simp only [Grid.FixNode, hv, Bool.not_true, Bool.false_eq_true, if_false, he, hinv, if_true]
    · have hinv' : inval = false := by simpa using hinv
      refine ⟨g2.incFixedNodes, true, ?_, fun _ => ?_, by simp, by simp [hv]⟩
      · simp only [Grid.FixNode, hv, Bool.not_true, Bool.false_eq_true, if_false, he, hinv]
      · have hn : (g.setNode n ((g.get n).Fix val)).get n = { Vals := [val], Fixed := true } := by
          rw [get_setNode_self]; rfl
        refine ⟨(node_has_iff _ _).1 hv, ?_, ?_, ?_, ?_, ?_, ?_⟩
        · rw [get_incFixedNodes, hs.keep n (by rw [hn]), hn]
        · rw [fixedNodes_incFixedNodes, hs.fixedNodes]; rfl
        · intro p hp
          rw [get_incFixedNodes, hs.fixed p, get_setNode_other g n p _ hp]
        · intro p hp v hv1
          rw [get_incFixedNodes] at hv1
          have := hs.sub p v hv1
          rwa [get_setNode_other g n p _ hp] at this
        · intro p hp hf
          rw [get_incFixedNodes, hs.keep p (by rw [get_setNode_other g n p _ hp]; exact hf),
            get_setNode_other g n p _ hp]
        · exact hfix hinv'
  · have hv' : (g.get n).has val = false := by simpa using hv
    refine ⟨g, false, ?_, by simp, fun _ => rfl, fun _ => ⟨rfl, rfl⟩⟩
    simp only [Grid.FixNode, hv', Bool.not_false, if_true]

theorem fixNode_compat (A : Cell → Int) (hA : NoClash A) (g : Grid) (n : Cell)
    (hc : Compat A g) : ∃ g1, g.FixNode n (A n) = .ok (g1, true) ∧ Compat A g1 := by
  obtain ⟨g1, ok, he, _, _, _⟩ := fixNode_spec g n (A n)
  have hv : (g.get n).has (A n) = true := (node_has_iff _ _).2 (hc n)
  have hc0 : Compat A (g.setNode n ((g.get n).Fix (A n))) := by
    intro p
    rw [get_setNode]
    split
    · next h => rw [h]; simp [Node.Fix]
    · exact hc p
  simp only [Grid.FixNode, hv, Bool.not_true, Bool.false_eq_true, if_false] at he ⊢
  split at he
  · exact absurd he (by simp)
  · next g2 inval he2 =>
    obtain ⟨hi, hc2⟩ := reduceLoop_compat A hA _ _ g2 inval hc0 he2
    subst hi
    simp only [Bool.false_eq_true, if_false]
    exact ⟨g2.incFixedNodes, rfl, hc2⟩

theorem countP_update {α : Type} [DecidableEq α] (l : List α) (hl : l.Nodup) (f f1 : α → Bool)
    (n : α) (hn : n ∈ l) (hf : f n = false) (hf1 : f1 n = true)
    (hother : ∀ p, p ≠ n → f1 p = f p) : l.countP f1 = l.countP f + 1 := by
  induction l with
  | nil => simp at hn
  | cons a l ih =>
    have hnd := List.nodup_cons.1 hl
    by_cases ha : a = n
    · subst ha
      have : l.countP f1 = l.countP f := by
        apply List.countP_congr
        intro p hp
        have hpa : p ≠ a := fun h => hnd.1 (h ▸ hp)
        rw [hother p hpa]
      rw [List.countP_cons_of_pos _ _ hf1, List.countP_cons_of_neg _ _ (by simp [hf]), this]
    · have hn1 : n ∈ l := by
        rcases List.mem_cons.1 hn with h | h
        · exact absurd h.symm ha
        · exact h
      have ih1 := ih hnd.2 hn1
      by_cases hfa : f a = true
      · rw [List.countP_cons_of_pos _ _ hfa, List.countP_cons_of_pos _ _ (by rw [hother a ha]; exact hfa),
          ih1]
      · rw [List.countP_cons_of_neg _ _ hfa, List.countP_cons_of_neg _ _ (by rw [hother a ha]; exact hfa),
          ih1]

theorem fixedCount_fixedAt {g g1 : Grid} {n : Cell} {val : Int} (h : FixedAt g g1 n val)
    (hn : (g.get n).Fixed = false) : g1.fixedCount = g.fixedCount + 1 := by
  unfold Grid.fixedCount
  apply countP_update colMajor nodup_colMajor _ _ n (mem_colMajor n) hn
  · rw [h.node]
  · intro p hp
    exact h.fixed p hp

/-- A successful `FixNode` on a node that is not fixed keeps the invariant. -/
theorem inv_fixedAt {g g1 : Grid} {n : Cell} {val : Int} (hi : Inv g) (h : FixedAt g g1 n val)
    (hn : (g.get n).Fixed = false) : Inv g1 := by
  have hval : 1 ≤ val ∧ val ≤ 9 := hi.digits n val h.mem
  have hclash : ∀ q, Peer q n → (g.get q).Fixed = true → (g.get q).Vals ≠ [val] := by
    intro q hq hqf hqv
    rcases hi.fixpoint q n hq val hqv with h1 | h1
    · rw [hn] at h1; exact absurd h1 (by simp)
    · exact h1 h.mem
  refine ⟨?_, ?_, ?_, h.fixpoint, ?_⟩
  · intro p v hv
    by_cases hp : p = n
    · subst hp
      rw [h.node] at hv
      simp only [List.mem_singleton] at hv
      rw [hv]; exact hval
    · exact hi.digits p v (h.sub p hp v hv)
  · intro p hpf
    by_cases hp : p = n
    · subst hp
      exact ⟨val, by rw [h.node]⟩
    · rw [h.fixed p hp] at hpf
      rw [h.keep p hp hpf]
      exact hi.single p hpf
  · have hle : g.fixedCount ≤ 81 := by
      unfold Grid.fixedCount
      rw [← length_colMajor]
      exact List.countP_le_length _
    rw [h.counter, hi.count, fixedCount_fixedAt h hn, wrapInt_succ_small _ hle]
    simp
  · intro p q hpq hpf hqf
    by_cases hp : p = n
    · subst hp
      have hq : q ≠ p := Ne.symm hpq.1
      rw [h.fixed q hq] at hqf
      rw [h.node, h.keep q hq hqf]
      exact fun e => hclash q (peer_symm hpq) hqf e.symm
    · rw [h.fixed p hp] at hpf
      by_cases hq : q = n
      · subst hq
        rw [h.node, h.keep p hp hpf]
        exact hclash p hpq hpf
      · rw [h.fixed q hq] at hqf
        rw [h.keep p hp hpf, h.keep q hq hqf]
        exact hi.distinct p q hpq hpf hqf

/-! ## `FixNext` and its loop -/

theorem extends_refl (g : Grid) : Extends g g :=
  ⟨fun _ _ => rfl, fun _ _ h => h⟩

theorem extends_trans {g g1 g2 : Grid} (h1 : Extends g g1) (h2 : Extends g1 g2) :
    Extends g g2 where
  keep p hp := by
    rw [h2.keep p (by rw [h1.keep p hp]; exact hp), h1.keep p hp]
  sub p v hv := h1.sub p v (h2.sub p v hv)

theorem extends_fixedAt {g g1 : Grid} {n : Cell} {val : Int} (h : FixedAt g g1 n val)
    (hn : (g.get n).Fixed = false) : Extends g g1 where
  keep p hp := by
    apply h.keep p _ hp
    intro e
    rw [e, hn] at hp
    exact absurd hp (by simp)
  sub p v hv := by
    by_cases hp : p = n
    · subst hp
      rw [h.node] at hv
      simp only [List.mem_singleton] at hv
      rw [hv]; exact h.mem
    · exact h.sub p hp v hv

theorem fixedCount_le (g : Grid) : g.fixedCount ≤ 81 := by
  unfold Grid.fixedCount
  rw [← length_colMajor]
  exact List.countP_le_length _

theorem all_fixed_of_count {g : Grid} (h : g.fixedCount = 81) : ∀ p, (g.get p).Fixed = true := by
  intro p
  unfold Grid.fixedCount at h
  rw [← length_colMajor] at h
  exact List.countP_eq_length.1 h p (mem_colMajor p)

theorem count_of_all_fixed {g : Grid} (h : ∀ p, (g.get p).Fixed = true) : g.fixedCount = 81 := by
  unfold Grid.fixedCount
  rw [← length_colMajor]
  exact List.countP_eq_length.2 (fun p _ => h p)

/-- One call of `FixNext` returns. With `fixed = false` nothing was changed;
with `fixed = true` and `inval = false` one node that was not fixed and had one
candidate has been fixed to it. -/
theorem fixNextFrom_spec (cs : List Cell) (g : Grid) :
    ∃ g1 fixed inval, Grid.fixNextFrom cs g = .ok (g1, fixed, inval) ∧
      (fixed = false → g1 = g ∧ inval = false) ∧
      (fixed = true → inval = false →
        ∃ n v, (g.get n).Fixed = false ∧ (g.get n).Vals = [v] ∧ FixedAt g g1 n v) := by
  induction cs with
  | nil => exact ⟨g, false, false, rfl, fun _ => ⟨rfl, rfl⟩, by simp⟩
  | cons n cs ih =>
    by_cases hskip : ((g.get n).Fixed || decide ((g.get n).Len ≠ 1)) = true
    · obtain ⟨g1, fixed, inval, he, h1, h2⟩ := ih
      refine ⟨g1, fixed, inval, ?_, h1, h2⟩
      simp only [Grid.fixNextFrom, hskip, if_true]
      exact he
    · simp only [Bool.or_eq_true, decide_eq_true_eq, not_or, Bool.not_eq_true, ne_eq,
        not_not] at hskip
      obtain ⟨hnf, hlen⟩ := hskip
      obtain ⟨v, hv, hval⟩ := node_val_of_len _ hlen
      obtain ⟨g1, ok, he, h1, _, _⟩ := fixNode_spec g n v
      refine ⟨g1, true, !ok, ?_, by simp, ?_⟩
      · simp only [Grid.fixNextFrom, hnf, hlen, ne_eq, not_true_eq_false, decide_False,
          Bool.or_self, Bool.false_eq_true, if_false, hval, he]
      · intro _ hok
        have : ok = true := by simpa using hok
        exact ⟨n, v, hnf, hv, h1 this⟩

theorem fixNextFrom_compat (A : Cell → Int) (hA : NoClash A) (cs : List Cell) (g : Grid)
    (hc : Compat A g) (g1 : Grid) (fixed inval : Bool)
    (he : Grid.fixNextFrom cs g = .ok (g1, fixed, inval)) : inval = false ∧ Compat A g1 := by
  induction cs with
  | nil =>
    simp only [Grid.fixNextFrom, Except.ok.injEq, Prod.mk.injEq] at he
    obtain ⟨rfl, _, rfl⟩ := he
    exact ⟨rfl, hc⟩
  | cons n cs ih =>
    simp only [Grid.fixNextFrom] at he
    split at he
    · exact ih he
    · next hskip =>
      simp only [Bool.or_eq_true, decide_eq_true_eq, not_or, Bool.not_eq_true, ne_eq,
        not_not] at hskip
      obtain ⟨v, hv, hval⟩ := node_val_of_len _ hskip.2
      have hAn : A n = v := by
        have := hc n
        rw [hv] at this
        simpa using this
      obtain ⟨g2, he2, hc2⟩ := fixNode_compat A hA g n hc
      rw [hval] at he
      simp only at he
      rw [← hAn, he2] at he
      simp only [Bool.not_true, Except.ok.injEq, Prod.mk.injEq] at he
      obtain ⟨rfl, _, rfl⟩ := he
      exact ⟨rfl, hc2⟩

/-- The `FixNext` loop of `Solve` returns within 82 rounds: every round fixes
one more node. Without `inval` it keeps the invariant and the fixed nodes. -/
theorem fixNextLoop_spec (fuel : Nat) :
    ∀ g : Grid, 81 < g.fixedCount + fuel →
    ∃ g1 inval, Grid.fixNextLoop fuel g = .ok (g1, inval) ∧
      (inval = false → Extends g g1 ∧ g.fixedCount ≤ g1.fixedCount ∧ (Inv g → Inv g1)) := by
  induction fuel with
  | zero =>
    intro g h
    have := fixedCount_le g
    omega
  | succ fuel ih =>
    intro g hfuel
    obtain ⟨g1, fixed, inval, he, h1, h2⟩ := fixNextFrom_spec colMajor g
    by_cases hinv : inval = true
    · refine ⟨g1, true, ?_, by simp⟩
      simp only [Grid.fixNextLoop, Grid.FixNext, he, hinv, if_true]
    · have hinv' : inval = false := by simpa using hinv
      by_cases hfx : fixed = true
      · obtain ⟨n, v, hnf, _, hfa⟩ := h2 hfx hinv'
        have hcount := fixedCount_fixedAt hfa hnf
        obtain ⟨g2, inval2, he2, k⟩ := ih g1 (by omega)
        refine ⟨g2, inval2, ?_, ?_⟩
        · simp only [Grid.fixNextLoop, Grid.FixNext, he, hinv, hfx]
          exact he2
        · intro hi2
          obtain ⟨ke, kc, ki⟩ := k hi2
          exact ⟨extends_trans (extends_fixedAt hfa hnf) ke, by omega,
            fun hi => ki (inv_fixedAt hi hfa hnf)⟩
      · have hfx' : fixed = false := by simpa using hfx
        obtain ⟨rfl, _⟩ := h1 hfx'
        refine ⟨g1, false, ?_, fun _ => ⟨extends_refl g1, le_rfl, fun h => h⟩⟩
        simp only [Grid.fixNextLoop, Grid.FixNext, he, hinv, hfx']
        rfl

theorem fixNextLoop_compat (A : Cell → Int) (hA : NoClash A) (fuel : Nat) :
    ∀ (g g1 : Grid) (inval : Bool), Compat A g → Grid.fixNextLoop fuel g = .ok (g1, inval) →
      inval = false ∧ Compat A g1 := by
  induction fuel with
  | zero =>
    intro g g1 inval _ he
    simp [Grid.fixNextLoop] at he
  | succ fuel ih =>
    intro g g1 inval hc he
    simp only [Grid.fixNextLoop, Grid.FixNext] at he
    split at he
    · exact absurd he (by simp)
    · next g2 f2 i2 he2 =>
      obtain ⟨hi2, hc2⟩ := fixNextFrom_compat A hA colMajor g hc g2 f2 i2 he2
      subst hi2
      simp only [Bool.false_eq_true, if_false] at he
      split at he
      · simp only [Except.ok.injEq, Prod.mk.injEq] at he
        obtain ⟨rfl, rfl⟩ := he
        exact ⟨rfl, hc2⟩
      · exact ih g2 g1 inval hc2 he

/-! ## `Solve` -/

theorem nodeAt_cell (g : Grid) (n : Cell) : g.NodeAt n.1.val n.2.val = .ok n := by
  simp [Grid.NodeAt, n.1.isLt, n.2.isLt]

theorem fix_cell (g : Grid) (n : Cell) (v : Int) : g.Fix n.1.val n.2.val v = g.FixNode n v := by
  simp only [Grid.Fix, nodeAt_cell]

theorem fix_out_of_range (g : Grid) (v : Int) : g.Fix 9 9 v = .error .indexOutOfRange := rfl

theorem searchFrom_found (g : Grid) (cs : List Cell) :
    ∀ prev : Option Cell, (∃ p ∈ cs, (g.get p).Fixed = false) →
      ∃ n, g.searchFrom cs prev = (n.1.val, n.2.val, some n) ∧ (g.get n).Fixed = false := by
  induction cs with
  | nil => intro _ h; obtain ⟨p, hp, _⟩ := h; simp at hp
  | cons c cs ih =>
    intro prev h
    by_cases hc : (g.get c).Fixed = true
    · obtain ⟨p, hp, hpf⟩ := h
      have hp1 : p ∈ cs := by
        rcases List.mem_cons.1 hp with rfl | hp
        · rw [hc] at hpf; exact absurd hpf (by simp)
        · exact hp
      obtain ⟨n, hn, hnf⟩ := ih (some c) ⟨p, hp1, hpf⟩
      exact ⟨n, by simp only [Grid.searchFrom, hc, if_true]; exact hn, hnf⟩
    · exact ⟨c, by simp only [Grid.searchFrom, hc, Bool.false_eq_true, if_false],
        by simpa using hc⟩

theorem searchFrom_all_fixed (g : Grid) (cs : List Cell) :
    ∀ prev : Option Cell, (∀ p ∈ cs, (g.get p).Fixed = true) →
      g.searchFrom cs prev = (9, 9, (cs.getLast?).or prev) := by
  induction cs with
  | nil => intro prev _; rfl
  | cons c cs ih =>
    intro prev h
    simp only [Grid.searchFrom, h c (List.mem_cons_self _ _), if_true]
    rw [ih (some c) (fun p hp => h p (List.mem_cons_of_mem _ hp))]
    cases cs with
    | nil => rfl
    | cons d ds =>
      rw [List.getLast?_cons_cons, List.getLast?_eq_getLast _ (List.cons_ne_nil d ds)]
      rfl

theorem solved_of_inv_complete {g : Grid} (hi : Inv g) (hc : g.Complete = true) : Solved g := by
  have h81 : g.fixedCount = 81 := by
    have h1 : g.FixedNodes = 81 := by
      simpa [Grid.Complete] using hc
    have h2 := hi.count
    omega
  have hf := all_fixed_of_count h81
  refine ⟨hf, ?_, fun p q hpq => hi.distinct p q hpq (hf p) (hf q)⟩
  intro p
  obtain ⟨v, hv⟩ := hi.single p (hf p)
  exact ⟨v, hv, hi.digits p v (by rw [hv]; exact List.mem_singleton_self v)⟩

theorem unfixed_of_not_complete {g : Grid} (hi : Inv g) (hc : g.Complete = false) :
    ∃ p, (g.get p).Fixed = false := by
  by_contra hne
  have hall : ∀ p, (g.get p).Fixed = true := by
    intro p
    by_contra hp
    exact hne ⟨p, by simpa using hp⟩
  have h81 := count_of_all_fixed hall
  have h2 := hi.count
  have : g.FixedNodes = 81 := by omega
  simp [Grid.Complete, this] at hc

/-- The loop over the candidates of the chosen node, given what the nested
call of `Solve` does on grids with more fixed nodes. -/
theorem solveVals_spec (solve : Grid → Except Fault (Grid × Bool)) (g : Grid) (n : Cell)
    (hi : Inv g) (hn : (g.get n).Fixed = false)
    (hsolve : ∀ ng, Inv ng → g.fixedCount < ng.fixedCount → (∃ p, (ng.get p).Fixed = false) →
      ∃ g1 r, solve ng = .ok (g1, r) ∧ (r = true → Solved g1 ∧ Extends ng g1) ∧
        (∀ A, NoClash A → Compat A ng → r = true))
    (is : List Int) :
    ∃ g1 r, Grid.solveVals solve g n.1.val n.2.val n is = .ok (g1, r) ∧
      g1.FixedNodes = g.FixedNodes ∧ (r = false → g1 = g) ∧
      (r = true → Solved g1 ∧ Extends g g1) ∧
      (∀ A, NoClash A → Compat A g → A n ∈ is → r = true) := by
  induction is with
  | nil =>
    exact ⟨g, false, rfl, rfl, fun _ => rfl, by simp, by simp⟩
  | cons i is ih =>
    obtain ⟨g1, r, he, hfn, hrf, hrt, hcomp⟩ := ih
    -- what the round does when it gives up the digit `i`
    have skip : Grid.solveVals solve g n.1.val n.2.val n (i :: is) =
        Grid.solveVals solve g n.1.val n.2.val n is →
        (∀ A, NoClash A → Compat A g → A n ≠ i) →
        ∃ g1 r, Grid.solveVals solve g n.1.val n.2.val n (i :: is) = .ok (g1, r) ∧
          g1.FixedNodes = g.FixedNodes ∧ (r = false → g1 = g) ∧
          (r = true → Solved g1 ∧ Extends g g1) ∧
          (∀ A, NoClash A → Compat A g → A n ∈ i :: is → r = true) := by
      intro heq hne
      refine ⟨g1, r, by rw [heq]; exact he, hfn, hrf, hrt, ?_⟩
      intro A hA hc hmem
      rcases List.mem_cons.1 hmem with h | h
      · exact absurd h (hne A hA hc)
      · exact hcomp A hA hc h
    by_cases hv : (g.get n).has i = true
    · obtain ⟨ng1, ok, he1, hok, _, _⟩ := fixNode_spec g n i
      by_cases hokt : ok = true
      · have hfa := hok hokt
        have hi1 : Inv ng1 := inv_fixedAt hi hfa hn
        have hc1 := fixedCount_fixedAt hfa hn
        obtain ⟨ng2, inval, he2, h2⟩ := fixNextLoop_spec 82 ng1 (by omega)
        by_cases hinv : inval = true
        · apply skip
          · simp only [Grid.solveVals, hv, Bool.not_true, Bool.false_eq_true, if_false,
              grid_copy_eq, fix_cell, he1, hokt, he2, hinv, if_true]
          · intro A hA hc hAn
            obtain ⟨ng1', he1', hc1'⟩ := fixNode_compat A hA g n hc
            rw [hAn, he1] at he1'
            simp only [Except.ok.injEq, Prod.mk.injEq] at he1'
            obtain ⟨rfl, _⟩ := he1'
            have := (fixNextLoop_compat A hA 82 ng1 ng2 inval hc1' he2).1
            rw [hinv] at this
            exact absurd this (by simp)
        · have hinv' : inval = false := by simpa using hinv
          obtain ⟨hext, hcount, hinv2⟩ := h2 hinv'
          have hi2 := hinv2 hi1
          have hext2 : Extends g ng2 := extends_trans (extends_fixedAt hfa hn) hext
          by_cases hcomplete : ng2.Complete = true
          · have hs := solved_of_inv_complete hi2 hcomplete
            refine ⟨g.withNodesOf ng2, true, ?_, rfl, by simp,
              fun _ => ⟨⟨hs.fixed, hs.single, hs.distinct⟩, ⟨hext2.keep, hext2.sub⟩⟩,
              fun _ _ _ _ => rfl⟩
            simp only [Grid.solveVals, hv, Bool.not_true, Bool.false_eq_true, if_false,
              grid_copy_eq, fix_cell, he1, hokt, he2, hinv', hcomplete, if_true]
          · have hcomplete' : ng2.Complete = false := by simpa using hcomplete
            obtain ⟨ng3, r3, he3, h3t, h3c⟩ := hsolve ng2 hi2 (by omega)
              (unfixed_of_not_complete hi2 hcomplete')
            by_cases hr3 : r3 = true
            · obtain ⟨hs, hext3⟩ := h3t hr3
              have hext4 := extends_trans hext2 hext3
              refine ⟨g.withNodesOf ng3, true, ?_, rfl, by simp,
                fun _ => ⟨⟨hs.fixed, hs.single, hs.distinct⟩, ⟨hext4.keep, hext4.sub⟩⟩,
                fun _ _ _ _ => rfl⟩
              simp only [Grid.solveVals, hv, Bool.not_true, Bool.false_eq_true, if_false,
                grid_copy_eq, fix_cell, he1, hokt, he2, hinv', hcomplete', he3, hr3, if_true]
            · apply skip
              · simp only [Grid.solveVals, hv, Bool.not_true, Bool.false_eq_true, if_false,
                  grid_copy_eq, fix_cell, he1, hokt, he2, hinv', hcomplete', he3, hr3]
              · intro A hA hc hAn
                obtain ⟨ng1', he1', hc1'⟩ := fixNode_compat A hA g n hc
                rw [hAn, he1] at he1'
                simp only [Except.ok.injEq, Prod.mk.injEq] at he1'
                obtain ⟨rfl, _⟩ := he1'
                have hc2 := (fixNextLoop_compat A hA 82 ng1 ng2 inval hc1' he2).2
                exact hr3 (h3c A hA hc2)
      · apply skip
        · have hokf : ok = false := by simpa using hokt
          simp only [Grid.solveVals, hv, Bool.not_true, Bool.false_eq_true, if_false,
            grid_copy_eq, fix_cell, he1, hokf, Bool.not_false, if_true]
        · intro A hA hc hAn
          obtain ⟨ng1', he1', _⟩ := fixNode_compat A hA g n hc
          rw [hAn, he1] at he1'
          simp only [Except.ok.injEq, Prod.mk.injEq] at he1'
          exact hokt he1'.2
    · apply skip
      · have hv' : (g.get n).has i = false := by simpa using hv
        simp only [Grid.solveVals, hv', Bool.not_false, if_true]
      · intro A _ hc hAn
        apply hv
        rw [← hAn]
        exact (node_has_iff _ _).2 (hc n)

theorem digit_mem (v : Int) (h : 1 ≤ v ∧ v ≤ 9) : v ∈ ([1, 2, 3, 4, 5, 6, 7, 8, 9] : List Int) := by
  obtain ⟨h1, h2⟩ := h
  interval_cases v <;> simp

/-- `Solve` on a grid that satisfies the invariant and has a node that is not
fixed: it returns within the depth bound, leaves the counter alone, leaves the
grid alone when it returns `false`, leaves a solved grid that keeps the fixed
nodes when it returns `true`, and returns `true` whenever some assignment
without clashes is still possible. -/
theorem solveDepth_spec (fuel : Nat) :
    ∀ g : Grid, Inv g → 81 < g.fixedCount + fuel → (∃ p, (g.get p).Fixed = false) →
    ∃ g1 r, Grid.solveDepth fuel g = .ok (g1, r) ∧ g1.FixedNodes = g.FixedNodes ∧
      (r = false → g1 = g) ∧ (r = true → Solved g1 ∧ Extends g g1) ∧
      (∀ A, NoClash A → Compat A g → r = true) := by
  induction fuel with
  | zero =>
    intro g _ h _
    have := fixedCount_le g
    omega
  | succ fuel ih =>
    intro g hi hfuel hex
    obtain ⟨p, hp⟩ := hex
    obtain ⟨n, hn, hnf⟩ := searchFrom_found g colMajor none ⟨p, mem_colMajor p, hp⟩
    obtain ⟨g1, r, he, hfn, hrf, hrt, hc⟩ := solveVals_spec (Grid.solveDepth fuel) g n hi hnf
      (fun ng hing hcount hex => by
        obtain ⟨g2, r2, he2, _, _, ht2, hc2⟩ := ih ng hing (by omega) hex
        exact ⟨g2, r2, he2, ht2, hc2⟩) [1, 2, 3, 4, 5, 6, 7, 8, 9]
    refine ⟨g1, r, ?_, hfn, hrf, hrt, ?_⟩
    · simp only [Grid.solveDepth, hn]
      exact he
    · intro A hA hcA
      exact hc A hA hcA (digit_mem _ (hi.digits n _ (hcA n)))

/-! ## `Set` -/

theorem cellAt_inj {i j : Nat} (hi : i < 81) (hj : j < 81) (h : cellAt i = cellAt j) : i = j := by
  simp only [cellAt, Prod.mk.injEq, Fin.mk.injEq] at h
  omega

theorem fix_cellAt (g : Grid) (i : Nat) (hi : i < 81) (v : Int) :
    g.Fix (i % 9) (i / 9) v = g.FixNode (cellAt i) v := by
  have h1 : i % 9 < 9 := Nat.mod_lt i (by decide)
  have h2 : i / 9 < 9 := by omega
  have : g.NodeAt (i % 9) (i / 9) = .ok (cellAt i) := by
    simp only [Grid.NodeAt, h1, h2, dite_true, cellAt, Except.ok.injEq, Prod.mk.injEq,
      Fin.mk.injEq, true_and]
    exact (Nat.mod_eq_of_lt h2).symm
  simp only [Grid.Fix, this]

theorem not_digit_of_blank {c : Nat} (h : isBlank c) : ¬ isDigit c := by
  unfold isBlank at h
  unfold isDigit
  omega

/-- The loop of `Set` from index `i` on, started on a grid that satisfies the
invariant and has no fixed node at the indices still to be read. -/
theorem setFrom_spec (cs : List Nat) :
    ∀ (i : Nat) (g : Grid), i + cs.length = 81 → Inv g →
      (∀ j, i ≤ j → j < 81 → (g.get (cellAt j)).Fixed = false) →
    ∃ g1 ok err, Grid.setFrom cs i g = .ok (g1, ok, err) ∧
      (ok = true → err = none ∧ Inv g1 ∧ Extends g g1 ∧
        (∀ j, j < i → (g1.get (cellAt j)).Fixed = (g.get (cellAt j)).Fixed) ∧
        (∀ (k : Nat) (c : Nat), cs[k]? = some c →
          (isDigit c ∧ g1.get (cellAt (i + k)) = { Vals := [digitOf c], Fixed := true }) ∨
          (isBlank c ∧ (g1.get (cellAt (i + k))).Fixed = false)) ∧
        g1.FixedNodes = g.FixedNodes + cs.countP (fun c => decide (isDigit c))) ∧
      (ok = false → err = some .invalidGrid ∨
        ∃ c ∈ cs, ¬ isBlank c ∧ ¬ isDigit c ∧ err = some (.invalidChar c)) := by
  induction cs with
  | nil =>
    intro i g _ hi _
    exact ⟨g, true, none, rfl, fun _ => ⟨rfl, hi, extends_refl g, fun _ _ => rfl,
      by simp, by simp⟩, by simp⟩
  | cons c cs ih =>
    intro i g hlen hi hun
    simp only [List.length_cons] at hlen
    have hi81 : i < 81 := by omega
    by_cases hb : isBlank c
    · have hb' : c = 48 ∨ c = 32 ∨ c = 95 := hb
      obtain ⟨g1, ok, err, he, h1, h2⟩ := ih (i + 1) g (by omega) hi
        (fun j hj hj81 => hun j (by omega) hj81)
      refine ⟨g1, ok, err, ?_, ?_, ?_⟩
      · simp only [Grid.setFrom, hb', if_true]
        exact he
      · intro hok
        obtain ⟨a, b, c1, d, e, f⟩ := h1 hok
        refine ⟨a, b, c1, fun j hj => d j (by omega), ?_, ?_⟩
        · intro k c2 hk
          cases k with
          | zero =>
            simp only [List.getElem?_cons_zero, Option.some.injEq] at hk
            subst hk
            right
            refine ⟨hb, ?_⟩
            rw [Nat.add_zero, d i (by omega)]
            exact hun i le_rfl hi81
          | succ k =>
            simp only [List.getElem?_cons_succ] at hk
            have := e k c2 hk
            rwa [show i + 1 + k = i + (k + 1) by omega] at this
        · rw [f, List.countP_cons_of_neg]
          simpa using not_digit_of_blank hb
      · intro hok
        rcases h2 hok with h | ⟨c2, hc2, h⟩
        · exact Or.inl h
        · exact Or.inr ⟨c2, List.mem_cons_of_mem _ hc2, h⟩
    · have hb' : ¬ (c = 48 ∨ c = 32 ∨ c = 95) := hb
      by_cases hd : isDigit c
      · have hd' : 49 ≤ c ∧ c ≤ 57 := hd
        obtain ⟨g0, b, he0, hb1, _, _⟩ := fixNode_spec g (cellAt i) (digitOf c)
        have hfix : g.Fix (i % 9) (i / 9) (((c - 49 : Nat) : Int) + 1) = .ok (g0, b) := by
          rw [fix_cellAt g i hi81]; exact he0
        by_cases hbt : b = true
        · have hfa := hb1 hbt
          have hni := hun i le_rfl hi81
          have hi0 : Inv g0 := inv_fixedAt hi hfa hni
          have hne : ∀ j, j < 81 → j ≠ i → cellAt j ≠ cellAt i :=
            fun j hj hji e => hji (cellAt_inj hj hi81 e)
          obtain ⟨g1, ok, err, he, h1, h2⟩ := ih (i + 1) g0 (by omega) hi0
            (fun j hj hj81 => by
              rw [hfa.fixed _ (hne j hj81 (by omega))]
              exact hun j (by omega) hj81)
          refine ⟨g1, ok, err, ?_, ?_, ?_⟩
          · simp only [Grid.setFrom, hb', if_false, hd', and_self, if_true, hfix, hbt,
              Bool.not_true, Bool.false_eq_true]
            exact he
          · intro hok
            obtain ⟨a, b1, c1, d, e, f⟩ := h1 hok
            refine ⟨a, b1, extends_trans (extends_fixedAt hfa hni) c1, ?_, ?_, ?_⟩
            · intro j hj
              rw [d j (by omega), hfa.fixed _ (hne j (by omega) (by omega))]
            · intro k c2 hk
              cases k with
              | zero =>
                simp only [List.getElem?_cons_zero, Option.some.injEq] at hk
                subst hk
                left
                refine ⟨hd, ?_⟩
                rw [Nat.add_zero, c1.keep _ (by rw [hfa.node]), hfa.node]
              | succ k =>
                simp only [List.getElem?_cons_succ] at hk
                have := e k c2 hk
                rwa [show i + 1 + k = i + (k + 1) by omega] at this
            · rw [f, hfa.counter, hi.count, wrapInt_succ_small _ (fixedCount_le g),
                List.countP_cons_of_pos _ _ (by simpa using hd)]
              push_cast
              ring
          · intro hok
            rcases h2 hok with h | ⟨c2, hc2, h⟩
            · exact Or.inl h
            · exact Or.inr ⟨c2, List.mem_cons_of_mem _ hc2, h⟩
        · have hbf : b = false := by simpa using hbt
          refine ⟨g0, false, some .invalidGrid, ?_, by simp, fun _ => Or.inl rfl⟩
          simp only [Grid.setFrom, hb', if_false, hd', and_self, if_true, hfix, hbf,
            Bool.not_false]
      · have hd' : ¬ (49 ≤ c ∧ c ≤ 57) := hd
        refine ⟨g, false, some (.invalidChar c), ?_, by simp,
          fun _ => Or.inr ⟨c, List.mem_cons_self _ _, hb, hd, rfl⟩⟩
        simp only [Grid.setFrom, hb', if_false, hd']

/-- The loop of `Set` accepts the presets of a string when some assignment
without clashes that is still possible carries them. -/
theorem setFrom_compat (A : Cell → Int) (hA : NoClash A) (cs : List Nat) :
    ∀ (i : Nat) (g : Grid), i + cs.length = 81 → Compat A g →
      (∀ (k : Nat) (c : Nat), cs[k]? = some c →
        isBlank c ∨ (isDigit c ∧ A (cellAt (i + k)) = digitOf c)) →
      ∃ g1, Grid.setFrom cs i g = .ok (g1, true, none) ∧ Compat A g1 := by
  induction cs with
  | nil => intro i g _ hc _; exact ⟨g, rfl, hc⟩
  | cons c cs ih =>
    intro i g hlen hc hcs
    simp only [List.length_cons] at hlen
    have hi81 : i < 81 := by omega
    have hrest : ∀ (k : Nat) (c2 : Nat), cs[k]? = some c2 →
        isBlank c2 ∨ (isDigit c2 ∧ A (cellAt (i + 1 + k)) = digitOf c2) := by
      intro k c2 hk
      have := hcs (k + 1) c2 (by simpa using hk)
      rwa [show i + (k + 1) = i + 1 + k by omega] at this
    rcases hcs 0 c (by simp) with hb | ⟨hd, hAc⟩
    · have hb' : c = 48 ∨ c = 32 ∨ c = 95 := hb
      obtain ⟨g1, he, hc1⟩ := ih (i + 1) g (by omega) hc hrest
      exact ⟨g1, by simp only [Grid.setFrom, hb', if_true]; exact he, hc1⟩
    · have hb' : ¬ (c = 48 ∨ c = 32 ∨ c = 95) := by
        have hd' : 49 ≤ c ∧ c ≤ 57 := hd
        omega
      have hd' : 49 ≤ c ∧ c ≤ 57 := hd
      obtain ⟨g0, he0, hc0⟩ := fixNode_compat A hA g (cellAt i) hc
      rw [Nat.add_zero] at hAc
      have hfix : g.Fix (i % 9) (i / 9) (((c - 49 : Nat) : Int) + 1) = .ok (g0, true) := by
        rw [fix_cellAt g i hi81]
        rw [hAc] at he0
        exact he0
      obtain ⟨g1, he, hc1⟩ := ih (i + 1) g0 (by omega) hc0 hrest
      refine ⟨g1, ?_, hc1⟩
      simp only [Grid.setFrom, hb', if_false, hd', and_self, if_true, hfix, Bool.not_true,
        Bool.false_eq_true]
      exact he

/-! ## `NewGrid` and `Set` -/

theorem inv_newGrid : Inv NewGrid where
  digits p v hv := by
    rw [get_NewGrid] at hv
    simp only [NewNode, List.mem_cons, List.mem_singleton, List.not_mem_nil, or_false] at hv
    omega
  single p hp := by
    rw [get_NewGrid] at hp
    exact absurd hp (by simp [NewNode])
  count := by
    have : NewGrid.fixedCount = 0 := by
      unfold Grid.fixedCount
      rw [List.countP_eq_zero]
      intro p _
      rw [get_NewGrid]
      simp [NewNode]
    rw [this]
    rfl
  fixpoint p q _ v hv := by
    rw [get_NewGrid] at hv
    simp [NewNode] at hv
  distinct p q _ hp := by
    rw [get_NewGrid] at hp
    exact absurd hp (by simp [NewNode])

theorem getD_eq_getElem? (s : List Nat) (i : Nat) (hi : i < s.length) :
    s[i]? = some (s.getD i 0) := by
  rw [List.getD_eq_getElem _ _ hi, List.getElem?_eq_getElem hi]

/-- `Set` on a new grid returns. When it succeeds the invariant holds, the
cells of the preset digits are fixed to them, the other cells are not fixed,
and the counter is the number of preset digits. When it fails on a string of 81
bytes the error is the invalid grid or an invalid character of the string. -/
theorem set_spec (s : List Nat) (hlen : s.length = 81) :
    ∃ g1 ok err, NewGrid.Set s = .ok (g1, ok, err) ∧
      (ok = true → err = none ∧ Inv g1 ∧
        (∀ i, i < 81 →
          (isDigit (s.getD i 0) ∧
            g1.get (cellAt i) = { Vals := [digitOf (s.getD i 0)], Fixed := true }) ∨
          (isBlank (s.getD i 0) ∧ (g1.get (cellAt i)).Fixed = false)) ∧
        g1.FixedNodes = s.countP (fun c => decide (isDigit c))) ∧
      (ok = false → err = some .invalidGrid ∨
        ∃ c ∈ s, ¬ isBlank c ∧ ¬ isDigit c ∧ err = some (.invalidChar c)) := by
  obtain ⟨g1, ok, err, he, h1, h2⟩ := setFrom_spec s 0 NewGrid (by omega) inv_newGrid
    (fun j _ _ => by rw [get_NewGrid]; rfl)
  refine ⟨g1, ok, err, ?_, ?_, h2⟩
  · simp only [Grid.Set, hlen, ne_eq, not_true_eq_false, if_false]
    exact he
  · intro hok
    obtain ⟨a, b, _, _, e, f⟩ := h1 hok
    refine ⟨a, b, ?_, ?_⟩
    · intro i hi
      have := e i (s.getD i 0) (getD_eq_getElem? s i (by omega))
      rwa [Nat.zero_add] at this
    · rw [f]
      simp [NewGrid]

/-! ## `String` -/

theorem sprintd_digit (v : Int) (h1 : 1 ≤ v) (h9 : v ≤ 9) : sprintd v = [48 + v.toNat] := by
  interval_cases v <;> rfl

theorem stringFrom_spec (g : Grid) (cs : List Cell)
    (h : ∀ p ∈ cs, (g.get p).Fixed = true → ∃ v, (g.get p).Vals = [v] ∧ 1 ≤ v ∧ v ≤ 9) :
    g.stringFrom cs = .ok (cs.map g.byteAt) := by
  induction cs with
  | nil => rfl
  | cons p cs ih =>
    have ih1 := ih (fun q hq => h q (List.mem_cons_of_mem _ hq))
    by_cases hp : (g.get p).Fixed = true
    · obtain ⟨v, hv, h1, h9⟩ := h p (List.mem_cons_self _ _) hp
      simp only [Grid.stringFrom, hp, if_true, node_val_of_vals _ v hv, ih1, List.map_cons,
        Grid.byteAt, hv, List.headD_cons, sprintd_digit v h1 h9, List.singleton_append]
    · simp only [Grid.stringFrom, hp, Bool.false_eq_true, if_false, ih1, List.map_cons,
        Grid.byteAt]

theorem rowMajor_eq : rowMajor = (List.range 81).map cellAt := by decide!

/-- `String` returns the bytes of the 81 cells in row-major order when every
fixed node has one digit. -/
theorem string_spec (g : Grid)
    (h : ∀ p, (g.get p).Fixed = true → ∃ v, (g.get p).Vals = [v] ∧ 1 ≤ v ∧ v ≤ 9) :
    g.String = .ok ((List.range 81).map (fun i => g.byteAt (cellAt i))) := by
  unfold Grid.String
  rw [stringFrom_spec g rowMajor (fun p _ => h p), rowMajor_eq, List.map_map]
  rfl

theorem list_eq_map_range (s : List Nat) (hlen : s.length = 81) :
    s = (List.range 81).map (fun i => s.getD i 0) := by
  apply List.ext_getElem
  · simp [hlen]
  · intro i h1 h2
    simp only [List.getElem_map, List.getElem_range]
    rw [List.getD_eq_getElem _ _ h1]

/-! ## Valid grids -/

theorem peer_cellAt_iff (i j : Nat) : Peer (cellAt i) (cellAt j) ↔
    ¬ (i % 9 = j % 9 ∧ i / 9 % 9 = j / 9 % 9) ∧
      (i % 9 = j % 9 ∨ i / 9 % 9 = j / 9 % 9 ∨
        (i % 9 / 3 = j % 9 / 3 ∧ i / 9 % 9 / 3 = j / 9 % 9 / 3)) := by
  simp only [Peer, cellAt, ne_eq, Prod.mk.injEq, Fin.mk.injEq]

theorem cellAt_index (p : Cell) : cellAt (9 * p.2.val + p.1.val) = p := by
  have h1 := p.1.isLt
  have h2 := p.2.isLt
  apply Prod.ext <;> apply Fin.ext <;> simp only [cellAt] <;> omega

theorem perm_digits_of_nodup (l : List Nat) (hlen : l.length = 9) (hnd : l.Nodup)
    (hd : ∀ x ∈ l, 49 ≤ x ∧ x ≤ 57) : l.Perm (List.range' 49 9) := by
  apply List.Subperm.perm_of_length_le
  · apply List.subperm_of_subset hnd
    intro x hx
    have := hd x hx
    rw [List.mem_range'_1]
    omega
  · simp [hlen]

theorem perm_digits_of_count (l : List Nat) (hlen : l.length = 9)
    (h : ∀ d < 9, l.count (49 + d) = 1) : (List.range' 49 9).Perm l := by
  apply List.Subperm.perm_of_length_le
  · apply List.subperm_of_subset (List.nodup_range' 49 9)
    intro x hx
    rw [List.mem_range'_1] at hx
    have := h (x - 49) (by omega)
    rw [show 49 + (x - 49) = x by omega] at this
    exact List.count_pos_iff.1 (by omega)
  · simp [hlen]

theorem count_digit_of_perm (l : List Nat) (hp : l.Perm (List.range' 49 9)) (d : Nat)
    (hd : d < 9) : l.count (49 + d) = 1 := by
  rw [hp.count_eq]
  apply List.count_eq_one_of_mem (List.nodup_range' 49 9)
  rw [List.mem_range'_1]
  omega

/-- The bytes at the nine indices `idx 0 .. idx 8` of different peers contain
each digit once, when the bytes are digits and peers carry different bytes. -/
theorem group_count (f : Nat → Nat) (hdig : ∀ i < 81, 49 ≤ f i ∧ f i ≤ 57)
    (hdist : ∀ i j, i < 81 → j < 81 → Peer (cellAt i) (cellAt j) → f i ≠ f j)
    (idx : Nat → Nat) (hidx : ∀ a < 9, idx a < 81)
    (hpeer : ∀ a b, a < 9 → b < 9 → a ≠ b → Peer (cellAt (idx a)) (cellAt (idx b)))
    (d : Nat) (hd : d < 9) :
    ((List.range 9).map (fun a => ((List.range 81).map f).getD (idx a) 0)).count (49 + d) = 1 := by
  have hmap : (List.range 9).map (fun a => ((List.range 81).map f).getD (idx a) 0) =
      (List.range 9).map (fun a => f (idx a)) := by
    apply List.map_congr_left
    intro a ha
    have h81 := hidx a (List.mem_range.1 ha)
    rw [List.getD_eq_getElem _ _ (by simpa using h81)]
    simp
  rw [hmap]
  apply count_digit_of_perm _ _ d hd
  apply perm_digits_of_nodup
  · simp
  · apply List.Nodup.map_on _ (List.nodup_range 9)
    intro a ha b hb hab
    by_contra hne
    have ha9 := List.mem_range.1 ha
    have hb9 := List.mem_range.1 hb
    exact hdist _ _ (hidx a ha9) (hidx b hb9) (hpeer a b ha9 hb9 hne) hab
  · intro x hx
    obtain ⟨a, ha, rfl⟩ := List.mem_map.1 hx
    exact hdig _ (hidx a (List.mem_range.1 ha))

/-- A string of 81 digit bytes in which peers carry different bytes encodes a
valid grid. -/
theorem valid_of_distinct (f : Nat → Nat) (hdig : ∀ i < 81, 49 ≤ f i ∧ f i ≤ 57)
    (hdist : ∀ i j, i < 81 → j < 81 → Peer (cellAt i) (cellAt j) → f i ≠ f j) :
    ValidSudoku ((List.range 81).map f) := by
  refine ⟨by simp, ?_⟩
  intro k hk d hd
  refine ⟨?_, ?_, ?_⟩
  · exact group_count f hdig hdist (fun c => 9 * k + c) (fun a ha => by dsimp only; omega)
      (fun a b ha hb hab => by rw [peer_cellAt_iff]; dsimp only; omega) d hd
  · exact group_count f hdig hdist (fun r => 9 * r + k) (fun a ha => by dsimp only; omega)
      (fun a b ha hb hab => by rw [peer_cellAt_iff]; dsimp only; omega) d hd
  · exact group_count f hdig hdist
      (fun a => 9 * (3 * (k / 3) + a / 3) + (3 * (k % 3) + a % 3)) (fun a ha => by dsimp only; omega)
      (fun a b ha hb hab => by rw [peer_cellAt_iff]; dsimp only; omega) d hd

/-- In a group whose bytes contain each digit once, the bytes are digits and
the bytes at different places differ. -/
theorem group_distinct (t : List Nat) (idx : Nat → Nat)
    (h : ∀ d < 9, ((List.range 9).map (fun a => t.getD (idx a) 0)).count (49 + d) = 1) :
    (∀ a < 9, 49 ≤ t.getD (idx a) 0 ∧ t.getD (idx a) 0 ≤ 57) ∧
      (∀ a b, a < 9 → b < 9 → a ≠ b → t.getD (idx a) 0 ≠ t.getD (idx b) 0) := by
  have hp := perm_digits_of_count _ (by simp) h
  constructor
  · intro a ha
    have hm : t.getD (idx a) 0 ∈ (List.range 9).map (fun a => t.getD (idx a) 0) :=
      List.mem_map.2 ⟨a, List.mem_range.2 ha, rfl⟩
    have := (hp.mem_iff).2 hm
    rw [List.mem_range'_1] at this
    omega
  · intro a b ha hb hab heq
    have hnd : ((List.range 9).map (fun a => t.getD (idx a) 0)).Nodup :=
      hp.nodup_iff.1 (List.nodup_range' 49 9)
    have hinj := List.inj_on_of_nodup_map hnd
    exact hab (hinj (List.mem_range.2 ha) (List.mem_range.2 hb) heq)

/-- In a valid grid every byte is a digit and peers carry different bytes. -/
theorem distinct_of_valid (t : List Nat) (hv : ValidSudoku t) :
    (∀ i < 81, 49 ≤ t.getD i 0 ∧ t.getD i 0 ≤ 57) ∧
      (∀ i j, i < 81 → j < 81 → Peer (cellAt i) (cellAt j) → t.getD i 0 ≠ t.getD j 0) := by
  obtain ⟨_, hv⟩ := hv
  have hrow := fun k (hk : k < 9) =>
    group_distinct t (fun c => 9 * k + c) (fun d hd => (hv k hk d hd).1)
  have hcol := fun k (hk : k < 9) =>
    group_distinct t (fun r => 9 * r + k) (fun d hd => (hv k hk d hd).2.1)
  have hbox := fun k (hk : k < 9) =>
    group_distinct t (fun a => 9 * (3 * (k / 3) + a / 3) + (3 * (k % 3) + a % 3))
      (fun d hd => (hv k hk d hd).2.2)
  constructor
  · intro i hi
    have := (hrow (i / 9) (by omega)).1 (i % 9) (by omega)
    simp only at this
    rwa [show 9 * (i / 9) + i % 9 = i by omega] at this
  · intro i j hi hj hpeer
    rw [peer_cellAt_iff] at hpeer
    obtain ⟨hne, hor⟩ := hpeer
    rcases hor with h | h | h
    · have := (hcol (i % 9) (by omega)).2 (i / 9) (j / 9) (by omega) (by omega) (by omega)
      simp only at this
      rwa [show 9 * (i / 9) + i % 9 = i by omega, show 9 * (j / 9) + i % 9 = j by omega] at this
    · have := (hrow (i / 9) (by omega)).2 (i % 9) (j % 9) (by omega) (by omega) (by omega)
      simp only at this
      rwa [show 9 * (i / 9) + i % 9 = i by omega, show 9 * (i / 9) + j % 9 = j by omega] at this
    · have := (hbox (3 * (i / 9 / 3) + i % 9 / 3) (by omega)).2
        (3 * (i / 9 % 3) + i % 9 % 3) (3 * (j / 9 % 3) + j % 9 % 3)
        (by omega) (by omega) (by omega)
      simp only at this
      rwa [show 9 * (3 * ((3 * (i / 9 / 3) + i % 9 / 3) / 3) +
            (3 * (i / 9 % 3) + i % 9 % 3) / 3) +
          (3 * ((3 * (i / 9 / 3) + i % 9 / 3) % 3) + (3 * (i / 9 % 3) + i % 9 % 3) % 3) = i
          by omega,
        show 9 * (3 * ((3 * (i / 9 / 3) + i % 9 / 3) / 3) +
            (3 * (j / 9 % 3) + j % 9 % 3) / 3) +
          (3 * ((3 * (i / 9 / 3) + i % 9 / 3) % 3) + (3 * (j / 9 % 3) + j % 9 % 3) % 3) = j
          by omega] at this

/-! ## From the parts to the whole -/

theorem set_ok_spec (s : List Nat) (g : Grid) (hlen : s.length = 81)
    (hset : NewGrid.Set s = .ok (g, true, none)) :
    Inv g ∧
      (∀ i, i < 81 →
        (isDigit (s.getD i 0) ∧
          g.get (cellAt i) = { Vals := [digitOf (s.getD i 0)], Fixed := true }) ∨
        (isBlank (s.getD i 0) ∧ (g.get (cellAt i)).Fixed = false)) ∧
      g.FixedNodes = s.countP (fun c => decide (isDigit c)) := by
  obtain ⟨g1, ok, err, he, h1, _⟩ := set_spec s hlen
  rw [hset] at he
  simp only [Except.ok.injEq, Prod.mk.injEq] at he
  obtain ⟨rfl, rfl, _⟩ := he
  obtain ⟨_, a, b, c⟩ := h1 rfl
  exact ⟨a, b, c⟩

theorem set_ok_length (g : Grid) (s : List Nat) (g1 : Grid) (err : Option SetError)
    (hset : g.Set s = .ok (g1, true, err)) : s.length = 81 := by
  by_contra h
  have h' : s.length ≠ 9 * 9 := h
  simp [Grid.Set, h'] at hset

theorem digitOf_toNat (c : Nat) (h : isDigit c) : 48 + (digitOf c).toNat = c := by
  unfold isDigit at h
  unfold digitOf
  omega

theorem byteAt_preset (g : Grid) (p : Cell) (c : Nat) (hc : isDigit c)
    (h : g.get p = { Vals := [digitOf c], Fixed := true }) : g.byteAt p = c := by
  simp only [Grid.byteAt, h, if_true, List.headD_cons]
  exact digitOf_toNat c hc

theorem byteAt_unfixed (g : Grid) (p : Cell) (h : (g.get p).Fixed = false) : g.byteAt p = 95 := by
  simp [Grid.byteAt, h]

/-- The bytes of a solved grid are digits, and peers carry different bytes. -/
theorem solved_bytes (g : Grid) (hs : Solved g) :
    (∀ p, 49 ≤ g.byteAt p ∧ g.byteAt p ≤ 57) ∧ (∀ p q, Peer p q → g.byteAt p ≠ g.byteAt q) := by
  have key : ∀ p, ∃ v : Int, (g.get p).Vals = [v] ∧ 1 ≤ v ∧ v ≤ 9 ∧
      g.byteAt p = 48 + v.toNat := by
    intro p
    obtain ⟨v, hv, h1, h9⟩ := hs.single p
    exact ⟨v, hv, h1, h9, by simp [Grid.byteAt, hs.fixed p, hv]⟩
  constructor
  · intro p
    obtain ⟨v, _, h1, h9, hb⟩ := key p
    omega
  · intro p q hpq heq
    obtain ⟨v, hv, h1, h9, hb⟩ := key p
    obtain ⟨w, hw, k1, k9, kb⟩ := key q
    apply hs.distinct p q hpq
    rw [hv, hw]
    have : v = w := by omega
    rw [this]

theorem solved_string (g : Grid) (hs : Solved g) :
    g.String = .ok ((List.range 81).map (fun i => g.byteAt (cellAt i))) ∧
      ValidSudoku ((List.range 81).map (fun i => g.byteAt (cellAt i))) := by
  obtain ⟨hdig, hdist⟩ := solved_bytes g hs
  exact ⟨string_spec g (fun p _ => hs.single p),
    valid_of_distinct (fun i => g.byteAt (cellAt i)) (fun i _ => hdig _)
      (fun i j _ _ h => hdist _ _ h)⟩

/-! ### `Solve` on a grid without a node to branch on -/

theorem solveVals_out_of_range (solve : Grid → Except Fault (Grid × Bool)) (g : Grid)
    (n : Cell) (is : List Int) (h : ∃ i ∈ is, (g.get n).has i = true) :
    Grid.solveVals solve g 9 9 n is = .error .indexOutOfRange := by
  induction is with
  | nil => obtain ⟨i, hi, _⟩ := h; simp at hi
  | cons i is ih =>
    by_cases hv : (g.get n).has i = true
    · simp only [Grid.solveVals, hv, Bool.not_true, Bool.false_eq_true, if_false,
        fix_out_of_range]
    · have hv' : (g.get n).has i = false := by simpa using hv
      simp only [Grid.solveVals, hv', Bool.not_false, if_true]
      apply ih
      obtain ⟨k, hk, hkv⟩ := h
      rcases List.mem_cons.1 hk with rfl | hk
      · exact absurd hkv hv
      · exact ⟨k, hk, hkv⟩

theorem solveVals_no_candidate (solve : Grid → Except Fault (Grid × Bool)) (g : Grid)
    (x y : Nat) (n : Cell) (is : List Int) (h : ∀ i ∈ is, (g.get n).has i = false) :
    Grid.solveVals solve g x y n is = .ok (g, false) := by
  induction is with
  | nil => rfl
  | cons i is ih =>
    simp only [Grid.solveVals, h i (List.mem_cons_self _ _), Bool.not_false, if_true]
    exact ih (fun k hk => h k (List.mem_cons_of_mem _ hk))

theorem last_colMajor : colMajor.getLast? = some ((8 : Fin 9), (8 : Fin 9)) := by decide

/-- `Solve` on a grid in which every node is fixed: the scan ends with
`x = y = 9` and `n` on the last node, and the first candidate of that node makes
`Fix(9, 9, i)` index out of range. -/
theorem solve_all_fixed (g : Grid) (hall : ∀ p, (g.get p).Fixed = true) :
    ((∃ i ∈ ([1, 2, 3, 4, 5, 6, 7, 8, 9] : List Int), (g.get (8, 8)).has i = true) →
      g.Solve = .error .indexOutOfRange) ∧
    ((∀ i ∈ ([1, 2, 3, 4, 5, 6, 7, 8, 9] : List Int), (g.get (8, 8)).has i = false) →
      g.Solve = .ok (g, false)) := by
  have hs : g.searchFrom colMajor none = (9, 9, some ((8 : Fin 9), (8 : Fin 9))) := by
    rw [searchFrom_all_fixed g colMajor none (fun p _ => hall p), last_colMajor]
    rfl
  constructor
  · intro h
    show Grid.solveDepth (81 + 1) g = _
    rw [Grid.solveDepth, hs]
    exact solveVals_out_of_range _ g _ _ h
  · intro h
    show Grid.solveDepth (81 + 1) g = _
    rw [Grid.solveDepth, hs]
    exact solveVals_no_candidate _ g _ _ _ _ h

theorem solve_all_fixed_not_true (g g1 : Grid) (hall : ∀ p, (g.get p).Fixed = true) :
    g.Solve ≠ .ok (g1, true) := by
  intro h
  obtain ⟨h1, h2⟩ := solve_all_fixed g hall
  by_cases hc : ∃ i ∈ ([1, 2, 3, 4, 5, 6, 7, 8, 9] : List Int), (g.get (8, 8)).has i = true
  · rw [h1 hc] at h
    exact absurd h (by simp)
  · have hc' : ∀ i ∈ ([1, 2, 3, 4, 5, 6, 7, 8, 9] : List Int), (g.get (8, 8)).has i = false := by
      intro i hi
      by_contra hne
      exact hc ⟨i, hi, by simpa using hne⟩
    rw [h2 hc'] at h
    simp at h

/-- `Solve` after a successful `Set` that left a node not fixed. -/
theorem solve_spec (g : Grid) (hi : Inv g) (hex : ∃ p, (g.get p).Fixed = false) :
    ∃ g1 r, g.Solve = .ok (g1, r) ∧ g1.FixedNodes = g.FixedNodes ∧
      (r = false → g1 = g) ∧ (r = true → Solved g1 ∧ Extends g g1) ∧
      (∀ A, NoClash A → Compat A g → r = true) :=
  solveDepth_spec 82 g hi (by omega) hex

/-- When `Solve` returns `true` after a successful `Set`, the grid is solved,
the fixed nodes are kept and the counter is the one before the call. -/
theorem solve_true_spec (g g1 : Grid) (hi : Inv g) (hsolve : g.Solve = .ok (g1, true)) :
    Solved g1 ∧ Extends g g1 ∧ g1.FixedNodes = g.FixedNodes ∧
      ∃ p, (g.get p).Fixed = false := by
  have hex : ∃ p, (g.get p).Fixed = false := by
    by_contra hne
    apply solve_all_fixed_not_true g g1 _ hsolve
    intro p
    by_contra hp
    exact hne ⟨p, by simpa using hp⟩
  obtain ⟨g2, r, he, hfn, _, ht, _⟩ := solve_spec g hi hex
  rw [hsolve] at he
  simp only [Except.ok.injEq, Prod.mk.injEq] at he
  obtain ⟨rfl, rfl⟩ := he
  obtain ⟨a, b⟩ := ht rfl
  exact ⟨a, b, hfn, hex⟩

/-! ### Strings with a solution -/

theorem assignOf_cellAt (t : List Nat) (i : Nat) (hi : i < 81) :
    assignOf t (cellAt i) = (t.getD i 0 : Int) - 48 := by
  simp only [assignOf, cellAt]
  rw [show 9 * (i / 9 % 9) + i % 9 = i by omega]

theorem noClash_assignOf (t : List Nat) (hv : ValidSudoku t) : NoClash (assignOf t) := by
  obtain ⟨_, hdist⟩ := distinct_of_valid t hv
  intro p q hpq heq
  have hp := cellAt_index p
  have hq := cellAt_index q
  have h1 := p.1.isLt
  have h2 := p.2.isLt
  have h3 := q.1.isLt
  have h4 := q.2.isLt
  rw [← hp, ← hq] at hpq
  have := hdist _ _ (by omega) (by omega) hpq
  simp only [assignOf] at heq
  omega

theorem compat_assignOf_newGrid (t : List Nat) (hv : ValidSudoku t) :
    Compat (assignOf t) NewGrid := by
  obtain ⟨hdig, _⟩ := distinct_of_valid t hv
  intro p
  rw [get_NewGrid]
  apply digit_mem
  have h1 := p.1.isLt
  have h2 := p.2.isLt
  have := hdig (9 * p.2.val + p.1.val) (by omega)
  simp only [assignOf]
  omega

/-- `Set` accepts a string of accepted bytes whose presets occur in some valid
grid, and that grid stays possible. -/
theorem set_accepts (s t : List Nat) (hlen : s.length = 81)
    (hacc : ∀ c ∈ s, isBlank c ∨ isDigit c) (hv : ValidSudoku t) (ha : Agrees t s) :
    ∃ g, NewGrid.Set s = .ok (g, true, none) ∧ Compat (assignOf t) g := by
  obtain ⟨g, he, hc⟩ := setFrom_compat (assignOf t) (noClash_assignOf t hv) s 0 NewGrid
    (by omega) (compat_assignOf_newGrid t hv) (by
      intro k c hk
      obtain ⟨hk81, hkc⟩ := List.getElem?_eq_some_iff.1 hk
      have hmem : c ∈ s := hkc ▸ List.getElem_mem hk81
      rcases hacc c hmem with hb | hd
      · exact Or.inl hb
      · right
        refine ⟨hd, ?_⟩
        have hgd : s.getD k 0 = c := by rw [List.getD_eq_getElem _ _ hk81, hkc]
        have hag := ha k (by omega) (by rw [hgd]; exact hd)
        rw [Nat.zero_add, assignOf_cellAt t k (by omega), hag, hgd]
        unfold isDigit at hd
        unfold digitOf
        omega)
  refine ⟨g, ?_, hc⟩
  simp only [Grid.Set, hlen, ne_eq, not_true_eq_false, if_false]
  exact he

/-- The loop of `Set` returns on every grid, and never with the invalid
length. -/
theorem setFrom_total (cs : List Nat) :
    ∀ (i : Nat) (g : Grid), i + cs.length ≤ 81 →
      ∃ g1 ok err, Grid.setFrom cs i g = .ok (g1, ok, err) ∧ err ≠ some .invalidLength := by
  induction cs with
  | nil => intro i g _; exact ⟨g, true, none, rfl, by simp⟩
  | cons c cs ih =>
    intro i g hlen
    simp only [List.length_cons] at hlen
    by_cases hb : c = 48 ∨ c = 32 ∨ c = 95
    · obtain ⟨g1, ok, err, he, h⟩ := ih (i + 1) g (by omega)
      exact ⟨g1, ok, err, by simp only [Grid.setFrom, hb, if_true]; exact he, h⟩
    · by_cases hd : 49 ≤ c ∧ c ≤ 57
      · obtain ⟨g0, b, he0, _⟩ := fixNode_spec g (cellAt i) (digitOf c)
        have hfix : g.Fix (i % 9) (i / 9) (((c - 49 : Nat) : Int) + 1) = .ok (g0, b) := by
          rw [fix_cellAt g i (by omega)]; exact he0
        by_cases hbt : b = true
        · obtain ⟨g1, ok, err, he, h⟩ := ih (i + 1) g0 (by omega)
          refine ⟨g1, ok, err, ?_, h⟩
          simp only [Grid.setFrom, hb, if_false, hd, and_self, if_true, hfix, hbt,
            Bool.not_true, Bool.false_eq_true]
          exact he
        · have hbf : b = false := by simpa using hbt
          refine ⟨g0, false, some .invalidGrid, ?_, by simp⟩
          simp only [Grid.setFrom, hb, if_false, hd, and_self, if_true, hfix, hbf,
            Bool.not_false]
      · refine ⟨g, false, some (.invalidChar c), ?_, by simp⟩
        simp only [Grid.setFrom, hb, if_false, hd]

/-! ## The puzzle of `TestSolve` -/

theorem testPuzzle_length : testPuzzle.length = 81 := by decide

theorem testPuzzle_accepted : ∀ c ∈ testPuzzle, isBlank c ∨ isDigit c := by decide

theorem testPuzzle_unset : ∃ c ∈ testPuzzle, isBlank c := ⟨95, by decide, by decide⟩

theorem testSolution_valid : ValidSudoku testSolution := by decide!

theorem testSolution_agrees : Agrees testSolution testPuzzle := by decide!

theorem unfixed_of_unset (s : List Nat) (g : Grid) (hlen : s.length = 81)
    (hset : NewGrid.Set s = .ok (g, true, none)) (hunset : ∃ c ∈ s, isBlank c) :
    ∃ p, (g.get p).Fixed = false := by
  obtain ⟨_, hcells, _⟩ := set_ok_spec s g hlen hset
  obtain ⟨c, hc, hb⟩ := hunset
  obtain ⟨i, hi, hic⟩ := List.getElem_of_mem hc
  have hgd : s.getD i 0 = c := by rw [List.getD_eq_getElem _ _ hi, hic]
  rcases hcells i (by omega) with ⟨hd, _⟩ | ⟨_, hf⟩
  · rw [hgd] at hd
    exact absurd hd (not_digit_of_blank hb)
  · exact ⟨cellAt i, hf⟩

/-- `Set` accepts the puzzle of `TestSolve` and `Solve` then returns `true`:
the expected solution is a valid grid that carries its presets. -/
theorem testPuzzle_solves :
    ∃ g g1, NewGrid.Set testPuzzle = .ok (g, true, none) ∧ g.Solve = .ok (g1, true) := by
  obtain ⟨g, hset, hc⟩ := set_accepts testPuzzle testSolution testPuzzle_length
    testPuzzle_accepted testSolution_valid testSolution_agrees
  obtain ⟨hi, _, _⟩ := set_ok_spec testPuzzle g testPuzzle_length hset
  obtain ⟨g1, r, he, _, _, _, hcomp⟩ := solve_spec g hi
    (unfixed_of_unset testPuzzle g testPuzzle_length hset testPuzzle_unset)
  have hr := hcomp _ (noClash_assignOf testSolution testSolution_valid) hc
  subst hr
  exact ⟨g, g1, hset, he⟩

/-! ## The claims -/

/-- C1. For every 81-byte string `s` that `Set` accepts on a new grid: when the
following `Solve` returns `true`, `String` returns 81 bytes, all of them digits
`'1'..'9'`, and in the grid they encode in row-major order every row, every
column and every box contains each digit exactly once. -/
theorem solve_result_is_valid_grid (s : List Nat) (g g1 : Grid) (hlen : s.length = 81)
    (hset : NewGrid.Set s = .ok (g, true, none)) (hsolve : g.Solve = .ok (g1, true)) :
    ∃ str, g1.String = .ok str ∧ str.length = 81 ∧ (∀ c ∈ str, isDigit c) ∧
      ValidSudoku str := by
  obtain ⟨hi, _, _⟩ := set_ok_spec s g hlen hset
  obtain ⟨hs, _, _, _⟩ := solve_true_spec g g1 hi hsolve
  obtain ⟨hstr, hvalid⟩ := solved_string g1 hs
  refine ⟨_, hstr, by simp, ?_, hvalid⟩
  intro c hc
  obtain ⟨i, _, rfl⟩ := List.mem_map.1 hc
  exact (solved_bytes g1 hs).1 _

/-- The puzzle of `TestSolve` is an instance of C1. -/
theorem solve_result_is_valid_grid_witness :
    ∃ g g1, NewGrid.Set testPuzzle = .ok (g, true, none) ∧ g.Solve = .ok (g1, true) ∧
      ∃ str, g1.String = .ok str ∧ str.length = 81 ∧ (∀ c ∈ str, isDigit c) ∧
        ValidSudoku str := by
  obtain ⟨g, g1, hset, hsolve⟩ := testPuzzle_solves
  exact ⟨g, g1, hset, hsolve,
    solve_result_is_valid_grid testPuzzle g g1 testPuzzle_length hset hsolve⟩

/-- C2. For every 81-byte string `s` over the accepted bytes with at least one
unset cell that `Set` accepts on a new grid: `Solve` returns, and it returns
`true` if and only if some complete valid grid carries the preset digits of `s`
at their places. -/
theorem solve_true_iff_solvable (s : List Nat) (g : Grid) (hlen : s.length = 81)
    (hacc : ∀ c ∈ s, isBlank c ∨ isDigit c) (hunset : ∃ c ∈ s, isBlank c)
    (hset : NewGrid.Set s = .ok (g, true, none)) :
    ∃ g1 r, g.Solve = .ok (g1, r) ∧ (r = true ↔ ∃ t, ValidSudoku t ∧ Agrees t s) := by
  obtain ⟨hi, hcells, _⟩ := set_ok_spec s g hlen hset
  obtain ⟨g1, r, he, _, _, ht, hcomp⟩ := solve_spec g hi (unfixed_of_unset s g hlen hset hunset)
  refine ⟨g1, r, he, ?_, ?_⟩
  · intro hr
    obtain ⟨hs, hext⟩ := ht hr
    obtain ⟨_, hvalid⟩ := solved_string g1 hs
    refine ⟨_, hvalid, ?_⟩
    intro i hi81 hd
    rw [List.getD_eq_getElem _ _ (by simpa using hi81)]
    simp only [List.getElem_map, List.getElem_range]
    rcases hcells i hi81 with ⟨hd1, hnode⟩ | ⟨hb, _⟩
    · have hkeep := hext.keep (cellAt i) (by rw [hnode])
      rw [hnode] at hkeep
      exact byteAt_preset g1 _ _ hd1 hkeep
    · exact absurd hd (not_digit_of_blank hb)
  · rintro ⟨t, hv, ha⟩
    obtain ⟨g2, hset2, hc⟩ := set_accepts s t hlen hacc hv ha
    rw [hset] at hset2
    simp only [Except.ok.injEq, Prod.mk.injEq, and_true] at hset2
    subst hset2
    exact hcomp _ (noClash_assignOf t hv) hc

/-- The puzzle of `TestSolve` is an instance of C2, and `Solve` returns `true`
on it. -/
theorem solve_true_iff_solvable_witness :
    ∃ g, NewGrid.Set testPuzzle = .ok (g, true, none) ∧
      (∃ g1, g.Solve = .ok (g1, true)) ∧
      ∃ g1 r, g.Solve = .ok (g1, r) ∧
        (r = true ↔ ∃ t, ValidSudoku t ∧ Agrees t testPuzzle) := by
  obtain ⟨g, g1, hset, hsolve⟩ := testPuzzle_solves
  exact ⟨g, hset, ⟨g1, hsolve⟩, solve_true_iff_solvable testPuzzle g testPuzzle_length
    testPuzzle_accepted testPuzzle_unset hset⟩

theorem testSolution_length : testSolution.length = 81 := by decide

theorem testSolution_digits : ∀ c ∈ testSolution, isDigit c := by decide

theorem agrees_self (t : List Nat) : Agrees t t := fun _ _ _ => rfl

theorem all_fixed_of_digits (s : List Nat) (g : Grid) (hlen : s.length = 81)
    (hset : NewGrid.Set s = .ok (g, true, none)) (hd : ∀ c ∈ s, isDigit c) :
    ∀ p, (g.get p).Fixed = true := by
  obtain ⟨_, hcells, _⟩ := set_ok_spec s g hlen hset
  intro p
  have h1 := p.1.isLt
  have h2 := p.2.isLt
  rcases hcells (9 * p.2.val + p.1.val) (by omega) with ⟨_, hn⟩ | ⟨hb, _⟩
  · rw [cellAt_index] at hn
    rw [hn]
  · exfalso
    apply not_digit_of_blank hb
    apply hd
    rw [List.getD_eq_getElem _ _ (by omega)]
    exact List.getElem_mem _

/-- C3 (the code does otherwise). `Set` accepts the 81 digits of the solution
of `TestSolve` and fixes all 81 nodes; `Solve` on that grid does not return
`false`: its scan ends with `x = y = 9` and `n` on the last node, and
`Fix(9, 9, i)` indexes the node array out of range. -/
theorem solve_complete_grid_panics :
    ∃ g, NewGrid.Set testSolution = .ok (g, true, none) ∧
      (∀ p, (g.get p).Fixed = true) ∧ g.Solve = .error .indexOutOfRange := by
  obtain ⟨g, hset, _⟩ := set_accepts testSolution testSolution testSolution_length
    (fun c hc => Or.inr (testSolution_digits c hc)) testSolution_valid (agrees_self _)
  have hall := all_fixed_of_digits testSolution g testSolution_length hset testSolution_digits
  obtain ⟨hi, _, _⟩ := set_ok_spec testSolution g testSolution_length hset
  refine ⟨g, hset, hall, (solve_all_fixed g hall).1 ?_⟩
  obtain ⟨v, hv⟩ := hi.single (8, 8) (hall _)
  have hmem : v ∈ (g.get (8, 8)).Vals := by rw [hv]; exact List.mem_singleton_self v
  exact ⟨v, digit_mem v (hi.digits _ v hmem), (node_has_iff _ _).2 hmem⟩

theorem blanked_eq (s : List Nat) (hlen : s.length = 81) :
    blanked s = (List.range 81).map (fun i => if isBlank (s.getD i 0) then 95 else s.getD i 0) := by
  unfold blanked
  conv_lhs => rw [list_eq_map_range s hlen]
  rw [List.map_map]
  rfl

/-- C4. For every 81-byte string `s` that `Set` accepts on a new grid, `String`
returns `s` with every `'0'` and `' '` replaced by `'_'`, and `s` itself when
`s` consists of 81 digits. The byte at index `i` stands for the cell of column
`i % 9`, row `i / 9`: the node of a preset digit is fixed to it, the node of an
unset cell is not fixed. -/
theorem set_string_round_trip (s : List Nat) (g : Grid) (hlen : s.length = 81)
    (hset : NewGrid.Set s = .ok (g, true, none)) :
    g.String = .ok (blanked s) ∧ ((∀ c ∈ s, isDigit c) → g.String = .ok s) ∧
      ∀ i, i < 81 →
        (isDigit (s.getD i 0) →
          g.get (cellAt i) = { Vals := [digitOf (s.getD i 0)], Fixed := true }) ∧
        (isBlank (s.getD i 0) → (g.get (cellAt i)).Fixed = false) := by
  obtain ⟨hi, hcells, _⟩ := set_ok_spec s g hlen hset
  have hstr : g.String = .ok (blanked s) := by
    rw [string_spec g (fun p hp => by
      obtain ⟨v, hv⟩ := hi.single p hp
      exact ⟨v, hv, hi.digits p v (by rw [hv]; exact List.mem_singleton_self v)⟩),
      blanked_eq s hlen]
    congr 1
    apply List.map_congr_left
    intro i hi81
    rcases hcells i (List.mem_range.1 hi81) with ⟨hd, hn⟩ | ⟨hb, hf⟩
    · rw [if_neg (fun hb => not_digit_of_blank hb hd)]
      exact byteAt_preset g _ _ hd hn
    · rw [if_pos hb]
      exact byteAt_unfixed g _ hf
  refine ⟨hstr, fun hd => ?_, fun i hi81 => ?_⟩
  · rw [hstr]
    congr 1
    unfold blanked
    conv_rhs => rw [← List.map_id s]
    apply List.map_congr_left
    intro c hc
    rw [if_neg (fun hb => not_digit_of_blank hb (hd c hc))]
    rfl
  · rcases hcells i hi81 with ⟨hd, hn⟩ | ⟨hb, hf⟩
    · exact ⟨fun _ => hn, fun hb => absurd hd (not_digit_of_blank hb)⟩
    · exact ⟨fun hd => absurd hd (not_digit_of_blank hb), fun _ => hf⟩

/-- The puzzle of `TestSolve` is an instance of C4. -/
theorem set_string_round_trip_witness :
    ∃ g, NewGrid.Set testPuzzle = .ok (g, true, none) ∧
      g.String = .ok (blanked testPuzzle) := by
  obtain ⟨g, _, hset, _⟩ := testPuzzle_solves
  exact ⟨g, hset, (set_string_round_trip testPuzzle g testPuzzle_length hset).1⟩

theorem set_rejects_peers (s : List Nat) (hlen : s.length = 81)
    (hacc : ∀ c ∈ s, isBlank c ∨ isDigit c) (i j : Nat) (hi : i < 81) (hj : j < 81)
    (hdi : isDigit (s.getD i 0)) (heq : s.getD i 0 = s.getD j 0)
    (hpeer : Peer (cellAt i) (cellAt j)) :
    ∃ g1, NewGrid.Set s = .ok (g1, false, some .invalidGrid) := by
  obtain ⟨g1, ok, err, he, h1, h2⟩ := set_spec s hlen
  by_cases hok : ok = true
  · exfalso
    obtain ⟨_, hinv, hcells, _⟩ := h1 hok
    have hdj : isDigit (s.getD j 0) := heq ▸ hdi
    rcases hcells i hi with ⟨_, hni⟩ | ⟨hb, _⟩
    · rcases hcells j hj with ⟨_, hnj⟩ | ⟨hb, _⟩
      · apply hinv.distinct _ _ hpeer (by rw [hni]) (by rw [hnj])
        rw [hni, hnj, heq]
      · exact not_digit_of_blank hb hdj
    · exact not_digit_of_blank hb hdi
  · have hok' : ok = false := by simpa using hok
    subst hok'
    rcases h2 rfl with h | ⟨c, hc, hnb, hnd, _⟩
    · exact ⟨g1, by rw [he, h]⟩
    · rcases hacc c hc with hb | hd
      · exact absurd hb hnb
      · exact absurd hd hnd

/-- C5. For every 81-byte string `s` over the accepted bytes in which one
digit is preset at two different indices `i` and `j` of one row, one column or
one box, `Set` on a new grid returns `false` with the invalid grid error. -/
theorem set_rejects_repeated_digit (s : List Nat) (hlen : s.length = 81)
    (hacc : ∀ c ∈ s, isBlank c ∨ isDigit c) (i j : Nat) (hi : i < 81) (hj : j < 81)
    (hij : i ≠ j) (hdi : isDigit (s.getD i 0)) (heq : s.getD i 0 = s.getD j 0)
    (hgroup : i / 9 = j / 9 ∨ i % 9 = j % 9 ∨ (i / 9 / 3 = j / 9 / 3 ∧ i % 9 / 3 = j % 9 / 3)) :
    ∃ g1, NewGrid.Set s = .ok (g1, false, some .invalidGrid) := by
  apply set_rejects_peers s hlen hacc i j hi hj hdi heq
  rw [peer_cellAt_iff]
  omega

/-- The digit 1 twice in the first row is an instance of C5. -/
theorem set_rejects_repeated_digit_witness :
    repeatedDigit.length = 81 ∧ (∀ c ∈ repeatedDigit, isBlank c ∨ isDigit c) ∧
      isDigit (repeatedDigit.getD 0 0) ∧ repeatedDigit.getD 0 0 = repeatedDigit.getD 1 0 ∧
      ∃ g1, NewGrid.Set repeatedDigit = .ok (g1, false, some .invalidGrid) :=
  ⟨by decide, by decide, by decide, by decide,
    set_rejects_repeated_digit repeatedDigit (by decide) (by decide) 0 1 (by decide)
      (by decide) (by decide) (by decide) (by decide) (by decide)⟩

/-! ### `Set` up to the first byte it does not accept -/

theorem setFrom_append (pre rest : List Nat) :
    ∀ (i : Nat) (g : Grid), Grid.setFrom (pre ++ rest) i g =
      match Grid.setFrom pre i g with
      | .ok (g1, true, _) => Grid.setFrom rest (i + pre.length) g1
      | r => r := by
  induction pre with
  | nil => intro i g; rfl
  | cons c pre ih =>
    intro i g
    simp only [List.cons_append, Grid.setFrom, List.length_cons]
    split
    · rw [show i + (pre.length + 1) = i + 1 + pre.length by omega]
      exact ih (i + 1) g
    · split
      · split
        · rfl
        · next g1 ok _ =>
          cases ok with
          | false => rfl
          | true =>
            simp only [Bool.not_true, Bool.false_eq_true, if_false]
            rw [show i + (pre.length + 1) = i + 1 + pre.length by omega]
            exact ih (i + 1) g1
      · rfl

theorem setFrom_blanks (n : Nat) : ∀ (i : Nat) (g : Grid),
    Grid.setFrom (List.replicate n 95) i g = .ok (g, true, none) := by
  induction n with
  | zero => intro i g; rfl
  | succ n ih =>
    intro i g
    simp only [List.replicate_succ, Grid.setFrom, or_true, if_true]
    exact ih _ _

theorem setFrom_accepted (cs : List Nat) (hacc : ∀ c ∈ cs, isBlank c ∨ isDigit c) :
    ∀ (i : Nat) (g : Grid), i + cs.length ≤ 81 →
      (∃ g1, Grid.setFrom cs i g = .ok (g1, true, none)) ∨
      (∃ g1, Grid.setFrom cs i g = .ok (g1, false, some .invalidGrid)) := by
  induction cs with
  | nil => intro i g _; exact Or.inl ⟨g, rfl⟩
  | cons c cs ih =>
    intro i g hlen
    simp only [List.length_cons] at hlen
    have ih1 := ih (fun b hb => hacc b (List.mem_cons_of_mem _ hb))
    rcases hacc c (List.mem_cons_self _ _) with hb | hd
    · have hb' : c = 48 ∨ c = 32 ∨ c = 95 := hb
      simp only [Grid.setFrom, hb', if_true]
      exact ih1 (i + 1) g (by omega)
    · have hd' : 49 ≤ c ∧ c ≤ 57 := hd
      have hb' : ¬ (c = 48 ∨ c = 32 ∨ c = 95) := by omega
      obtain ⟨g0, b, he0, _⟩ := fixNode_spec g (cellAt i) (digitOf c)
      have hfix : g.Fix (i % 9) (i / 9) (((c - 49 : Nat) : Int) + 1) = .ok (g0, b) := by
        rw [fix_cellAt g i (by omega)]; exact he0
      simp only [Grid.setFrom, hb', if_false, hd', and_self, if_true, hfix]
      cases b with
      | false => exact Or.inr ⟨g0, rfl⟩
      | true =>
        simp only [Bool.not_true, Bool.false_eq_true, if_false]
        exact ih1 (i + 1) g0 (by omega)

/-- C6 (counterexample). The string `11x___...` has 81 bytes and contains the
byte `x`, yet `Set` fails with the invalid grid error: the second `1` is
rejected before the loop reaches the `x`. -/
theorem set_invalid_char_counterexample :
    repeatedDigitThenLetter.length = 81 ∧
      (∃ c ∈ repeatedDigitThenLetter, ¬ isBlank c ∧ ¬ isDigit c) ∧
      ∃ g, NewGrid.Set repeatedDigitThenLetter = .ok (g, false, some .invalidGrid) := by
  refine ⟨by decide, ⟨120, by decide, by decide, by decide⟩, ?_⟩
  have h : isInvalidGrid (NewGrid.Set repeatedDigitThenLetter) = true := by decide!
  unfold isInvalidGrid at h
  split at h
  · next g heq => exact ⟨g, heq⟩
  · exact absurd h (by simp)

/-- C6 (amended). Let `c` be the first byte of an 81-byte string that `Set`
does not accept. `Set` on a new grid fails: with the invalid character error
for `c` when `Set` accepts the string in which `c` and all bytes after it are
replaced by `'_'`, and with the invalid grid error otherwise. -/
theorem set_invalid_char_error (pre post : List Nat) (c : Nat)
    (hlen : (pre ++ c :: post).length = 81) (hpre : ∀ b ∈ pre, isBlank b ∨ isDigit b)
    (hc : ¬ isBlank c ∧ ¬ isDigit c) :
    (∀ g, NewGrid.Set (pre ++ List.replicate (post.length + 1) 95) = .ok (g, true, none) →
      NewGrid.Set (pre ++ c :: post) = .ok (g, false, some (.invalidChar c))) ∧
    ((∀ g, NewGrid.Set (pre ++ List.replicate (post.length + 1) 95) ≠ .ok (g, true, none)) →
      ∃ g, NewGrid.Set (pre ++ c :: post) = .ok (g, false, some .invalidGrid)) := by
  have hlen1 : pre.length + (post.length + 1) = 81 := by
    simpa [List.length_append] using hlen
  have hlen2 : (pre ++ List.replicate (post.length + 1) 95).length = 81 := by
    simp [List.length_append]; omega
  have hset1 : NewGrid.Set (pre ++ c :: post) = Grid.setFrom (pre ++ c :: post) 0 NewGrid := by
    simp only [Grid.Set, hlen, ne_eq, not_true_eq_false, if_false]
  have hset2 : NewGrid.Set (pre ++ List.replicate (post.length + 1) 95) =
      Grid.setFrom (pre ++ List.replicate (post.length + 1) 95) 0 NewGrid := by
    simp only [Grid.Set, hlen2, ne_eq, not_true_eq_false, if_false]
  have hcb : ¬ (c = 48 ∨ c = 32 ∨ c = 95) := hc.1
  have hcd : ¬ (49 ≤ c ∧ c ≤ 57) := hc.2
  have hstop : ∀ (i : Nat) (g : Grid),
      Grid.setFrom (c :: post) i g = .ok (g, false, some (.invalidChar c)) := by
    intro i g
    simp only [Grid.setFrom, hcb, if_false, hcd]
  rw [hset1, hset2, setFrom_append, setFrom_append]
  rcases setFrom_accepted pre hpre 0 NewGrid (by omega) with ⟨g1, h1⟩ | ⟨g1, h1⟩
  · rw [h1]
    simp only [setFrom_blanks, hstop]
    refine ⟨?_, ?_⟩
    · intro g hg
      simp only [Except.ok.injEq, Prod.mk.injEq, and_true] at hg
      rw [hg]
    · intro hne
      exact absurd rfl (hne g1)
  · rw [h1]
    simp only
    exact ⟨fun g hg => by simp at hg, fun _ => ⟨g1, rfl⟩⟩

/-- A string whose first byte is a letter is an instance of the amended C6:
`Set` fails with the invalid character error for the letter. -/
theorem set_invalid_char_error_witness :
    (([] : List Nat) ++ 120 :: List.replicate 80 95).length = 81 ∧
      (¬ isBlank 120 ∧ ¬ isDigit 120) ∧
      NewGrid.Set ([] ++ List.replicate ((List.replicate 80 95).length + 1) 95) =
        .ok (NewGrid, true, none) ∧
      NewGrid.Set ([] ++ 120 :: List.replicate 80 95) =
        .ok (NewGrid, false, some (.invalidChar 120)) := by
  have h := set_invalid_char_error [] (List.replicate 80 95) 120 (by decide) (by simp)
    ⟨by decide, by decide⟩
  have hb : NewGrid.Set ([] ++ List.replicate ((List.replicate 80 95).length + 1) 95) =
      .ok (NewGrid, true, none) := by
    simp only [List.nil_append, Grid.Set, List.length_replicate, ne_eq, not_true_eq_false,
      if_false]
    exact setFrom_blanks _ _ _
  exact ⟨by decide, ⟨by decide, by decide⟩, hb, h.1 NewGrid hb⟩

/-- C7. For every grid and every string, `Set` returns, and it returns the
invalid length error if and only if the string does not have 81 bytes. -/
theorem set_invalid_length_iff (g : Grid) (s : List Nat) :
    ∃ g1 ok err, g.Set s = .ok (g1, ok, err) ∧
      (err = some .invalidLength ↔ s.length ≠ 81) := by
  by_cases hlen : s.length = 81
  · obtain ⟨g1, ok, err, he, hne⟩ := setFrom_total s 0 g (by omega)
    refine ⟨g1, ok, err, ?_, ?_⟩
    · simp only [Grid.Set, hlen, ne_eq, not_true_eq_false, if_false]
      exact he
    · constructor
      · intro h; exact absurd h hne
      · intro h; exact absurd hlen h
  · have hlen' : s.length ≠ 9 * 9 := hlen
    exact ⟨g, false, some .invalidLength, by rw [Grid.Set, if_pos hlen'],
      fun _ => hlen, fun _ => rfl⟩

/-- C8 (counterexample). `Set` of `11___...` on a new grid fails with the
invalid grid error and leaves a grid that differs from the new grid: the node
of the first `1` stays fixed and counted. -/
theorem set_not_atomic_counterexample :
    ∃ g, NewGrid.Set repeatedDigit = .ok (g, false, some .invalidGrid) ∧
      g.FixedNodes = 1 ∧ (g.get (0, 0)).Fixed = true ∧
      NewGrid.FixedNodes = 0 ∧ (NewGrid.get (0, 0)).Fixed = false := by
  have h : leftOneFixed (NewGrid.Set repeatedDigit) = true := by decide!
  unfold leftOneFixed at h
  split at h
  · next g heq =>
    simp only [Bool.and_eq_true, beq_iff_eq] at h
    exact ⟨g, heq, h.1, h.2, rfl, rfl⟩
  · exact absurd h (by simp)

/-- C8 (amended). `Set` is atomic when it fails with the invalid length error:
for every grid and string, the grid it leaves is the grid it was called on. -/
theorem set_atomic_on_invalid_length (g : Grid) (s : List Nat) (g1 : Grid) (ok : Bool)
    (h : g.Set s = .ok (g1, ok, some .invalidLength)) : g1 = g ∧ ok = false := by
  by_cases hlen : s.length = 81
  · obtain ⟨g2, ok2, err, he, hne⟩ := setFrom_total s 0 g (by omega)
    simp only [Grid.Set, hlen, ne_eq, not_true_eq_false, if_false] at h
    rw [he] at h
    simp only [Except.ok.injEq, Prod.mk.injEq] at h
    exact absurd h.2.2 hne
  · have hlen' : s.length ≠ 9 * 9 := hlen
    rw [Grid.Set, if_pos hlen'] at h
    simp only [Except.ok.injEq, Prod.mk.injEq, and_true] at h
    exact ⟨h.1.symm, h.2.symm⟩

/-- The empty string is an instance of the amended C8. -/
theorem set_atomic_on_invalid_length_witness :
    NewGrid.Set [] = .ok (NewGrid, false, some .invalidLength) ∧
      (NewGrid = NewGrid ∧ false = false) :=
  ⟨rfl, set_atomic_on_invalid_length NewGrid [] NewGrid false rfl⟩

/-- C9 (the code does otherwise). After `Solve` returned `true` on a grid that
`Set` produced from an 81-byte string, all 81 nodes are fixed, but the counter
`FixedNodes` is still the number of preset digits of the string, which is below
81, and `Complete` returns `false`. -/
theorem solve_leaves_counter_stale (s : List Nat) (g g1 : Grid) (hlen : s.length = 81)
    (hset : NewGrid.Set s = .ok (g, true, none)) (hsolve : g.Solve = .ok (g1, true)) :
    (∀ p, (g1.get p).Fixed = true) ∧ g1.fixedCount = 81 ∧
      g1.FixedNodes = s.countP (fun c => decide (isDigit c)) ∧ g1.FixedNodes < 81 ∧
      g1.Complete = false := by
  obtain ⟨hi, _, hcount⟩ := set_ok_spec s g hlen hset
  obtain ⟨hs, _, hfn, p, hp⟩ := solve_true_spec g g1 hi hsolve
  have hlt : g.fixedCount < 81 := by
    have := fixedCount_le g
    have hne : g.fixedCount ≠ 81 := by
      intro h81
      have := all_fixed_of_count h81 p
      rw [hp] at this
      exact absurd this (by simp)
    omega
  have hfn81 : g1.FixedNodes < 81 := by
    rw [hfn, hi.count]
    omega
  refine ⟨hs.fixed, count_of_all_fixed hs.fixed, by rw [hfn, hcount], hfn81, ?_⟩
  simp only [Grid.Complete, beq_eq_false_iff_ne, ne_eq]
  omega

/-- The puzzle of `TestSolve` is an instance of C9: after `Solve` returned
`true` the counter is 26. -/
theorem solve_leaves_counter_stale_witness :
    ∃ g g1, NewGrid.Set testPuzzle = .ok (g, true, none) ∧ g.Solve = .ok (g1, true) ∧
      (∀ p, (g1.get p).Fixed = true) ∧ g1.fixedCount = 81 ∧ g1.FixedNodes = 26 ∧
      g1.Complete = false := by
  obtain ⟨g, g1, hset, hsolve⟩ := testPuzzle_solves
  obtain ⟨a, b, c, _, e⟩ :=
    solve_leaves_counter_stale testPuzzle g g1 testPuzzle_length hset hsolve
  refine ⟨g, g1, hset, hsolve, a, b, ?_, e⟩
  rw [c]
  decide

/-- C10. For every 81-byte string `s` that `Set` accepts on a new grid, the
counter `FixedNodes` of the grid equals the number of nodes with
`Fixed = true`, both equal the number of bytes `'1'..'9'` of `s`, and the fixed
nodes are the nodes of those bytes: a node that propagation narrowed to one
candidate is not marked fixed. -/
theorem set_counter_counts_presets (s : List Nat) (g : Grid) (hlen : s.length = 81)
    (hset : NewGrid.Set s = .ok (g, true, none)) :
    g.FixedNodes = g.fixedCount ∧ g.fixedCount = s.countP (fun c => decide (isDigit c)) ∧
      ∀ i, i < 81 → ((g.get (cellAt i)).Fixed = true ↔ isDigit (s.getD i 0)) := by
  obtain ⟨hi, hcells, hcount⟩ := set_ok_spec s g hlen hset
  refine ⟨hi.count, ?_, ?_⟩
  · have := hi.count
    omega
  · intro i hi81
    rcases hcells i hi81 with ⟨hd, hn⟩ | ⟨hb, hf⟩
    · exact ⟨fun _ => hd, fun _ => by rw [hn]⟩
    · constructor
      · intro h; rw [hf] at h; exact absurd h (by simp)
      · intro h; exact absurd h (not_digit_of_blank hb)

/-- The puzzle of `TestSolve` is an instance of C10: 26 nodes are fixed. -/
theorem set_counter_counts_presets_witness :
    ∃ g, NewGrid.Set testPuzzle = .ok (g, true, none) ∧ g.FixedNodes = 26 ∧
      g.fixedCount = 26 ∧
      ∀ i, i < 81 → ((g.get (cellAt i)).Fixed = true ↔ isDigit (testPuzzle.getD i 0)) := by
  obtain ⟨g, _, hset, _⟩ := testPuzzle_solves
  obtain ⟨a, b, c⟩ := set_counter_counts_presets testPuzzle g testPuzzle_length hset
  have h26 : testPuzzle.countP (fun c => decide (isDigit c)) = 26 := by decide
  exact ⟨g, hset, by rw [a, b, h26]; rfl, by rw [b, h26], c⟩

/-! ## Well-formed grids -/

theorem wellFormed_of_inv {g : Grid} (h : Inv g) : WellFormed g :=
  ⟨h.digits, h.single⟩

theorem wellFormed_newGrid : WellFormed NewGrid :=
  wellFormed_of_inv inv_newGrid

theorem wellFormed_shrinks {g g1 : Grid} (hs : Shrinks g g1) (h : WellFormed g) :
    WellFormed g1 where
  digits p v hv := h.digits p v (hs.sub p v hv)
  single p hp := by
    have hf : (g.get p).Fixed = true := by rw [← hs.fixed p]; exact hp
    rw [hs.keep p hf]
    exact h.single p hf

theorem wellFormed_setFix {g : Grid} (h : WellFormed g) (n : Cell) (val : Int)
    (hv : val ∈ (g.get n).Vals) : WellFormed (g.setNode n ((g.get n).Fix val)) where
  digits p v hv1 := by
    rw [get_setNode] at hv1
    split at hv1
    · simp only [Node.Fix, List.mem_singleton] at hv1
      rw [hv1]
      exact h.digits n val hv
    · exact h.digits p v hv1
  single p hp := by
    rw [get_setNode] at hp ⊢
    split
    · exact ⟨val, rfl⟩
    · next hne =>
      rw [if_neg hne] at hp
      exact h.single p hp

theorem wellFormed_incFixedNodes {g : Grid} (h : WellFormed g) : WellFormed g.incFixedNodes :=
  ⟨h.digits, h.single⟩

theorem wellFormed_withNodesOf {g ng : Grid} (h : WellFormed ng) :
    WellFormed (g.withNodesOf ng) :=
  ⟨h.digits, h.single⟩

/-- `FixNode` returns on every grid. Either it leaves the grid as it is, or
`val` was a candidate, the node has been fixed to it and after that only
candidates of nodes that are not fixed have been removed, with or without the
final `FixedNodes++`. -/
theorem fixNode_cases (g : Grid) (n : Cell) (val : Int) :
    ∃ g1 ok, g.FixNode n val = .ok (g1, ok) ∧
      (g1 = g ∨ (val ∈ (g.get n).Vals ∧
        ∃ g2, Shrinks (g.setNode n ((g.get n).Fix val)) g2 ∧
          (g1 = g2 ∨ g1 = g2.incFixedNodes))) := by
  by_cases hv : (g.get n).has val = true
  · obtain ⟨g2, inval, he, hs, _⟩ :=
      reduceLoop_spec ((g.setNode n ((g.get n).Fix val)).size + 1)
        (g.setNode n ((g.get n).Fix val)) (Nat.lt_succ_self _)
    have hmem := (node_has_iff _ _).1 hv
    by_cases hinv : inval = true
    · refine ⟨g2, false, ?_, Or.inr ⟨hmem, g2, hs, Or.inl rfl⟩⟩
      simp only [Grid.FixNode, hv, Bool.not_true, Bool.false_eq_true, if_false, he, hinv, if_true]
    · refine ⟨g2.incFixedNodes, true, ?_, Or.inr ⟨hmem, g2, hs, Or.inr rfl⟩⟩
      simp only [Grid.FixNode, hv, Bool.not_true, Bool.false_eq_true, if_false, he, hinv]
  · have hv' : (g.get n).has val = false := by simpa using hv
    refine ⟨g, false, ?_, Or.inl rfl⟩
    simp only [Grid.FixNode, hv', Bool.not_false, if_true]

theorem wellFormed_fixNode {g g1 : Grid} {n : Cell} {val : Int} {ok : Bool}
    (h : WellFormed g) (he : g.FixNode n val = .ok (g1, ok)) : WellFormed g1 := by
  obtain ⟨g1', ok', he', hc⟩ := fixNode_cases g n val
  rw [he] at he'
  simp only [Except.ok.injEq, Prod.mk.injEq] at he'
  obtain ⟨rfl, rfl⟩ := he'
  rcases hc with rfl | ⟨hv, g2, hs, rfl | rfl⟩
  · exact h
  · exact wellFormed_shrinks hs (wellFormed_setFix h n val hv)
  · exact wellFormed_incFixedNodes (wellFormed_shrinks hs (wellFormed_setFix h n val hv))

theorem wellFormed_fix {g g1 : Grid} {x y : Nat} {val : Int} {ok : Bool}
    (h : WellFormed g) (he : g.Fix x y val = .ok (g1, ok)) : WellFormed g1 := by
  simp only [Grid.Fix] at he
  split at he
  · exact absurd he (by simp)
  · exact wellFormed_fixNode h he

theorem wellFormed_reduce {g g1 : Grid} {red inval : Bool}
    (h : WellFormed g) (he : g.Reduce = .ok (g1, red, inval)) : WellFormed g1 := by
  obtain ⟨g1', red', inval', he', hs, _⟩ := reduce_spec g
  rw [he] at he'
  simp only [Except.ok.injEq, Prod.mk.injEq] at he'
  obtain ⟨rfl, _, _⟩ := he'
  exact wellFormed_shrinks hs h

theorem wellFormed_fixNextFrom (cs : List Cell) {g g1 : Grid} {fixed inval : Bool}
    (h : WellFormed g) (he : Grid.fixNextFrom cs g = .ok (g1, fixed, inval)) :
    WellFormed g1 := by
  induction cs with
  | nil =>
    simp only [Grid.fixNextFrom, Except.ok.injEq, Prod.mk.injEq] at he
    rw [← he.1]
    exact h
  | cons n cs ih =>
    simp only [Grid.fixNextFrom] at he
    split at he
    · exact ih he
    · split at he
      · exact absurd he (by simp)
      · split at he
        · exact absurd he (by simp)
        · next g2 ok he2 =>
          simp only [Except.ok.injEq, Prod.mk.injEq] at he
          rw [← he.1]
          exact wellFormed_fixNode h he2

theorem wellFormed_setFrom (cs : List Nat) :
    ∀ (i : Nat) {g g1 : Grid} {ok : Bool} {err : Option SetError}, WellFormed g →
      Grid.setFrom cs i g = .ok (g1, ok, err) → WellFormed g1 := by
  induction cs with
  | nil =>
    intro i g g1 ok err h he
    simp only [Grid.setFrom, Except.ok.injEq, Prod.mk.injEq] at he
    rw [← he.1]
    exact h
  | cons c cs ih =>
    intro i g g1 ok err h he
    simp only [Grid.setFrom] at he
    split at he
    · exact ih (i + 1) h he
    · split at he
      · split at he
        · exact absurd he (by simp)
        · next g2 ok2 he2 =>
          have h2 := wellFormed_fix h he2
          split at he
          · simp only [Except.ok.injEq, Prod.mk.injEq] at he
            rw [← he.1]
            exact h2
          · exact ih (i + 1) h2 he
      · simp only [Except.ok.injEq, Prod.mk.injEq] at he
        rw [← he.1]
        exact h

theorem wellFormed_set {g g1 : Grid} {s : List Nat} {ok : Bool} {err : Option SetError}
    (h : WellFormed g) (he : g.Set s = .ok (g1, ok, err)) : WellFormed g1 := by
  simp only [Grid.Set] at he
  split at he
  · simp only [Except.ok.injEq, Prod.mk.injEq] at he
    rw [← he.1]
    exact h
  · exact wellFormed_setFrom s 0 h he

/-- A successful `FixNode` keeps a grid well-formed. -/
theorem wellFormed_fixedAt {g g1 : Grid} {n : Cell} {val : Int} (h : WellFormed g)
    (hf : FixedAt g g1 n val) : WellFormed g1 where
  digits p v hv := by
    by_cases hp : p = n
    · subst hp
      rw [hf.node] at hv
      simp only [List.mem_singleton] at hv
      rw [hv]
      exact h.digits p val hf.mem
    · exact h.digits p v (hf.sub p hp v hv)
  single p hpf := by
    by_cases hp : p = n
    · subst hp
      exact ⟨val, by rw [hf.node]⟩
    · rw [hf.fixed p hp] at hpf
      rw [hf.keep p hp hpf]
      exact h.single p hpf

/-! ## `Solve` on every grid -/

theorem wellFormed_fixNextLoop (fuel : Nat) :
    ∀ {g g1 : Grid} {inval : Bool}, WellFormed g →
      Grid.fixNextLoop fuel g = .ok (g1, inval) → WellFormed g1 := by
  induction fuel with
  | zero =>
    intro g g1 inval _ he
    simp [Grid.fixNextLoop] at he
  | succ fuel ih =>
    intro g g1 inval h he
    simp only [Grid.fixNextLoop, Grid.FixNext] at he
    split at he
    · exact absurd he (by simp)
    · next g2 f2 i2 he2 =>
      have h2 := wellFormed_fixNextFrom colMajor h he2
      split at he
      · simp only [Except.ok.injEq, Prod.mk.injEq] at he
        rw [← he.1]
        exact h2
      · split at he
        · simp only [Except.ok.injEq, Prod.mk.injEq] at he
          rw [← he.1]
          exact h2
        · exact ih h2 he

theorem solveDepth_succ (fuel : Nat) (g : Grid) :
    Grid.solveDepth (fuel + 1) g = g.solveBody (Grid.solveDepth fuel) := rfl

theorem solveBody_all_fixed (solve : Grid → Except Fault (Grid × Bool)) (g : Grid)
    (hall : ∀ p, (g.get p).Fixed = true) :
    g.solveBody solve = .error .indexOutOfRange ∨ g.solveBody solve = .ok (g, false) := by
  have hs : g.searchFrom colMajor none = (9, 9, some ((8 : Fin 9), (8 : Fin 9))) := by
    rw [searchFrom_all_fixed g colMajor none (fun p _ => hall p), last_colMajor]
    rfl
  by_cases hc : ∃ i ∈ ([1, 2, 3, 4, 5, 6, 7, 8, 9] : List Int), (g.get (8, 8)).has i = true
  · left
    rw [Grid.solveBody, hs]
    exact solveVals_out_of_range _ g _ _ hc
  · right
    have hc' : ∀ i ∈ ([1, 2, 3, 4, 5, 6, 7, 8, 9] : List Int), (g.get (8, 8)).has i = false := by
      intro i hi
      by_contra hne
      exact hc ⟨i, hi, by simpa using hne⟩
    rw [Grid.solveBody, hs]
    exact solveVals_no_candidate _ g _ _ _ _ hc'

theorem solveBody_unfixed (solve : Grid → Except Fault (Grid × Bool)) (g : Grid)
    (hex : ∃ p, (g.get p).Fixed = false) :
    ∃ n, (g.get n).Fixed = false ∧
      g.solveBody solve =
        Grid.solveVals solve g n.1.val n.2.val n [1, 2, 3, 4, 5, 6, 7, 8, 9] := by
  obtain ⟨p, hp⟩ := hex
  obtain ⟨n, hn, hnf⟩ := searchFrom_found g colMajor none ⟨p, mem_colMajor p, hp⟩
  exact ⟨n, hnf, by rw [Grid.solveBody, hn]⟩

theorem all_fixed_or_unfixed (g : Grid) :
    (∀ p, (g.get p).Fixed = true) ∨ ∃ p, (g.get p).Fixed = false := by
  by_cases h : ∃ p, (g.get p).Fixed = false
  · exact Or.inr h
  · left
    intro p
    by_contra hp
    exact h ⟨p, by simpa using hp⟩

/-- The loop over the candidates of a node that is not fixed, on every grid,
given what the nested call does on grids with more fixed nodes. -/
theorem solveVals_frame (solve : Grid → Except Fault (Grid × Bool)) (g : Grid) (n : Cell)
    (hn : (g.get n).Fixed = false)
    (hsolve : ∀ ng, g.fixedCount < ng.fixedCount → SolveFrame ng (solve ng))
    (is : List Int) :
    SolveFrame g (Grid.solveVals solve g n.1.val n.2.val n is) := by
  induction is with
  | nil => exact Or.inr ⟨g, false, rfl, rfl, fun _ => rfl, by simp⟩
  | cons i is ih =>
    by_cases hv : (g.get n).has i = true
    · obtain ⟨ng1, ok, he1, hok, _, _⟩ := fixNode_spec g n i
      by_cases hokt : ok = true
      · have hfa := hok hokt
        have hc1 := fixedCount_fixedAt hfa hn
        obtain ⟨ng2, inval, he2, h2⟩ := fixNextLoop_spec 82 ng1 (by omega)
        by_cases hinv : inval = true
        · have heq : Grid.solveVals solve g n.1.val n.2.val n (i :: is) =
              Grid.solveVals solve g n.1.val n.2.val n is := by
            simp only [Grid.solveVals, hv, Bool.not_true, Bool.false_eq_true, if_false,
              grid_copy_eq, fix_cell, he1, hokt, he2, hinv, if_true]
          rw [heq]
          exact ih
        · have hinv' : inval = false := by simpa using hinv
          obtain ⟨hext, hcount, _⟩ := h2 hinv'
          have hext2 : Extends g ng2 := extends_trans (extends_fixedAt hfa hn) hext
          have hwf : WellFormed g → WellFormed ng2 :=
            fun h => wellFormed_fixNextLoop 82 (wellFormed_fixedAt h hfa) he2
          by_cases hcomplete : ng2.Complete = true
          · refine Or.inr ⟨g.withNodesOf ng2, true, ?_, rfl, by simp,
              fun _ => ⟨⟨hext2.keep, hext2.sub⟩, fun h => wellFormed_withNodesOf (hwf h)⟩⟩
            simp only [Grid.solveVals, hv, Bool.not_true, Bool.false_eq_true, if_false,
              grid_copy_eq, fix_cell, he1, hokt, he2, hinv', hcomplete, if_true]
          · have hcomplete' : ng2.Complete = false := by simpa using hcomplete
            rcases hsolve ng2 (by omega) with he3 | ⟨ng3, r3, he3, _, _, h3t⟩
            · left
              simp only [Grid.solveVals, hv, Bool.not_true, Bool.false_eq_true, if_false,
                grid_copy_eq, fix_cell, he1, hokt, he2, hinv', hcomplete', he3]
            · by_cases hr3 : r3 = true
              · obtain ⟨hext3, hwf3⟩ := h3t hr3
                have hext4 := extends_trans hext2 hext3
                refine Or.inr ⟨g.withNodesOf ng3, true, ?_, rfl, by simp,
                  fun _ => ⟨⟨hext4.keep, hext4.sub⟩,
                    fun h => wellFormed_withNodesOf (hwf3 (hwf h))⟩⟩
                simp only [Grid.solveVals, hv, Bool.not_true, Bool.false_eq_true, if_false,
                  grid_copy_eq, fix_cell, he1, hokt, he2, hinv', hcomplete', he3, hr3, if_true]
              · have heq : Grid.solveVals solve g n.1.val n.2.val n (i :: is) =
                    Grid.solveVals solve g n.1.val n.2.val n is := by
                  simp only [Grid.solveVals, hv, Bool.not_true, Bool.false_eq_true, if_false,
                    grid_copy_eq, fix_cell, he1, hokt, he2, hinv', hcomplete', he3, hr3]
                rw [heq]
                exact ih
      · have hokf : ok = false := by simpa using hokt
        have heq : Grid.solveVals solve g n.1.val n.2.val n (i :: is) =
            Grid.solveVals solve g n.1.val n.2.val n is := by
          simp only [Grid.solveVals, hv, Bool.not_true, Bool.false_eq_true, if_false,
            grid_copy_eq, fix_cell, he1, hokf, Bool.not_false, if_true]
        rw [heq]
        exact ih
    · have hv' : (g.get n).has i = false := by simpa using hv
      have heq : Grid.solveVals solve g n.1.val n.2.val n (i :: is) =
          Grid.solveVals solve g n.1.val n.2.val n is := by
        simp only [Grid.solveVals, hv', Bool.not_false, if_true]
      rw [heq]
      exact ih

/-- The nested call is only made on grids with more fixed nodes: the loop over
the candidates of a node that is not fixed gives the same result for two
functions that agree on those grids. -/
theorem solveVals_congr (solve solve1 : Grid → Except Fault (Grid × Bool)) (g : Grid) (n : Cell)
    (hn : (g.get n).Fixed = false)
    (hsolve : ∀ ng, g.fixedCount < ng.fixedCount → solve ng = solve1 ng)
    (is : List Int) :
    Grid.solveVals solve g n.1.val n.2.val n is =
      Grid.solveVals solve1 g n.1.val n.2.val n is := by
  induction is with
  | nil => rfl
  | cons i is ih =>
    by_cases hv : (g.get n).has i = true
    · obtain ⟨ng1, ok, he1, hok, _, _⟩ := fixNode_spec g n i
      by_cases hokt : ok = true
      · have hfa := hok hokt
        have hc1 := fixedCount_fixedAt hfa hn
        obtain ⟨ng2, inval, he2, h2⟩ := fixNextLoop_spec 82 ng1 (by omega)
        by_cases hinv : inval = true
        · simp only [Grid.solveVals, hv, Bool.not_true, Bool.false_eq_true, if_false,
            grid_copy_eq, fix_cell, he1, hokt, he2, hinv, if_true]
          exact ih
        · have hinv' : inval = false := by simpa using hinv
          obtain ⟨_, hcount, _⟩ := h2 hinv'
          have h3 := hsolve ng2 (by omega)
          simp only [Grid.solveVals, hv, Bool.not_true, Bool.false_eq_true, if_false,
            grid_copy_eq, fix_cell, he1, hokt, he2, hinv', h3, ih]
      · have hokf : ok = false := by simpa using hokt
        simp only [Grid.solveVals, hv, Bool.not_true, Bool.false_eq_true, if_false,
          grid_copy_eq, fix_cell, he1, hokf, Bool.not_false, if_true]
        exact ih
    · have hv' : (g.get n).has i = false := by simpa using hv
      simp only [Grid.solveVals, hv', Bool.not_false, if_true]
      exact ih

theorem solveBody_congr (solve solve1 : Grid → Except Fault (Grid × Bool)) (g : Grid)
    (hsolve : ∀ ng, g.fixedCount < ng.fixedCount → solve ng = solve1 ng) :
    g.solveBody solve = g.solveBody solve1 := by
  rcases all_fixed_or_unfixed g with hall | hex
  · have hs : g.searchFrom colMajor none = (9, 9, some ((8 : Fin 9), (8 : Fin 9))) := by
      rw [searchFrom_all_fixed g colMajor none (fun p _ => hall p), last_colMajor]
      rfl
    by_cases hc : ∃ i ∈ ([1, 2, 3, 4, 5, 6, 7, 8, 9] : List Int), (g.get (8, 8)).has i = true
    · rw [Grid.solveBody, Grid.solveBody, hs]
      simp only
      rw [solveVals_out_of_range _ g _ _ hc, solveVals_out_of_range _ g _ _ hc]
    · have hc' : ∀ i ∈ ([1, 2, 3, 4, 5, 6, 7, 8, 9] : List Int),
          (g.get (8, 8)).has i = false := by
        intro i hi
        by_contra hne
        exact hc ⟨i, hi, by simpa using hne⟩
      rw [Grid.solveBody, Grid.solveBody, hs]
      simp only
      rw [solveVals_no_candidate _ g _ _ _ _ hc', solveVals_no_candidate _ g _ _ _ _ hc']
  · obtain ⟨p, hp⟩ := hex
    obtain ⟨n, hn, hnf⟩ := searchFrom_found g colMajor none ⟨p, mem_colMajor p, hp⟩
    rw [Grid.solveBody, Grid.solveBody, hn]
    exact solveVals_congr solve solve1 g n hnf hsolve _

/-- `Solve` on every grid, with a budget for the nested calls that covers the
nodes that are not fixed. -/
theorem solveDepth_frame (fuel : Nat) :
    ∀ g : Grid, 81 < g.fixedCount + fuel → SolveFrame g (Grid.solveDepth fuel g) := by
  induction fuel with
  | zero =>
    intro g h
    have := fixedCount_le g
    omega
  | succ fuel ih =>
    intro g hfuel
    rw [solveDepth_succ]
    rcases all_fixed_or_unfixed g with hall | hex
    · rcases solveBody_all_fixed (Grid.solveDepth fuel) g hall with h | h
      · exact Or.inl h
      · exact Or.inr ⟨g, false, h, rfl, fun _ => rfl, by simp⟩
    · obtain ⟨n, hn, he⟩ := solveBody_unfixed (Grid.solveDepth fuel) g hex
      rw [he]
      exact solveVals_frame _ g n hn (fun ng hc => ih ng (by omega)) _

theorem solve_frame (g : Grid) : SolveFrame g g.Solve :=
  solveDepth_frame 82 g (by omega)

/-! ## A pass of `Reduce` at the end of propagation -/

theorem reduceInner_settled (ns : List Cell) (i : Nat) (v : Int) (js : List Nat) (g : Grid)
    (red : Bool) (hlen : ∀ j ∈ js, j < ns.length)
    (h : ∀ j ∈ js, j ≠ i → ∀ q, ns[j]? = some q → ((g.get q).Remove v).2 = false) :
    Grid.reduceInner ns i v js g red = .ok (g, red, false) := by
  induction js with
  | nil => rfl
  | cons j js ih =>
    have ih1 := ih (fun k hk => hlen k (List.mem_cons_of_mem _ hk))
      (fun k hk => h k (List.mem_cons_of_mem _ hk))
    by_cases hji : j = i
    · simp only [Grid.reduceInner, hji, if_true]
      exact ih1
    · have hj : j < ns.length := hlen j (List.mem_cons_self _ _)
      have hnn : ns[j]? = some ns[j] := List.getElem?_eq_getElem hj
      have hrem := h j (List.mem_cons_self _ _) hji _ hnn
      simp only [Grid.reduceInner, hji, if_false, hnn, hrem, Bool.false_eq_true]
      exact ih1

theorem reduceOuter_settled (ns : List Cell) (hlen : ns.length = 9) (is : List Nat) (g : Grid)
    (red : Bool) (his : ∀ i ∈ is, i < 9) (h : Settled g ns) :
    Grid.reduceOuter ns is g red = .ok (g, red, false) := by
  induction is with
  | nil => rfl
  | cons i is ih =>
    have ih1 := ih (fun k hk => his k (List.mem_cons_of_mem _ hk))
    have hi : i < ns.length := by rw [hlen]; exact his i (List.mem_cons_self _ _)
    have hn : ns[i]? = some ns[i] := List.getElem?_eq_getElem hi
    by_cases hl : (g.get ns[i]).Len = 1
    · obtain ⟨v, hv, hval⟩ := node_val_of_len _ hl
      have hin : Grid.reduceInner ns i v (List.range 9) g red = .ok (g, red, false) := by
        apply reduceInner_settled
        · intro j hj
          rw [hlen]
          exact List.mem_range.1 hj
        · intro j _ hji q hq
          exact node_remove_false_of _ _ (h i j ns[i] q v (Ne.symm hji) hn hq hv)
      simp only [Grid.reduceOuter, hn, hl, ne_eq, not_true_eq_false, if_false, hval, hin,
        Bool.false_eq_true]
      exact ih1
    · simp only [Grid.reduceOuter, hn, ne_eq, hl, not_false_eq_true, if_true]
      exact ih1

theorem reduceUnits_settled (us : List (List Cell)) (g : Grid) (red : Bool)
    (hlen : ∀ u ∈ us, u.length = 9) (h : ∀ u ∈ us, Settled g u) :
    Grid.reduceUnits us g red = .ok (g, red, false) := by
  induction us generalizing red with
  | nil => rfl
  | cons u us ih =>
    have hu : g.reduceNodes u = .ok (g, false, false) :=
      reduceOuter_settled u (hlen u (List.mem_cons_self _ _)) (List.range 9) g false
        (fun i hi => List.mem_range.1 hi) (h u (List.mem_cons_self _ _))
    simp only [Grid.reduceUnits, hu, Bool.false_eq_true, if_false]
    exact ih red (fun w hw => hlen w (List.mem_cons_of_mem _ hw))
      (fun w hw => h w (List.mem_cons_of_mem _ hw))

theorem settled_of_fixpoint (g : Grid) (h : Fixpoint g) : ∀ u ∈ units, Settled g u := by
  intro u hu i j p q v hij hp hq hv
  exact h p q (peer_of_unit u hu i j p q hij hp hq) v hv

/-- At the end of propagation a further pass of `Reduce` changes nothing and
returns `reduced = false` and `invalid = false`. -/
theorem reduce_fixpoint (g : Grid) (h : Fixpoint g) : g.Reduce = .ok (g, false, false) := by
  rw [reduce_eq_units]
  exact reduceUnits_settled units g false units_length (settled_of_fixpoint g h)

/-! ## Nodes without candidates -/

theorem noEmpty_setNode {g : Grid} (h : NoEmpty g) (q : Cell) (n : Node) (hn : n.Vals ≠ []) :
    NoEmpty (g.setNode q n) := by
  intro p
  rw [get_setNode]
  split
  · exact hn
  · exact h p

theorem reduceInner_noEmpty (ns : List Cell) (i : Nat) (v : Int) (js : List Nat) :
    ∀ (g : Grid) (red : Bool) (g1 : Grid) (red1 : Bool), NoEmpty g →
      Grid.reduceInner ns i v js g red = .ok (g1, red1, false) → NoEmpty g1 := by
  induction js with
  | nil =>
    intro g red g1 red1 h he
    simp only [Grid.reduceInner, Except.ok.injEq, Prod.mk.injEq] at he
    rw [← he.1]
    exact h
  | cons j js ih =>
    intro g red g1 red1 h he
    simp only [Grid.reduceInner] at he
    split at he
    · exact ih g red g1 red1 h he
    · split at he
      · exact absurd he (by simp)
      · next nn _ =>
        split at he
        · split at he
          · simp at he
          · next hlen =>
            refine ih _ _ g1 red1 (noEmpty_setNode h nn _ ?_) he
            intro hnil
            apply hlen
            simp [Node.Len, hnil]
        · exact ih g red g1 red1 h he

theorem reduceOuter_noEmpty (ns : List Cell) (is : List Nat) :
    ∀ (g : Grid) (red : Bool) (g1 : Grid) (red1 : Bool), NoEmpty g →
      Grid.reduceOuter ns is g red = .ok (g1, red1, false) → NoEmpty g1 := by
  induction is with
  | nil =>
    intro g red g1 red1 h he
    simp only [Grid.reduceOuter, Except.ok.injEq, Prod.mk.injEq] at he
    rw [← he.1]
    exact h
  | cons i is ih =>
    intro g red g1 red1 h he
    simp only [Grid.reduceOuter] at he
    split at he
    · exact absurd he (by simp)
    · split at he
      · exact ih g red g1 red1 h he
      · split at he
        · exact absurd he (by simp)
        · split at he
          · exact absurd he (by simp)
          · next g2 red2 inval2 he2 =>
            split at he
            · simp at he
            · next hinv =>
              have hinv' : inval2 = false := by simpa using hinv
              subst hinv'
              exact ih g2 red2 g1 red1 (reduceInner_noEmpty ns i _ _ g red g2 red2 h he2) he

theorem reduceUnits_noEmpty (us : List (List Cell)) :
    ∀ (g : Grid) (red : Bool) (g1 : Grid) (red1 : Bool), NoEmpty g →
      Grid.reduceUnits us g red = .ok (g1, red1, false) → NoEmpty g1 := by
  induction us with
  | nil =>
    intro g red g1 red1 h he
    simp only [Grid.reduceUnits, Except.ok.injEq, Prod.mk.injEq] at he
    rw [← he.1]
    exact h
  | cons u us ih =>
    intro g red g1 red1 h he
    simp only [Grid.reduceUnits] at he
    split at he
    · exact absurd he (by simp)
    · next g2 r2 i2 he2 =>
      split at he
      · simp at he
      · next hinv =>
        have hinv' : i2 = false := by simpa using hinv
        subst hinv'
        exact ih g2 _ g1 red1 (reduceOuter_noEmpty u (List.range 9) g false g2 r2 h he2) he

theorem reduce_noEmpty {g g1 : Grid} {red : Bool} (h : NoEmpty g)
    (he : g.Reduce = .ok (g1, red, false)) : NoEmpty g1 := by
  rw [reduce_eq_units] at he
  exact reduceUnits_noEmpty units g false g1 red h he

theorem reduceLoop_noEmpty (fuel : Nat) :
    ∀ (g g1 : Grid), NoEmpty g → Grid.reduceLoop fuel g = .ok (g1, false) → NoEmpty g1 := by
  induction fuel with
  | zero =>
    intro g g1 _ he
    simp [Grid.reduceLoop] at he
  | succ fuel ih =>
    intro g g1 h he
    simp only [Grid.reduceLoop] at he
    split at he
    · exact absurd he (by simp)
    · next g2 r2 i2 he2 =>
      split at he
      · simp at he
      · next hinv =>
        have hinv' : i2 = false := by simpa using hinv
        subst hinv'
        have h2 := reduce_noEmpty h he2
        split at he
        · simp only [Except.ok.injEq, Prod.mk.injEq, and_true] at he
          rw [← he]
          exact h2
        · exact ih g2 g1 h2 he

/-- A call of `FixNode` that returns `true` on a grid without empty nodes
leaves no empty node. -/
theorem fixNode_noEmpty {g g1 : Grid} {n : Cell} {val : Int} (h : NoEmpty g)
    (he : g.FixNode n val = .ok (g1, true)) : NoEmpty g1 := by
  simp only [Grid.FixNode] at he
  split at he
  · simp at he
  · split at he
    · exact absurd he (by simp)
    · next g2 inval he2 =>
      split at he
      · simp at he
      · next hinv =>
        have hinv' : inval = false := by simpa using hinv
        subst hinv'
        simp only [Except.ok.injEq, Prod.mk.injEq, and_true] at he
        rw [← he]
        have h2 := reduceLoop_noEmpty _ _ g2
          (noEmpty_setNode h n ((g.get n).Fix val) (by simp [Node.Fix])) he2
        exact h2

/-! ## The solution that `Solve` finds -/

theorem searchFrom_first (g : Grid) (cs : List Cell) :
    ∀ prev : Option Cell, (∃ p ∈ cs, (g.get p).Fixed = false) →
      ∃ pre n post, cs = pre ++ n :: post ∧ (∀ p ∈ pre, (g.get p).Fixed = true) ∧
        (g.get n).Fixed = false ∧ g.searchFrom cs prev = (n.1.val, n.2.val, some n) := by
  induction cs with
  | nil => intro _ h; obtain ⟨p, hp, _⟩ := h; simp at hp
  | cons c cs ih =>
    intro prev h
    by_cases hc : (g.get c).Fixed = true
    · obtain ⟨p, hp, hpf⟩ := h
      have hp1 : p ∈ cs := by
        rcases List.mem_cons.1 hp with rfl | hp
        · rw [hc] at hpf; exact absurd hpf (by simp)
        · exact hp
      obtain ⟨pre, n, post, hcs, hpre, hnf, hs⟩ := ih (some c) ⟨p, hp1, hpf⟩
      refine ⟨c :: pre, n, post, by rw [hcs]; rfl, ?_, hnf, ?_⟩
      · intro q hq
        rcases List.mem_cons.1 hq with rfl | hq
        · exact hc
        · exact hpre q hq
      · simp only [Grid.searchFrom, hc, if_true]
        exact hs
    · exact ⟨[], c, cs, rfl, by simp, by simpa using hc,
        by simp only [Grid.searchFrom, hc, Bool.false_eq_true, if_false]⟩

theorem leastFirst_of_smaller (g g1 : Grid) (hi : Inv g) (hext : Extends g g1)
    (pre post : List Cell) (n : Cell) (hcm : colMajor = pre ++ n :: post)
    (hpre : ∀ p ∈ pre, (g.get p).Fixed = true) (i : Int) (hnode : (g1.get n).Vals = [i])
    (A : Cell → Int) (hc : Compat A g) (hlt : i < A n) : LeastFirst g1.digitAt A := by
  right
  refine ⟨pre, n, post, hcm, ?_, ?_⟩
  · intro p hp
    have hf := hpre p hp
    obtain ⟨v, hv⟩ := hi.single p hf
    have hA : A p = v := by
      have := hc p
      rw [hv] at this
      simpa using this
    simp only [Grid.digitAt, hext.keep p hf, hv, List.headD_cons, hA]
  · simp only [Grid.digitAt, hnode, List.headD_cons]
    exact hlt

theorem leastFirst_of_solved (g1 : Grid) (hs : Solved g1) (A : Cell → Int) (hc : Compat A g1) :
    LeastFirst g1.digitAt A := by
  left
  intro p
  obtain ⟨v, hv, _⟩ := hs.single p
  have hA : A p = v := by
    have := hc p
    rw [hv] at this
    simpa using this
  simp only [Grid.digitAt, hv, List.headD_cons, hA]

/-- The loop over the candidates in ascending order: the solution it finds is
the first among the assignments that are still possible. -/
theorem solveVals_least (solve : Grid → Except Fault (Grid × Bool)) (g : Grid) (n : Cell)
    (pre post : List Cell) (hcm : colMajor = pre ++ n :: post)
    (hpre : ∀ p ∈ pre, (g.get p).Fixed = true)
    (hi : Inv g) (hn : (g.get n).Fixed = false)
    (hsolve : ∀ ng, Inv ng → g.fixedCount < ng.fixedCount → (∃ p, (ng.get p).Fixed = false) →
      ∃ g1 r, solve ng = .ok (g1, r) ∧
        (r = true → Extends ng g1 ∧ ∀ A, NoClash A → Compat A ng → LeastFirst g1.digitAt A) ∧
        (∀ A, NoClash A → Compat A ng → r = true))
    (is : List Int) (hsorted : is.Pairwise (fun a b => a < b)) :
    ∀ g1, Grid.solveVals solve g n.1.val n.2.val n is = .ok (g1, true) →
      ∀ A, NoClash A → Compat A g → A n ∈ is → LeastFirst g1.digitAt A := by
  induction is with
  | nil => intro g1 _ A _ _ hmem; simp at hmem
  | cons i is ih =>
    intro g1 he A hA hc hmem
    have hsorted' := List.pairwise_cons.1 hsorted
    have ih1 := ih hsorted'.2
    have skip : Grid.solveVals solve g n.1.val n.2.val n (i :: is) =
        Grid.solveVals solve g n.1.val n.2.val n is → A n ≠ i → LeastFirst g1.digitAt A := by
      intro heq hne
      rw [heq] at he
      rcases List.mem_cons.1 hmem with h | h
      · exact absurd h hne
      · exact ih1 g1 he A hA hc h
    by_cases hv : (g.get n).has i = true
    · obtain ⟨ng1, ok, he1, hok, _, _⟩ := fixNode_spec g n i
      have hfix : A n = i → ok = true ∧ Compat A ng1 := by
        intro hAn
        obtain ⟨ng1', he1', hc1'⟩ := fixNode_compat A hA g n hc
        rw [hAn, he1] at he1'
        simp only [Except.ok.injEq, Prod.mk.injEq] at he1'
        obtain ⟨rfl, rfl⟩ := he1'
        exact ⟨rfl, hc1'⟩
      by_cases hokt : ok = true
      · have hfa := hok hokt
        have hi1 : Inv ng1 := inv_fixedAt hi hfa hn
        have hc1 := fixedCount_fixedAt hfa hn
        obtain ⟨ng2, inval, he2, h2⟩ := fixNextLoop_spec 82 ng1 (by omega)
        have hcompat : A n = i → inval = false ∧ Compat A ng2 := fun hAn =>
          fixNextLoop_compat A hA 82 ng1 ng2 inval (hfix hAn).2 he2
        by_cases hinv : inval = true
        · apply skip
          · simp only [Grid.solveVals, hv, Bool.not_true, Bool.false_eq_true, if_false,
              grid_copy_eq, fix_cell, he1, hokt, he2, hinv, if_true]
          · intro hAn
            have := (hcompat hAn).1
            rw [hinv] at this
            exact absurd this (by simp)
        · have hinv' : inval = false := by simpa using hinv
          obtain ⟨hext, hcount, hinv2⟩ := h2 hinv'
          have hi2 := hinv2 hi1
          have hext2 : Extends g ng2 := extends_trans (extends_fixedAt hfa hn) hext
          have hfixed1 : (ng1.get n).Fixed = true := by rw [hfa.node]
          have hnode2 : ng2.get n = { Vals := [i], Fixed := true } := by
            rw [hext.keep n hfixed1, hfa.node]
          by_cases hcomplete : ng2.Complete = true
          · have hval : Grid.solveVals solve g n.1.val n.2.val n (i :: is) =
                .ok (g.withNodesOf ng2, true) := by
              simp only [Grid.solveVals, hv, Bool.not_true, Bool.false_eq_true, if_false,
                grid_copy_eq, fix_cell, he1, hokt, he2, hinv', hcomplete, if_true]
            rw [hval] at he
            simp only [Except.ok.injEq, Prod.mk.injEq, and_true] at he
            subst he
            rcases List.mem_cons.1 hmem with h | h
            · exact leastFirst_of_solved ng2 (solved_of_inv_complete hi2 hcomplete) A
                (hcompat h).2
            · exact leastFirst_of_smaller g ng2 hi hext2 pre post n hcm hpre i
                (by rw [hnode2]) A hc (hsorted'.1 _ h)
          · have hcomplete' : ng2.Complete = false := by simpa using hcomplete
            obtain ⟨ng3, r3, he3, h3t, h3c⟩ := hsolve ng2 hi2 (by omega)
              (unfixed_of_not_complete hi2 hcomplete')
            by_cases hr3 : r3 = true
            · obtain ⟨hext3, hleast⟩ := h3t hr3
              have hval : Grid.solveVals solve g n.1.val n.2.val n (i :: is) =
                  .ok (g.withNodesOf ng3, true) := by
                simp only [Grid.solveVals, hv, Bool.not_true, Bool.false_eq_true, if_false,
                  grid_copy_eq, fix_cell, he1, hokt, he2, hinv', hcomplete', he3, hr3, if_true]
              rw [hval] at he
              simp only [Except.ok.injEq, Prod.mk.injEq, and_true] at he
              subst he
              rcases List.mem_cons.1 hmem with h | h
              · exact hleast A hA (hcompat h).2
              · exact leastFirst_of_smaller g ng3 hi (extends_trans hext2 hext3) pre post n hcm
                  hpre i (by rw [hext3.keep n (by rw [hnode2]), hnode2]) A hc (hsorted'.1 _ h)
            · apply skip
              · simp only [Grid.solveVals, hv, Bool.not_true, Bool.false_eq_true, if_false,
                  grid_copy_eq, fix_cell, he1, hokt, he2, hinv', hcomplete', he3, hr3]
              · intro hAn
                exact hr3 (h3c A hA (hcompat hAn).2)
      · apply skip
        · have hokf : ok = false := by simpa using hokt
          simp only [Grid.solveVals, hv, Bool.not_true, Bool.false_eq_true, if_false,
            grid_copy_eq, fix_cell, he1, hokf, Bool.not_false, if_true]
        · intro hAn
          exact hokt (hfix hAn).1
    · apply skip
      · have hv' : (g.get n).has i = false := by simpa using hv
        simp only [Grid.solveVals, hv', Bool.not_false, if_true]
      · intro hAn
        apply hv
        rw [← hAn]
        exact (node_has_iff _ _).2 (hc n)

/-- `Solve` branches on the first node that is not fixed and tries its
candidates in ascending order: the solution it finds is the first among the
assignments without clashes that are still possible. -/
theorem solveDepth_least (fuel : Nat) :
    ∀ g : Grid, Inv g → 81 < g.fixedCount + fuel → (∃ p, (g.get p).Fixed = false) →
      ∀ g1, Grid.solveDepth fuel g = .ok (g1, true) →
        ∀ A, NoClash A → Compat A g → LeastFirst g1.digitAt A := by
  induction fuel with
  | zero =>
    intro g _ h _
    have := fixedCount_le g
    omega
  | succ fuel ih =>
    intro g hi hfuel hex g1 he A hA hc
    obtain ⟨p, hp⟩ := hex
    obtain ⟨pre, n, post, hcm, hpre, hnf, hs⟩ :=
      searchFrom_first g colMajor none ⟨p, mem_colMajor p, hp⟩
    simp only [Grid.solveDepth, hs] at he
    refine solveVals_least (Grid.solveDepth fuel) g n pre post hcm hpre hi hnf ?_
      [1, 2, 3, 4, 5, 6, 7, 8, 9] (by decide) g1 he A hA hc
      (digit_mem _ (hi.digits n _ (hc n)))
    intro ng hing hcount hex2
    obtain ⟨g2, r2, he2, _, _, ht2, hc2⟩ := solveDepth_spec fuel ng hing (by omega) hex2
    refine ⟨g2, r2, he2, ?_, hc2⟩
    intro hr
    subst hr
    exact ⟨(ht2 rfl).2, fun B hB hcB => ih ng hing (by omega) hex2 g2 he2 B hB hcB⟩

/-! ### From assignments to strings -/

theorem lexLe_of_first_diff (f f1 : Cell → Nat)
    (h : (∀ p, f p = f1 p) ∨
      ∃ pre n post, colMajor = pre ++ n :: post ∧ (∀ p ∈ pre, f p = f1 p) ∧ f n < f1 n) :
    LexLe (colMajor.map f) (colMajor.map f1) := by
  rcases h with h | ⟨pre, n, post, hcm, hpre, hlt⟩
  · left
    exact List.map_congr_left (fun p _ => h p)
  · right
    rw [hcm, List.map_append, List.map_append, List.map_cons, List.map_cons,
      List.map_congr_left hpre]
    exact List.Lex.append_left _ (List.Lex.rel hlt) _

theorem colMajorOf_string (g : Grid) :
    colMajorOf ((List.range 81).map (fun i => g.byteAt (cellAt i))) = colMajor.map g.byteAt := by
  unfold colMajorOf
  apply List.map_congr_left
  intro p _
  have h1 := p.1.isLt
  have h2 := p.2.isLt
  rw [List.getD_eq_getElem _ _ (by simp; omega)]
  simp only [List.getElem_map, List.getElem_range]
  rw [cellAt_index]

theorem set_ok_accepted (s : List Nat) (g : Grid) (hlen : s.length = 81)
    (hset : NewGrid.Set s = .ok (g, true, none)) : ∀ c ∈ s, isBlank c ∨ isDigit c := by
  obtain ⟨_, hcells, _⟩ := set_ok_spec s g hlen hset
  intro c hc
  obtain ⟨i, hi, hic⟩ := List.getElem_of_mem hc
  have hgd : s.getD i 0 = c := by rw [List.getD_eq_getElem _ _ hi, hic]
  rcases hcells i (by omega) with ⟨hd, _⟩ | ⟨hb, _⟩
  · exact Or.inr (hgd ▸ hd)
  · exact Or.inl (hgd ▸ hb)

/-- After a successful `Set`, the grid that a successful `Solve` leaves comes
first, read column by column, among the valid grids that carry the presets. -/
theorem solve_least (s : List Nat) (g g1 : Grid) (hlen : s.length = 81)
    (hset : NewGrid.Set s = .ok (g, true, none)) (hsolve : g.Solve = .ok (g1, true))
    (t : List Nat) (hv : ValidSudoku t) (ha : Agrees t s) :
    LexLe (colMajor.map g1.byteAt) (colMajorOf t) := by
  obtain ⟨hi, _, _⟩ := set_ok_spec s g hlen hset
  obtain ⟨hs, _, _, hex⟩ := solve_true_spec g g1 hi hsolve
  obtain ⟨g2, hset2, hc⟩ := set_accepts s t hlen (set_ok_accepted s g hlen hset) hv ha
  rw [hset] at hset2
  simp only [Except.ok.injEq, Prod.mk.injEq, and_true] at hset2
  subst hset2
  have hleast := solveDepth_least 82 g hi (by omega) hex g1 hsolve (assignOf t)
    (noClash_assignOf t hv) hc
  obtain ⟨hdig, _⟩ := distinct_of_valid t hv
  have hbyte : ∀ p : Cell, 49 ≤ t.getD (9 * p.2.val + p.1.val) 0 ∧
      t.getD (9 * p.2.val + p.1.val) 0 ≤ 57 := by
    intro p
    have h1 := p.1.isLt
    have h2 := p.2.isLt
    exact hdig _ (by omega)
  have hbyteAt : ∀ p : Cell, 1 ≤ g1.digitAt p ∧ g1.digitAt p ≤ 9 ∧
      g1.byteAt p = 48 + (g1.digitAt p).toNat := by
    intro p
    obtain ⟨v, hv1, h1, h9⟩ := hs.single p
    simp only [Grid.digitAt, Grid.byteAt, hs.fixed p, hv1, List.headD_cons, if_true]
    exact ⟨h1, h9, trivial⟩
  unfold colMajorOf
  apply lexLe_of_first_diff
  rcases hleast with h | ⟨pre, n, post, hcm, hpre, hlt⟩
  · left
    intro p
    have := h p
    obtain ⟨a, b, c⟩ := hbyteAt p
    have hb := hbyte p
    simp only [assignOf] at this
    omega
  · right
    refine ⟨pre, n, post, hcm, ?_, ?_⟩
    · intro p hp
      have := hpre p hp
      obtain ⟨a, b, c⟩ := hbyteAt p
      have hb := hbyte p
      simp only [assignOf] at this
      omega
    · obtain ⟨a, b, c⟩ := hbyteAt n
      have hb := hbyte n
      simp only [assignOf] at hlt
      omega

/-! ## A puzzle without a solution -/

/-- After a successful `Set`, a `Solve` that returns `true` leaves a solved
grid whose string is a valid grid that carries the presets. -/
theorem solve_true_gives_solution (s : List Nat) (g g1 : Grid) (hlen : s.length = 81)
    (hset : NewGrid.Set s = .ok (g, true, none)) (hsolve : g.Solve = .ok (g1, true)) :
    Solved g1 ∧ g1.String = .ok ((List.range 81).map (fun i => g1.byteAt (cellAt i))) ∧
      ValidSudoku ((List.range 81).map (fun i => g1.byteAt (cellAt i))) ∧
      Agrees ((List.range 81).map (fun i => g1.byteAt (cellAt i))) s := by
  obtain ⟨hi, hcells, _⟩ := set_ok_spec s g hlen hset
  obtain ⟨hs, hext, _, _⟩ := solve_true_spec g g1 hi hsolve
  obtain ⟨hstr, hvalid⟩ := solved_string g1 hs
  refine ⟨hs, hstr, hvalid, ?_⟩
  intro i hi81 hd
  rw [List.getD_eq_getElem _ _ (by simpa using hi81)]
  simp only [List.getElem_map, List.getElem_range]
  rcases hcells i hi81 with ⟨hd1, hnode⟩ | ⟨hb, _⟩
  · have hkeep := hext.keep (cellAt i) (by rw [hnode])
    rw [hnode] at hkeep
    exact byteAt_preset g1 _ _ hd1 hkeep
  · exact absurd hd (not_digit_of_blank hb)

/-- After a successful `Set` of a string with an unset cell that no valid grid
carries, `Solve` returns `false` and leaves the grid as it is. -/
theorem solve_false_of_unsolvable (s : List Nat) (g : Grid) (hlen : s.length = 81)
    (hset : NewGrid.Set s = .ok (g, true, none)) (hunset : ∃ c ∈ s, isBlank c)
    (hno : ¬ ∃ t, ValidSudoku t ∧ Agrees t s) : g.Solve = .ok (g, false) := by
  obtain ⟨hi, _, _⟩ := set_ok_spec s g hlen hset
  obtain ⟨g1, r, he, _, hf, _, _⟩ := solve_spec g hi (unfixed_of_unset s g hlen hset hunset)
  cases r with
  | false => rw [he, hf rfl]
  | true =>
    obtain ⟨_, _, hv, ha⟩ := solve_true_gives_solution s g g1 hlen hset he
    exact absurd ⟨_, hv, ha⟩ hno

theorem noPlaceForOne_length : noPlaceForOne.length = 81 := by decide

theorem noPlaceForOne_unset : ∃ c ∈ noPlaceForOne, isBlank c := ⟨95, by decide, by decide⟩

/-- No valid grid carries the presets of `noPlaceForOne`: a 1 in the top left
box would share a row or a column with a preset 1, or stand on the preset 2. -/
theorem noPlaceForOne_unsolvable : ¬ ∃ t, ValidSudoku t ∧ Agrees t noPlaceForOne := by
  rintro ⟨t, hv, ha⟩
  obtain ⟨_, hdist⟩ := distinct_of_valid t hv
  have h3 : t.getD 3 0 = 49 := ha 3 (by decide) (by decide)
  have h15 : t.getD 15 0 = 49 := ha 15 (by decide) (by decide)
  have h27 : t.getD 27 0 = 49 := ha 27 (by decide) (by decide)
  have h55 : t.getD 55 0 = 49 := ha 55 (by decide) (by decide)
  have h20 : t.getD 20 0 = 50 := ha 20 (by decide) (by decide)
  have hbox : (boxOf t 0).count 49 = 1 := (hv.2 0 (by decide) 0 (by decide)).2.2
  have hmem : 49 ∈ boxOf t 0 := List.count_pos_iff.1 (by omega)
  obtain ⟨k, hk, hk49⟩ := List.mem_map.1 hmem
  have hk9 : k < 9 := List.mem_range.1 hk
  interval_cases k
  · exact hdist 0 3 (by decide) (by decide) (by decide) (by rw [h3]; exact hk49)
  · exact hdist 1 3 (by decide) (by decide) (by decide) (by rw [h3]; exact hk49)
  · exact hdist 2 3 (by decide) (by decide) (by decide) (by rw [h3]; exact hk49)
  · exact hdist 9 15 (by decide) (by decide) (by decide) (by rw [h15]; exact hk49)
  · exact hdist 10 15 (by decide) (by decide) (by decide) (by rw [h15]; exact hk49)
  · exact hdist 11 15 (by decide) (by decide) (by decide) (by rw [h15]; exact hk49)
  · exact hdist 18 27 (by decide) (by decide) (by decide) (by rw [h27]; exact hk49)
  · exact hdist 19 55 (by decide) (by decide) (by decide) (by rw [h55]; exact hk49)
  · have : t.getD 20 0 = 49 := hk49
    omega

theorem noPlaceForOne_accepted : ∃ g, NewGrid.Set noPlaceForOne = .ok (g, true, none) := by
  have h : isAccepted (NewGrid.Set noPlaceForOne) = true := by decide!
  unfold isAccepted at h
  split at h
  · next g heq => exact ⟨g, heq⟩
  · exact absurd h (by simp)

/-- `Set` accepts `noPlaceForOne`, and `Solve` then returns `false` on a grid
with nodes that are not fixed. -/
theorem noPlaceForOne_fails :
    ∃ g, NewGrid.Set noPlaceForOne = .ok (g, true, none) ∧
      (∃ p, (g.get p).Fixed = false) ∧ g.Solve = .ok (g, false) := by
  obtain ⟨g, hset⟩ := noPlaceForOne_accepted
  exact ⟨g, hset, unfixed_of_unset _ g noPlaceForOne_length hset noPlaceForOne_unset,
    solve_false_of_unsolvable _ g noPlaceForOne_length hset noPlaceForOne_unset
      noPlaceForOne_unsolvable⟩

/-! ## Calls that return on every grid -/

theorem set_total (g : Grid) (s : List Nat) : ∃ g1, g.call (.Set s) = .ok g1 := by
  by_cases hlen : s.length = 81
  · obtain ⟨g1, ok, err, he, _⟩ := setFrom_total s 0 g (by omega)
    refine ⟨g1, ?_⟩
    simp only [Grid.call, Grid.Set, hlen, ne_eq, not_true_eq_false, if_false, he]
  · have hlen' : s.length ≠ 9 * 9 := hlen
    refine ⟨g, ?_⟩
    simp only [Grid.call, Grid.Set, if_pos hlen']

theorem fix_total (g : Grid) (x y : Nat) (val : Int) (hx : x < 9) (hy : y < 9) :
    ∃ g1, g.call (.Fix x y val) = .ok g1 := by
  obtain ⟨g1, ok, he, _⟩ := fixNode_spec g ((⟨x, hx⟩ : Fin 9), (⟨y, hy⟩ : Fin 9)) val
  have hfix : g.Fix x y val = .ok (g1, ok) := by
    rw [← he]
    exact fix_cell g ((⟨x, hx⟩ : Fin 9), (⟨y, hy⟩ : Fin 9)) val
  refine ⟨g1, ?_⟩
  simp only [Grid.call, hfix]

theorem fixNext_total (g : Grid) : ∃ g1, g.call .FixNext = .ok g1 := by
  obtain ⟨g1, fixed, inval, he, _⟩ := fixNextFrom_spec colMajor g
  refine ⟨g1, ?_⟩
  simp only [Grid.call, Grid.FixNext, he]

theorem reduce_total (g : Grid) : ∃ g1, g.call .Reduce = .ok g1 := by
  obtain ⟨g1, red, inval, he, _⟩ := reduce_spec g
  refine ⟨g1, ?_⟩
  simp only [Grid.call, he]

theorem call_set_ok {g g1 : Grid} {s : List Nat} {ok : Bool} {err : Option SetError}
    (h : g.Set s = .ok (g1, ok, err)) : g.call (.Set s) = .ok g1 := by
  simp only [Grid.call, h]

theorem call_solve_ok {g g1 : Grid} {r : Bool} (h : g.Solve = .ok (g1, r)) :
    g.call .Solve = .ok g1 := by
  simp only [Grid.call, h]

theorem calls_cons {g g1 : Grid} (c : Call) (cs : List Call) (h : g.call c = .ok g1) :
    g.calls (c :: cs) = g1.calls cs := by
  simp only [Grid.calls, h]

theorem wellFormed_call {g g1 : Grid} (c : Call) (h : WellFormed g)
    (he : g.call c = .ok g1) : WellFormed g1 := by
  cases c with
  | Set s =>
    simp only [Grid.call] at he
    split at he
    · exact absurd he (by simp)
    · next g2 ok err he2 =>
      simp only [Except.ok.injEq] at he
      rw [← he]
      exact wellFormed_set h he2
  | Fix x y val =>
    simp only [Grid.call] at he
    split at he
    · exact absurd he (by simp)
    · next g2 ok he2 =>
      simp only [Except.ok.injEq] at he
      rw [← he]
      exact wellFormed_fix h he2
  | FixNext =>
    simp only [Grid.call] at he
    split at he
    · exact absurd he (by simp)
    · next g2 fixed inval he2 =>
      simp only [Except.ok.injEq] at he
      rw [← he]
      exact wellFormed_fixNextFrom colMajor h he2
  | Reduce =>
    simp only [Grid.call] at he
    split at he
    · exact absurd he (by simp)
    · next g2 red inval he2 =>
      simp only [Except.ok.injEq] at he
      rw [← he]
      exact wellFormed_reduce h he2
  | Solve =>
    simp only [Grid.call] at he
    split at he
    · exact absurd he (by simp)
    · next g2 r he2 =>
      simp only [Except.ok.injEq] at he
      rw [← he]
      rcases solve_frame g with hf | ⟨g3, r3, hf, _, hfalse, htrue⟩
      · rw [hf] at he2
        exact absurd he2 (by simp)
      · rw [hf] at he2
        simp only [Except.ok.injEq, Prod.mk.injEq] at he2
        obtain ⟨rfl, rfl⟩ := he2
        cases r3 with
        | false => rw [hfalse rfl]; exact h
        | true => exact (htrue rfl).2 h

theorem wellFormed_calls (cs : List Call) :
    ∀ {g g1 : Grid}, WellFormed g → g.calls cs = .ok g1 → WellFormed g1 := by
  induction cs with
  | nil =>
    intro g g1 h he
    simp only [Grid.calls, Except.ok.injEq] at he
    rw [← he]
    exact h
  | cons c cs ih =>
    intro g g1 h he
    simp only [Grid.calls] at he
    split at he
    · exact absurd he (by simp)
    · next g2 he2 => exact ih (wellFormed_call c h he2) he

/-! ## Assignments -/

theorem noClash_of_validAssignment {A : Cell → Int} (h : ValidAssignment A) : NoClash A := by
  intro p q hpq heq
  obtain ⟨u, hu, i, j, hij, hp, hq⟩ := unit_of_peer p q hpq
  have hnd : (u.map A).Nodup := (h u hu).nodup_iff.2 (by decide)
  obtain ⟨hi, hpi⟩ := List.getElem?_eq_some_iff.1 hp
  obtain ⟨hj, hqj⟩ := List.getElem?_eq_some_iff.1 hq
  apply hij
  have h1 : (u.map A).get ⟨i, by simpa using hi⟩ = (u.map A).get ⟨j, by simpa using hj⟩ := by
    simp only [List.get_eq_getElem, List.getElem_map, hpi, hqj, heq]
  exact Fin.mk.inj ((List.Nodup.get_inj_iff hnd).1 h1)

/-! ## The depth of the nested calls of `Solve` -/

/-- A budget that covers the nodes that are not fixed is as good as any
other such budget: the result of `Solve` does not depend on it. -/
theorem solveDepth_fuel (fuel : Nat) :
    ∀ (fuel1 : Nat) (g : Grid), 81 < g.fixedCount + fuel → 81 < g.fixedCount + fuel1 →
      Grid.solveDepth fuel g = Grid.solveDepth fuel1 g := by
  induction fuel with
  | zero =>
    intro fuel1 g h _
    have := fixedCount_le g
    omega
  | succ fuel ih =>
    intro fuel1 g h h1
    cases fuel1 with
    | zero =>
      have := fixedCount_le g
      omega
    | succ fuel1 =>
      rw [solveDepth_succ, solveDepth_succ]
      apply solveBody_congr
      intro ng hc
      exact ih fuel1 ng (by omega) (by omega)

theorem fixedCount_lt_of_unfixed {g : Grid} (h : ∃ p, (g.get p).Fixed = false) :
    g.fixedCount < 81 := by
  obtain ⟨p, hp⟩ := h
  have hle := fixedCount_le g
  have hne : g.fixedCount ≠ 81 := by
    intro h81
    have := all_fixed_of_count h81 p
    rw [hp] at this
    exact absurd this (by simp)
  omega

/-- On a grid that satisfies the invariant the nested call is only made on
grids that satisfy it, have more fixed nodes and are not complete. -/
theorem solveVals_congr_inv (solve solve1 : Grid → Except Fault (Grid × Bool)) (g : Grid)
    (n : Cell) (hi : Inv g) (hn : (g.get n).Fixed = false)
    (hsolve : ∀ ng, Inv ng → g.fixedCount < ng.fixedCount → (∃ p, (ng.get p).Fixed = false) →
      solve ng = solve1 ng)
    (is : List Int) :
    Grid.solveVals solve g n.1.val n.2.val n is =
      Grid.solveVals solve1 g n.1.val n.2.val n is := by
  induction is with
  | nil => rfl
  | cons i is ih =>
    by_cases hv : (g.get n).has i = true
    · obtain ⟨ng1, ok, he1, hok, _, _⟩ := fixNode_spec g n i
      by_cases hokt : ok = true
      · have hfa := hok hokt
        have hi1 : Inv ng1 := inv_fixedAt hi hfa hn
        have hc1 := fixedCount_fixedAt hfa hn
        obtain ⟨ng2, inval, he2, h2⟩ := fixNextLoop_spec 82 ng1 (by omega)
        by_cases hinv : inval = true
        · simp only [Grid.solveVals, hv, Bool.not_true, Bool.false_eq_true, if_false,
            grid_copy_eq, fix_cell, he1, hokt, he2, hinv, if_true]
          exact ih
        · have hinv' : inval = false := by simpa using hinv
          obtain ⟨_, hcount, hinv2⟩ := h2 hinv'
          have hi2 := hinv2 hi1
          by_cases hcomplete : ng2.Complete = true
          · simp only [Grid.solveVals, hv, Bool.not_true, Bool.false_eq_true, if_false,
              grid_copy_eq, fix_cell, he1, hokt, he2, hinv', hcomplete, if_true]
          · have hcomplete' : ng2.Complete = false := by simpa using hcomplete
            have h3 := hsolve ng2 hi2 (by omega) (unfixed_of_not_complete hi2 hcomplete')
            simp only [Grid.solveVals, hv, Bool.not_true, Bool.false_eq_true, if_false,
              grid_copy_eq, fix_cell, he1, hokt, he2, hinv', hcomplete', h3, ih]
      · have hokf : ok = false := by simpa using hokt
        simp only [Grid.solveVals, hv, Bool.not_true, Bool.false_eq_true, if_false,
          grid_copy_eq, fix_cell, he1, hokf, Bool.not_false, if_true]
        exact ih
    · have hv' : (g.get n).has i = false := by simpa using hv
      simp only [Grid.solveVals, hv', Bool.not_false, if_true]
      exact ih

/-- On a grid that satisfies the invariant a budget of one call for every node
that is not fixed, and of one call at least, is as good as any other such
budget. -/
theorem solveDepth_fuel_inv (fuel : Nat) :
    ∀ (fuel1 : Nat) (g : Grid), Inv g → 80 < g.fixedCount + fuel → 80 < g.fixedCount + fuel1 →
      0 < fuel → 0 < fuel1 → Grid.solveDepth fuel g = Grid.solveDepth fuel1 g := by
  induction fuel with
  | zero => intro fuel1 g _ _ _ h; exact absurd h (Nat.lt_irrefl 0)
  | succ fuel ih =>
    intro fuel1 g hi h h1 _ hpos1
    cases fuel1 with
    | zero => exact absurd hpos1 (Nat.lt_irrefl 0)
    | succ fuel1 =>
      rw [solveDepth_succ, solveDepth_succ]
      rcases all_fixed_or_unfixed g with hall | hex
      · apply solveBody_congr
        intro ng hc
        have h81 := count_of_all_fixed hall
        have := fixedCount_le ng
        omega
      · obtain ⟨p, hp⟩ := hex
        obtain ⟨n, hn, hnf⟩ := searchFrom_found g colMajor none ⟨p, mem_colMajor p, hp⟩
        rw [Grid.solveBody, Grid.solveBody, hn]
        apply solveVals_congr_inv _ _ g n hi hnf
        intro ng hing hc hexng
        have hlt := fixedCount_lt_of_unfixed hexng
        exact ih fuel1 ng hing (by omega) (by omega) (by omega) (by omega)

/-- On a grid that satisfies the invariant, `Solve` with room for 81 calls in
all, the first one included, does what `Solve` does. -/
theorem solveDepth_inv (g : Grid) (hi : Inv g) : Grid.solveDepth 81 g = g.Solve :=
  solveDepth_fuel_inv 81 82 g hi (by omega) (by omega) (by omega) (by omega)

/-- The result of `Solve` is the index fault or a returned pair; it is never
the exhausted budget. -/
theorem solve_returns (g : Grid) :
    g.Solve = .error .indexOutOfRange ∨ ∃ g1 r, g.Solve = .ok (g1, r) := by
  rcases solve_frame g with h | ⟨g1, r, h, _⟩
  · exact Or.inl h
  · exact Or.inr ⟨g1, r, h⟩

/-! ## The claims, continued -/

/-- C11. When `Solve` returns `false` the grid it leaves is the grid it was
called on: the 81 candidate sets, the fixed flags and the counter `FixedNodes`
are what they were before the call. This holds for every grid, with or without
a node that is not fixed. -/
theorem solve_false_leaves_grid (g g1 : Grid) (hsolve : g.Solve = .ok (g1, false)) :
    g1.Nodes = g.Nodes ∧ g1.FixedNodes = g.FixedNodes ∧
      ∀ p, (g1.get p).Vals = (g.get p).Vals ∧ (g1.get p).Fixed = (g.get p).Fixed := by
  rcases solve_frame g with h | ⟨g2, r, h, _, hfalse, _⟩
  · rw [h] at hsolve
    exact absurd hsolve (by simp)
  · rw [h] at hsolve
    simp only [Except.ok.injEq, Prod.mk.injEq] at hsolve
    obtain ⟨rfl, rfl⟩ := hsolve
    rw [hfalse rfl]
    exact ⟨rfl, rfl, fun _ => ⟨rfl, rfl⟩⟩

/-- A puzzle that `Set` accepts and that has no solution is an instance of
C11: `Solve` returns `false` on a grid with 76 nodes that are not fixed. -/
theorem solve_false_leaves_grid_witness :
    ∃ g, NewGrid.Set noPlaceForOne = .ok (g, true, none) ∧
      (∃ p, (g.get p).Fixed = false) ∧ g.Solve = .ok (g, false) ∧
      (g.Nodes = g.Nodes ∧ g.FixedNodes = g.FixedNodes ∧
        ∀ p, (g.get p).Vals = (g.get p).Vals ∧ (g.get p).Fixed = (g.get p).Fixed) := by
  obtain ⟨g, hset, hex, hsolve⟩ := noPlaceForOne_fails
  exact ⟨g, hset, hex, hsolve, solve_false_leaves_grid g g hsolve⟩

/-- C12 (counterexample). On a new grid whose counter holds the largest `int`,
`Fix(0, 0, 1)` returns `true` and the increment wraps around: the counter is
then the smallest `int`, not the counter before the call plus one. -/
theorem fix_counter_wraps_counterexample :
    ∃ g1, counterAtMax.Fix 0 0 1 = .ok (g1, true) ∧
      counterAtMax.FixedNodes = 9223372036854775807 ∧
      g1.FixedNodes = -9223372036854775808 ∧
      g1.FixedNodes ≠ counterAtMax.FixedNodes + 1 := by
  have hA := noClash_assignOf testSolution testSolution_valid
  have hA0 : assignOf testSolution ((0 : Fin 9), (0 : Fin 9)) = 1 := by decide
  have hc : Compat (assignOf testSolution) counterAtMax :=
    compat_assignOf_newGrid testSolution testSolution_valid
  obtain ⟨g1, he, _⟩ := fixNode_compat _ hA counterAtMax ((0 : Fin 9), (0 : Fin 9)) hc
  rw [hA0] at he
  have hfix : counterAtMax.Fix 0 0 1 = .ok (g1, true) := by
    rw [← he]
    exact fix_cell counterAtMax ((0 : Fin 9), (0 : Fin 9)) 1
  obtain ⟨g2, ok, he2, htrue, _, _⟩ := fixNode_spec counterAtMax ((0 : Fin 9), (0 : Fin 9)) 1
  rw [he] at he2
  simp only [Except.ok.injEq, Prod.mk.injEq] at he2
  obtain ⟨rfl, rfl⟩ := he2
  have hcount : g1.FixedNodes = -9223372036854775808 := by
    rw [(htrue rfl).counter]
    rfl
  refine ⟨g1, hfix, rfl, hcount, ?_⟩
  rw [hcount]
  have hmax : counterAtMax.FixedNodes = 9223372036854775807 := rfl
  rw [hmax]
  decide

/-- C12 (amended). For every grid, every cell `(x, y)` with `x, y ≤ 8` and
every integer `d`, `Fix(x, y, d)` returns. When it returns `true` the counter
`FixedNodes` is the counter before the call plus one in the arithmetic of
`int`: exactly the counter before the call plus one when that counter is an
`int` below the largest one, and the smallest `int` when it is the largest
one. When it returns `false` the counter is the counter before the call. -/
theorem fix_counter_step (g : Grid) (x y : Nat) (d : Int) (hx : x ≤ 8) (hy : y ≤ 8) :
    ∃ g1 ok, g.Fix x y d = .ok (g1, ok) ∧
      (ok = true → g1.FixedNodes = wrapInt (g.FixedNodes + 1)) ∧
      (ok = true → minInt ≤ g.FixedNodes → g.FixedNodes < maxInt →
        g1.FixedNodes = g.FixedNodes + 1) ∧
      (ok = true → g.FixedNodes = maxInt → g1.FixedNodes = minInt) ∧
      (ok = false → g1.FixedNodes = g.FixedNodes) := by
  obtain ⟨g1, ok, he, htrue, hfalse, _⟩ :=
    fixNode_spec g ((⟨x, by omega⟩ : Fin 9), (⟨y, by omega⟩ : Fin 9)) d
  refine ⟨g1, ok, ?_, fun h => (htrue h).counter, ?_, ?_, hfalse⟩
  · rw [← he]
    exact fix_cell g ((⟨x, by omega⟩ : Fin 9), (⟨y, by omega⟩ : Fin 9)) d
  · intro h h0 h1
    rw [(htrue h).counter]
    apply wrapInt_eq
    · omega
    · omega
  · intro h hmax
    rw [(htrue h).counter, hmax]
    rfl

/-- Two calls of `Fix` on a new grid are an instance of the amended C12:
`Fix(0, 0, 1)` returns `true` and takes the counter from 0 to 1, and
`Fix(1, 0, 1)` then returns `false`, the 1 being no candidate of that node any
more, and leaves the counter at 1. -/
theorem fix_counter_step_witness :
    ∃ g1, NewGrid.Fix 0 0 1 = .ok (g1, true) ∧ NewGrid.FixedNodes = 0 ∧
      g1.FixedNodes = 1 ∧ g1.Fix 1 0 1 = .ok (g1, false) := by
  have hA := noClash_assignOf testSolution testSolution_valid
  have hA0 : assignOf testSolution ((0 : Fin 9), (0 : Fin 9)) = 1 := by decide
  obtain ⟨g1, he, _⟩ := fixNode_compat _ hA NewGrid ((0 : Fin 9), (0 : Fin 9))
    (compat_assignOf_newGrid testSolution testSolution_valid)
  rw [hA0] at he
  have hfix : NewGrid.Fix 0 0 1 = .ok (g1, true) := by
    rw [← he]
    exact fix_cell NewGrid ((0 : Fin 9), (0 : Fin 9)) 1
  obtain ⟨g2, ok, he2, _, hstep, _, _⟩ := fix_counter_step NewGrid 0 0 1 (by decide) (by decide)
  rw [hfix] at he2
  simp only [Except.ok.injEq, Prod.mk.injEq] at he2
  obtain ⟨rfl, rfl⟩ := he2
  have hcount : g1.FixedNodes = 1 := by
    have h := hstep rfl (by decide) (by decide)
    rw [h]
    rfl
  obtain ⟨g3, ok3, he3, htrue, _, _⟩ := fixNode_spec NewGrid ((0 : Fin 9), (0 : Fin 9)) 1
  rw [he] at he3
  simp only [Except.ok.injEq, Prod.mk.injEq] at he3
  obtain ⟨rfl, rfl⟩ := he3
  have hfa := htrue rfl
  have hunfixed : (g1.get ((1 : Fin 9), (0 : Fin 9))).Fixed = false := by
    rw [hfa.fixed _ (by decide), get_NewGrid]
    rfl
  have hnot : (g1.get ((1 : Fin 9), (0 : Fin 9))).has 1 = false := by
    rcases hfa.fixpoint ((0 : Fin 9), (0 : Fin 9)) ((1 : Fin 9), (0 : Fin 9)) (by decide) 1
      (by rw [hfa.node]) with h | h
    · rw [hunfixed] at h
      exact absurd h (by simp)
    · simpa [Node.has] using h
  obtain ⟨g4, ok4, he4, _, _, hsame⟩ := fixNode_spec g1 ((1 : Fin 9), (0 : Fin 9)) 1
  obtain ⟨rfl, rfl⟩ := hsame hnot
  have hfix2 : g4.Fix 1 0 1 = .ok (g4, false) := by
    rw [← he4]
    exact fix_cell g4 ((1 : Fin 9), (0 : Fin 9)) 1
  exact ⟨g4, hfix, rfl, hcount, hfix2⟩

/-- C13. In every grid that a sequence of calls of `Set`, `Fix`, `FixNext`,
`Reduce` and `Solve` on a new grid leaves, whatever the calls return, every
candidate is a digit `1..9` and every node with `Fixed = true` has exactly one
candidate, so that `Val` returns it and `String` returns 81 bytes. -/
theorem calls_keep_candidate_sets (cs : List Call) (g : Grid)
    (h : NewGrid.calls cs = .ok g) :
    (∀ p, ∀ v ∈ (g.get p).Vals, 1 ≤ v ∧ v ≤ 9) ∧
      (∀ p, (g.get p).Fixed = true → ∃ v, (g.get p).Vals = [v] ∧ (g.get p).Val = .ok v) ∧
      ∃ str, g.String = .ok str ∧ str.length = 81 := by
  have hw := wellFormed_calls cs wellFormed_newGrid h
  refine ⟨hw.digits, ?_, ?_⟩
  · intro p hp
    obtain ⟨v, hv⟩ := hw.single p hp
    exact ⟨v, hv, node_val_of_vals _ v hv⟩
  · refine ⟨_, string_spec g (fun p hp => ?_), by simp⟩
    obtain ⟨v, hv⟩ := hw.single p hp
    exact ⟨v, hv, hw.digits p v (by rw [hv]; exact List.mem_singleton_self v)⟩

/-- A sequence with each of the five calls is an instance of C13: `Set` and
`Solve` on the puzzle of `TestSolve`, then `Reduce`, `FixNext`, `Fix` and a
`Set` of a string with a repeated digit. -/
theorem calls_keep_candidate_sets_witness :
    ∃ g, NewGrid.calls [.Set testPuzzle, .Solve, .Reduce, .FixNext, .Fix 0 0 1,
        .Set repeatedDigit] = .ok g ∧
      (∀ p, ∀ v ∈ (g.get p).Vals, 1 ≤ v ∧ v ≤ 9) ∧
      (∀ p, (g.get p).Fixed = true → ∃ v, (g.get p).Vals = [v] ∧ (g.get p).Val = .ok v) ∧
      ∃ str, g.String = .ok str ∧ str.length = 81 := by
  obtain ⟨g1, g2, hset, hsolve⟩ := testPuzzle_solves
  obtain ⟨g3, h3⟩ := reduce_total g2
  obtain ⟨g4, h4⟩ := fixNext_total g3
  obtain ⟨g5, h5⟩ := fix_total g4 0 0 1 (by decide) (by decide)
  obtain ⟨g6, h6⟩ := set_total g5 repeatedDigit
  have hall : NewGrid.calls [.Set testPuzzle, .Solve, .Reduce, .FixNext, .Fix 0 0 1,
      .Set repeatedDigit] = .ok g6 := by
    rw [calls_cons _ _ (call_set_ok hset), calls_cons _ _ (call_solve_ok hsolve),
      calls_cons _ _ h3, calls_cons _ _ h4, calls_cons _ _ h5, calls_cons _ _ h6]
    rfl
  exact ⟨g6, hall, calls_keep_candidate_sets _ g6 hall⟩

theorem fixedCount_congr {g g1 : Grid} (h : ∀ p, (g1.get p).Fixed = (g.get p).Fixed) :
    g1.fixedCount = g.fixedCount := by
  unfold Grid.fixedCount
  apply List.countP_congr
  intro p _
  rw [h p]

/-- C14 (the code does otherwise). A `Fix` that returns `true` keeps the
counter equal to the number of fixed nodes when the node was not fixed before
the call. When the node was already fixed, the number of fixed nodes stays and
the counter still goes up: afterwards `FixedNodes` is one more than the number
of nodes with `Fixed = true`. -/
theorem fix_fixed_cell_breaks_counter (g g1 : Grid) (x y : Fin 9) (d : Int)
    (hcount : g.FixedNodes = g.fixedCount)
    (hfix : g.Fix x.val y.val d = .ok (g1, true)) :
    ((g.get (x, y)).Fixed = false → g1.FixedNodes = g1.fixedCount) ∧
      ((g.get (x, y)).Fixed = true →
        g1.fixedCount = g.fixedCount ∧ g1.FixedNodes = g1.fixedCount + 1) := by
  obtain ⟨g2, ok, he, htrue, _, _⟩ := fixNode_spec g (x, y) d
  rw [fix_cell g (x, y) d, he] at hfix
  simp only [Except.ok.injEq, Prod.mk.injEq] at hfix
  obtain ⟨rfl, rfl⟩ := hfix
  have hfa := htrue rfl
  constructor
  · intro hn
    rw [hfa.counter, hcount, fixedCount_fixedAt hfa hn, wrapInt_succ_small _ (fixedCount_le g)]
    simp
  · intro hn
    have hc : g2.fixedCount = g.fixedCount := by
      apply fixedCount_congr
      intro p
      by_cases hp : p = (x, y)
      · rw [hp, hfa.node, hn]
      · exact hfa.fixed p hp
    refine ⟨hc, ?_⟩
    rw [hfa.counter, hcount, wrapInt_succ_small _ (fixedCount_le g), hc]

/-- Two calls `Fix(0, 0, 1)` on a new grid are an instance of C14: both return
`true`, and afterwards the counter is 2 with one node fixed. -/
theorem fix_fixed_cell_breaks_counter_witness :
    ∃ g g1, NewGrid.Fix 0 0 1 = .ok (g, true) ∧ g.Fix 0 0 1 = .ok (g1, true) ∧
      g.FixedNodes = g.fixedCount ∧ (g.get (0, 0)).Fixed = true ∧
      g1.fixedCount = 1 ∧ g1.FixedNodes = 2 := by
  have hA := noClash_assignOf testSolution testSolution_valid
  have hA0 : assignOf testSolution ((0 : Fin 9), (0 : Fin 9)) = 1 := by decide
  obtain ⟨g, he, hc⟩ := fixNode_compat _ hA NewGrid ((0 : Fin 9), (0 : Fin 9))
    (compat_assignOf_newGrid testSolution testSolution_valid)
  obtain ⟨g1, he1, _⟩ := fixNode_compat _ hA g ((0 : Fin 9), (0 : Fin 9)) hc
  rw [hA0] at he he1
  have hfix : NewGrid.Fix 0 0 1 = .ok (g, true) := by
    rw [← he]
    exact fix_cell NewGrid ((0 : Fin 9), (0 : Fin 9)) 1
  have hfix1 : g.Fix 0 0 1 = .ok (g1, true) := by
    rw [← he1]
    exact fix_cell g ((0 : Fin 9), (0 : Fin 9)) 1
  obtain ⟨g', ok, he', htrue, _, _⟩ := fixNode_spec NewGrid ((0 : Fin 9), (0 : Fin 9)) 1
  rw [he] at he'
  simp only [Except.ok.injEq, Prod.mk.injEq] at he'
  obtain ⟨rfl, rfl⟩ := he'
  have hfa := htrue rfl
  have hnew : (NewGrid.get ((0 : Fin 9), (0 : Fin 9))).Fixed = false := by
    rw [get_NewGrid]
    rfl
  have hinv := inv_fixedAt inv_newGrid hfa hnew
  have hfixed : (g.get ((0 : Fin 9), (0 : Fin 9))).Fixed = true := by rw [hfa.node]
  have hcount1 : g.fixedCount = 1 := by
    rw [fixedCount_fixedAt hfa hnew]
    have : NewGrid.fixedCount = 0 := by
      have := inv_newGrid.count
      have h0 : NewGrid.FixedNodes = 0 := rfl
      omega
    rw [this]
  obtain ⟨_, hb⟩ := fix_fixed_cell_breaks_counter g g1 0 0 1 hinv.count hfix1
  obtain ⟨hb1, hb2⟩ := hb hfixed
  refine ⟨g, g1, hfix, hfix1, hinv.count, hfixed, by rw [hb1, hcount1], ?_⟩
  rw [hb2, hb1, hcount1]
  rfl

/-- C15 (counterexample). `Set` of `__3456789` / `1________` / ... on a new
grid fails with the invalid grid error while reading the `1`: propagation has
emptied the node of column 1, row 0. On the grid it leaves, `Fix(8, 8, 1)`
returns `true`, and that node still has no candidate. -/
theorem fix_keeps_empty_node_counterexample :
    ∃ g g1, NewGrid.Set emptiesOneNode = .ok (g, false, some .invalidGrid) ∧
      g.Fix 8 8 1 = .ok (g1, true) ∧ (g1.get (1, 0)).Vals = [] := by
  have h : fixKeepsEmptyNode (NewGrid.Set emptiesOneNode) = true := by decide!
  unfold fixKeepsEmptyNode at h
  split at h
  · next g heq =>
    split at h
    · next g1 hfix =>
      simp only [Bool.and_eq_true, List.isEmpty_iff] at h
      exact ⟨g, g1, heq, hfix, h.2⟩
    · exact absurd h (by simp)
  · exact absurd h (by simp)

/-- C15 (amended). For every grid and every call `Fix(x, y, d)` that returns
`true`: the node of `(x, y)` is fixed with `d` as its only candidate; in each
of the 27 groups the value of a node with one candidate is a candidate of no
other node of the group that is not fixed, and a further pass of `Reduce`
changes nothing and returns `reduced = false`, `invalid = false`; and no node
has an empty candidate set when none had one before the call. -/
theorem fix_reaches_fixpoint (g g1 : Grid) (x y : Fin 9) (d : Int)
    (hfix : g.Fix x.val y.val d = .ok (g1, true)) :
    g1.get (x, y) = { Vals := [d], Fixed := true } ∧
      (∀ u ∈ units, ∀ (i j : Nat) (p q : Cell) (v : Int), i ≠ j → u[i]? = some p →
        u[j]? = some q → (g1.get p).Vals = [v] →
          (g1.get q).Fixed = true ∨ v ∉ (g1.get q).Vals) ∧
      g1.Reduce = .ok (g1, false, false) ∧
      (NoEmpty g → NoEmpty g1) := by
  rw [fix_cell g (x, y) d] at hfix
  obtain ⟨g2, ok, he, htrue, _, _⟩ := fixNode_spec g (x, y) d
  have he' := he
  rw [hfix] at he'
  simp only [Except.ok.injEq, Prod.mk.injEq] at he'
  obtain ⟨rfl, rfl⟩ := he'
  have hfa := htrue rfl
  exact ⟨hfa.node, settled_of_fixpoint g1 hfa.fixpoint, reduce_fixpoint g1 hfa.fixpoint,
    fun hne => fixNode_noEmpty hne hfix⟩

theorem noEmpty_newGrid : NoEmpty NewGrid := by
  intro p
  rw [get_NewGrid]
  simp [NewNode]

/-- The first `Fix` on a new grid is an instance of the amended C15. -/
theorem fix_reaches_fixpoint_witness :
    ∃ g1, NewGrid.Fix 0 0 1 = .ok (g1, true) ∧
      g1.get (0, 0) = { Vals := [1], Fixed := true } ∧
      g1.Reduce = .ok (g1, false, false) ∧ NoEmpty NewGrid ∧ NoEmpty g1 := by
  have hA := noClash_assignOf testSolution testSolution_valid
  have hA0 : assignOf testSolution ((0 : Fin 9), (0 : Fin 9)) = 1 := by decide
  obtain ⟨g1, he, _⟩ := fixNode_compat _ hA NewGrid ((0 : Fin 9), (0 : Fin 9))
    (compat_assignOf_newGrid testSolution testSolution_valid)
  rw [hA0] at he
  have hfix : NewGrid.Fix 0 0 1 = .ok (g1, true) := by
    rw [← he]
    exact fix_cell NewGrid ((0 : Fin 9), (0 : Fin 9)) 1
  obtain ⟨a, _, c, d⟩ := fix_reaches_fixpoint NewGrid g1 0 0 1 hfix
  exact ⟨g1, hfix, a, c, noEmpty_newGrid, d noEmpty_newGrid⟩

/-- C16. A pass of `Reduce` returns on every grid, only removes candidates,
and changes neither a fixed node nor a `Fixed` flag. When a complete valid
assignment has its digit among the candidates of every node, the pass returns
`invalid = false` and the digits of the assignment are still among the
candidates. -/
theorem reduce_never_guesses (g : Grid) :
    (∃ g1 red inval, g.Reduce = .ok (g1, red, inval) ∧
      (∀ p, ∀ v ∈ (g1.get p).Vals, v ∈ (g.get p).Vals) ∧
      (∀ p, (g1.get p).Fixed = (g.get p).Fixed) ∧
      (∀ p, (g.get p).Fixed = true → g1.get p = g.get p)) ∧
    ∀ A, ValidAssignment A → (∀ p, A p ∈ (g.get p).Vals) →
      ∃ g1 red, g.Reduce = .ok (g1, red, false) ∧ ∀ p, A p ∈ (g1.get p).Vals := by
  obtain ⟨g1, red, inval, he, hs, _⟩ := reduce_spec g
  refine ⟨⟨g1, red, inval, he, hs.sub, hs.fixed, hs.keep⟩, ?_⟩
  intro A hA hc
  obtain ⟨hinv, hc1⟩ := reduce_compat A (noClash_of_validAssignment hA) g g1 red inval hc he
  subst hinv
  exact ⟨g1, red, he, hc1⟩

theorem testSolution_assignment : ValidAssignment (assignOf testSolution) := by decide!

/-- The grid that `Set` makes of the puzzle of `TestSolve`, with the expected
solution as the assignment, is an instance of C16. -/
theorem reduce_never_guesses_witness :
    ∃ g, NewGrid.Set testPuzzle = .ok (g, true, none) ∧
      ValidAssignment (assignOf testSolution) ∧
      (∀ p, assignOf testSolution p ∈ (g.get p).Vals) ∧
      ∃ g1 red, g.Reduce = .ok (g1, red, false) ∧
        ∀ p, assignOf testSolution p ∈ (g1.get p).Vals := by
  obtain ⟨g, hset, hc⟩ := set_accepts testPuzzle testSolution testPuzzle_length
    testPuzzle_accepted testSolution_valid testSolution_agrees
  exact ⟨g, hset, testSolution_assignment, hc,
    (reduce_never_guesses g).2 _ testSolution_assignment hc⟩

/-- C17. `Solve` terminates on every grid. A pass of `Reduce` returns and,
when it reports a reduction, leaves fewer candidates; the loop of `FixNode`
ends; `FixNext` returns and a round that fixes a node leaves one more fixed
node, and its loop in `Solve` ends; the body of `Solve` makes its nested call
only on grids with more fixed nodes than its own grid. So `Solve` with room
for 81 nested calls below the first call stops on the index check or returns,
and more room changes nothing. On a grid that satisfies the invariant of `Set`
81 calls in all are enough. -/
theorem solve_terminates (g : Grid) :
    (∃ g1 red inval, g.Reduce = .ok (g1, red, inval) ∧ (red = true → g1.size < g.size)) ∧
    (∀ n val, ∃ g1 ok, g.FixNode n val = .ok (g1, ok)) ∧
    (∃ g1 fixed inval, g.FixNext = .ok (g1, fixed, inval) ∧
      (fixed = true → inval = false → g1.fixedCount = g.fixedCount + 1)) ∧
    (∃ g1 inval, Grid.fixNextLoop 82 g = .ok (g1, inval)) ∧
    (∀ fuel, Grid.solveDepth (fuel + 1) g = g.solveBody (Grid.solveDepth fuel)) ∧
    (∀ solve solve1 : Grid → Except Fault (Grid × Bool),
      (∀ ng, g.fixedCount < ng.fixedCount → solve ng = solve1 ng) →
        g.solveBody solve = g.solveBody solve1) ∧
    (g.Solve = .error .indexOutOfRange ∨ ∃ g1 r, g.Solve = .ok (g1, r)) ∧
    (∀ k, Grid.solveDepth (81 + 1 + k) g = g.Solve) ∧
    (Inv g → Grid.solveDepth 81 g = g.Solve) := by
  refine ⟨?_, ?_, ?_, ?_, fun fuel => rfl, fun solve solve1 h => solveBody_congr solve solve1 g h,
    solve_returns g, ?_, solveDepth_inv g⟩
  · obtain ⟨g1, red, inval, he, _, _, _, h4⟩ := reduce_spec g
    exact ⟨g1, red, inval, he, h4⟩
  · intro n val
    obtain ⟨g1, ok, he, _⟩ := fixNode_spec g n val
    exact ⟨g1, ok, he⟩
  · obtain ⟨g1, fixed, inval, he, _, h2⟩ := fixNextFrom_spec colMajor g
    refine ⟨g1, fixed, inval, he, ?_⟩
    intro hf hi
    obtain ⟨n, v, hnf, _, hfa⟩ := h2 hf hi
    exact fixedCount_fixedAt hfa hnf
  · obtain ⟨g1, inval, he, _⟩ := fixNextLoop_spec 82 g (by omega)
    exact ⟨g1, inval, he⟩
  · intro k
    exact solveDepth_fuel (81 + 1 + k) 82 g (by omega) (by omega)

/-- The grid that `Set` makes of the puzzle of `TestSolve` is an instance of
C17: `Solve` returns `true` on it, with 81 calls in all. -/
theorem solve_terminates_witness :
    ∃ g g1, NewGrid.Set testPuzzle = .ok (g, true, none) ∧ g.Solve = .ok (g1, true) ∧
      Grid.solveDepth 81 g = .ok (g1, true) := by
  obtain ⟨g, g1, hset, hsolve⟩ := testPuzzle_solves
  obtain ⟨hi, _, _⟩ := set_ok_spec testPuzzle g testPuzzle_length hset
  have h := (solve_terminates g).2.2.2.2.2.2.2.2 hi
  exact ⟨g, g1, hset, hsolve, by rw [h, hsolve]⟩

/-- C18. For every 81-byte string `s` that `Set` accepts on a new grid: when
the following `Solve` returns `true`, `String` returns a string that has the
byte of `s` at every index where `s` has a digit `'1'..'9'`. And on every grid,
whatever `Solve` returns, a node that was fixed before the call is left as it
was, flag and candidates. -/
theorem solve_keeps_givens (s : List Nat) (g g1 : Grid) (hlen : s.length = 81)
    (hset : NewGrid.Set s = .ok (g, true, none)) (hsolve : g.Solve = .ok (g1, true)) :
    (∃ str, g1.String = .ok str ∧
      ∀ i, i < 81 → isDigit (s.getD i 0) → str.getD i 0 = s.getD i 0) ∧
    ∀ (h h1 : Grid) (r : Bool), h.Solve = .ok (h1, r) →
      ∀ p, (h.get p).Fixed = true → h1.get p = h.get p := by
  obtain ⟨_, hstr, _, hagree⟩ := solve_true_gives_solution s g g1 hlen hset hsolve
  refine ⟨⟨_, hstr, hagree⟩, ?_⟩
  intro h h1 r he p hp
  rcases solve_frame h with hf | ⟨h2, r2, hf, _, hfalse, htrue⟩
  · rw [hf] at he
    exact absurd he (by simp)
  · rw [hf] at he
    simp only [Except.ok.injEq, Prod.mk.injEq] at he
    obtain ⟨rfl, rfl⟩ := he
    cases r2 with
    | false => rw [hfalse rfl]
    | true => exact (htrue rfl).1.keep p hp

/-- The puzzle of `TestSolve` is an instance of C18. -/
theorem solve_keeps_givens_witness :
    ∃ g g1, NewGrid.Set testPuzzle = .ok (g, true, none) ∧ g.Solve = .ok (g1, true) ∧
      (∃ str, g1.String = .ok str ∧
        ∀ i, i < 81 → isDigit (testPuzzle.getD i 0) → str.getD i 0 = testPuzzle.getD i 0) ∧
      ∀ p, (g.get p).Fixed = true → g1.get p = g.get p := by
  obtain ⟨g, g1, hset, hsolve⟩ := testPuzzle_solves
  obtain ⟨a, b⟩ := solve_keeps_givens testPuzzle g g1 testPuzzle_length hset hsolve
  exact ⟨g, g1, hset, hsolve, a, b g g1 true hsolve⟩

/-- C19. For every 81-byte string `s` over the accepted bytes: when some
complete valid grid carries the preset digits of `s` at their places, `Set` on
a new grid returns `(true, nil)`. -/
theorem set_never_rejects_solvable (s : List Nat) (hlen : s.length = 81)
    (hacc : ∀ c ∈ s, isBlank c ∨ isDigit c) (hsol : ∃ t, ValidSudoku t ∧ Agrees t s) :
    ∃ g, NewGrid.Set s = .ok (g, true, none) := by
  obtain ⟨t, hv, ha⟩ := hsol
  obtain ⟨g, hset, _⟩ := set_accepts s t hlen hacc hv ha
  exact ⟨g, hset⟩

/-- The puzzle of `TestSolve`, with the expected solution as the valid grid,
is an instance of C19. -/
theorem set_never_rejects_solvable_witness :
    testPuzzle.length = 81 ∧ (∀ c ∈ testPuzzle, isBlank c ∨ isDigit c) ∧
      (ValidSudoku testSolution ∧ Agrees testSolution testPuzzle) ∧
      ∃ g, NewGrid.Set testPuzzle = .ok (g, true, none) :=
  ⟨testPuzzle_length, testPuzzle_accepted, ⟨testSolution_valid, testSolution_agrees⟩,
    set_never_rejects_solvable testPuzzle testPuzzle_length testPuzzle_accepted
      ⟨testSolution, testSolution_valid, testSolution_agrees⟩⟩

/-- C20. For every 81-byte string `s` that `Set` accepts on a new grid: when
the following `Solve` returns `true` (which needs an unset cell), the string of
the grid is a valid grid that carries the presets of `s`, and read column by
column (column `x = 0..8` outside, row `y = 0..8` inside) it is, in the
lexicographic order, at most every valid grid that carries the presets. -/
theorem solve_finds_least (s : List Nat) (g g1 : Grid) (hlen : s.length = 81)
    (hset : NewGrid.Set s = .ok (g, true, none)) (hsolve : g.Solve = .ok (g1, true)) :
    ∃ str, g1.String = .ok str ∧ ValidSudoku str ∧ Agrees str s ∧
      ∀ t, ValidSudoku t → Agrees t s → LexLe (colMajorOf str) (colMajorOf t) := by
  obtain ⟨_, hstr, hvalid, hagree⟩ := solve_true_gives_solution s g g1 hlen hset hsolve
  refine ⟨_, hstr, hvalid, hagree, ?_⟩
  intro t hv ha
  rw [colMajorOf_string]
  exact solve_least s g g1 hlen hset hsolve t hv ha

/-- The puzzle of `TestSolve` is an instance of C20: the grid that `Solve`
finds is at most the expected solution. -/
theorem solve_finds_least_witness :
    ∃ g g1, NewGrid.Set testPuzzle = .ok (g, true, none) ∧ g.Solve = .ok (g1, true) ∧
      ∃ str, g1.String = .ok str ∧ ValidSudoku str ∧ Agrees str testPuzzle ∧
        LexLe (colMajorOf str) (colMajorOf testSolution) := by
  obtain ⟨g, g1, hset, hsolve⟩ := testPuzzle_solves
  obtain ⟨str, a, b, c, d⟩ := solve_finds_least testPuzzle g g1 testPuzzle_length hset hsolve
  exact ⟨g, g1, hset, hsolve, str, a, b, c, d testSolution testSolution_valid testSolution_agrees⟩

end Sudoku
